import Mathlib

/-!
# loco: verification of the measurement engine (`src/loco.c`)

Shallow embedding of the modal analyzer (`calculate_mode` and the extraction loop of
`session_p1_calculate` / `session_p2_calculate`), the decision procedure
(`session_calculate`), the train receiver (`receive_train`), the four samplers
(train-length discovery in `session_rtt_sync`, `session_prelim`, `session_p1`,
`session_p2`), the calibration loops of `session_rtt_sync`, `session_end`, the CSV
reader and the offline path from the command line to the bin width, followed by the
theorems about them.

Modelling conventions.
* A finite C `double` is the rational it denotes (`ℚ`); `fl64` rounds a rational to
  the nearest `double` (IEEE 754 binary64, ties to even, evaluation in `double`
  precision). The comparisons of `calculate_mode` that decide which samples form a
  bin (lines 1791, 1845, 1911) are modelled in `double` arithmetic: both sides are
  rounded, the sum or difference with `bin_width` is rounded again (`dadd`, `dsub`).
  A rational handed to `calculate_mode` as a sample or as the bin width stands for
  the `double` nearest to it. The other `double` expressions (merits, bandwidths,
  the tolerance product) are evaluated exactly; a division by zero, which C
  evaluates to an infinity or a NaN, is `0` in `ℚ`.
* C `int` values are `Int` (indices and counts stay far below `2^31`); the `uint32_t`
  packet counter of `receive_train` is a `Nat` incremented modulo `2^32`.
* A C array passed by pointer is a function from index to value, an explicit
  `elements` count travels with it as in the source.
* The validity array of `calculate_mode` only ever holds `1` (set by the callers) or
  `0` (cleared by `calculate_mode`); it is a function `Int → Bool`.
* Constants of `common.h` and the routines of the statistics kernel are not part of
  `loco.c`; they are parameters of the definitions (`ModeParams`, `CalcParams`,
  `SamplerParams`, `CalibParams`, `PacketParams`, the message code `MSG_TRAIN_SENT`).
* A `for` loop over a known range is a fold or a recursion over the number of
  iterations left. The two `while ( processing )` loops of `calculate_mode` and the
  extraction loop take an iteration bound and return `none` if the bound is reached;
  the theorems show that the bounds given to the two `while` loops are never reached
  on sorted input, and say when the extraction loop is left.
* The array `int train_fails[TRAIN_LENGTH_MAX]` of the train-length discovery is a
  total map in `discovery_body`; `discovery_body_checked` and
  `discovery_loop_checked` add the bounds of the array and end in `none` at an
  access outside of them.
* The outside world enters as data: a call of `receive_train` runs on the list of
  what its passes through `select` observe, a sampler runs on the list of the
  outcomes of its train attempts. A list that ends before the loop is left gives the
  state in which the loop waits for more.
-/

namespace Loco

/-! ## Data model -/

/-- The record `struct mode_s` of `loco.c`. -/
structure mode_s where
  count : Int
  lo : ℚ
  hi : ℚ
  bell_count : Int
  bell_lo : ℚ
  bell_hi : ℚ
  bell_kurtosis : ℚ
deriving DecidableEq

/-- Constants of `common.h` used by `calculate_mode`, and the kurtosis routine
of the statistics kernel (called on a pointer into the array and a length). -/
structure ModeParams where
  BIN_COUNT_TOLERANCE : ℚ
  BIN_COUNT_NOISE_THRESHOLD : Int
  stat_array_kurtosis : (Int → ℚ) → Int → ℚ

/-- The C cast `(int)x` of a `double`: truncation toward zero. -/
def toInt (x : ℚ) : Int := if 0 ≤ x then Int.floor x else Int.ceil x

/-- Rounding of a rational to the nearest integer, a tie going to the even one. -/
def round_even (y : ℚ) : Int :=
  if y - (Int.floor y : ℚ) < 1 / 2 then Int.floor y
  else if 1 / 2 < y - (Int.floor y : ℚ) then Int.floor y + 1
  else if Int.floor y % 2 = 0 then Int.floor y
  else Int.floor y + 1

/-- The binary exponent under which a `double` keeps the value `x`: the exponent of
`x`, not below the exponent `-1022` of the subnormal numbers. -/
def fl64_exponent (x : ℚ) : Int := max (Int.log 2 |x|) (-1022)

/-- The C type `double` (IEEE 754 binary64, round to nearest, ties to even): the
`double` nearest to the rational `x`, a multiple of `2 ^ (e - 52)` for the exponent
`e` of `x`. The exponent has no upper bound here: a value beyond the largest `double`
compares with the finite `double`s as the infinity it would round to. -/
def fl64 (x : ℚ) : ℚ :=
  (round_even (x / (2 : ℚ) ^ (fl64_exponent x - 52)) : ℚ) * (2 : ℚ) ^ (fl64_exponent x - 52)

/-- The C expression `x + y` on two `double`s: the sum of the two `double`s, rounded
to `double`. -/
def dadd (x y : ℚ) : ℚ := fl64 (fl64 x + fl64 y)

/-- The C expression `x - y` on two `double`s: the difference of the two `double`s,
rounded to `double`. -/
def dsub (x y : ℚ) : ℚ := fl64 (fl64 x - fl64 y)

/-! ## The modal analyzer: `calculate_mode` and the extraction loop -/

/-- The check `for (i=0; i<elements; i++) j += array_valid[i];` (lines 1761-1763). -/
def valid_total (array_valid : Int → Bool) (elements : Int) : Int :=
  (List.range elements.toNat).foldl
    (fun (j : Int) (i : Nat) => j + (if array_valid (i : Int) then 1 else 0)) 0

/-- The loop `while (j < elements && array_valid[j] && array_ordered[j] <
array_ordered[i] + bin_width) j++;` (lines 1791-1792); the first argument
counts the indices left below `elements`. The sum is a `double` sum: it is rounded
before it is compared. -/
def central_scan (array_ordered : Int → ℚ) (array_valid : Int → Bool) (bin_width : ℚ)
    (i : Int) : Nat → Int → Int
  | 0, j => j
  | n + 1, j =>
    if array_valid j &&
        decide (fl64 (array_ordered j) < dadd (array_ordered i) bin_width) then
      central_scan array_ordered array_valid bin_width i n (j + 1)
    else j

/-- The variables `count`, `mode_index_lo`, `mode_index_hi` of the central search. -/
structure Central where
  count : Int
  mode_index_lo : Int
  mode_index_hi : Int
deriving DecidableEq

/-- One iteration of the `for` loop of lines 1786-1801. -/
def central_step (array_ordered : Int → ℚ) (array_valid : Int → Bool) (elements : Int)
    (bin_width : ℚ) (s : Central) (i : Int) : Central :=
  if array_valid i then
    let j := central_scan array_ordered array_valid bin_width i (elements - i).toNat i
    if s.count < j - i then ⟨j - i, i, j - 1⟩ else s
  else s

/-- The central-bin search of lines 1785-1801. -/
def central_bin (array_ordered : Int → ℚ) (array_valid : Int → Bool) (elements : Int)
    (bin_width : ℚ) : Central :=
  (List.range elements.toNat).foldl
    (fun (s : Central) (i : Nat) =>
      central_step array_ordered array_valid elements bin_width s (i : Int))
    ⟨0, 0, 0⟩

/-- The variables `lbin_count/lbin_index_lo/lbin_index_hi` (and the `rbin_` ones). -/
structure Bin where
  count : Int
  index_lo : Int
  index_hi : Int
deriving DecidableEq

/-- The loop `for (j=i; j>0; j--) if (array_ordered[j] > array_ordered[i]-bin_width)
count++; else break;` (lines 1844-1848): returns the final `(j, count)`; the
first argument counts the values of `j` left above `0`. The difference is a `double`
difference: it is rounded before it is compared. -/
def left_inner (array_ordered : Int → ℚ) (bin_width : ℚ) (i : Int) :
    Nat → Int → Int → Int × Int
  | 0, j, count => (j, count)
  | n + 1, j, count =>
    if fl64 (array_ordered j) > dsub (array_ordered i) bin_width then
      left_inner array_ordered bin_width i n (j - 1) (count + 1)
    else (j, count)

/-- The loop `for (i=bin_index_hi-1; i>bin_index_lo-1; i--)` of lines 1841-1856;
the first argument counts the iterations left. -/
def left_scan (array_ordered : Int → ℚ) (bin_width : ℚ) : Nat → Int → Bin → Bin
  | 0, _, lbin => lbin
  | n + 1, i, lbin =>
    let r := left_inner array_ordered bin_width i i.toNat i 0
    let lbin1 : Bin := if r.2 > lbin.count then ⟨r.2, r.1 + 1, i⟩ else lbin
    left_scan array_ordered bin_width n (i - 1) lbin1

/-- The loop `for (j=i; j<elements; j++) if (array_ordered[j] <=
array_ordered[i]+bin_width) count++; else break;` (lines 1910-1914), the sum rounded
to `double`. -/
def right_inner (array_ordered : Int → ℚ) (bin_width : ℚ) (i : Int) :
    Nat → Int → Int → Int × Int
  | 0, j, count => (j, count)
  | n + 1, j, count =>
    if fl64 (array_ordered j) ≤ dadd (array_ordered i) bin_width then
      right_inner array_ordered bin_width i n (j + 1) (count + 1)
    else (j, count)

/-- The loop `for (i=bin_index_lo+1; i<bin_index_hi+1; i++)` of lines 1907-1922. -/
def right_scan (array_ordered : Int → ℚ) (elements : Int) (bin_width : ℚ) :
    Nat → Int → Bin → Bin
  | 0, _, rbin => rbin
  | n + 1, i, rbin =>
    let r := right_inner array_ordered bin_width i (elements - i).toNat i 0
    let rbin1 : Bin := if r.2 > rbin.count then ⟨r.2, i, r.1 - 1⟩ else rbin
    right_scan array_ordered elements bin_width n (i + 1) rbin1

/-- The locals of `calculate_mode` that live across the two expansion loops
(`bin_lo`, `bin_hi` are written but never read and are left out). -/
structure Bell where
  mode : mode_s
  bell_index_lo : Int
  bell_index_hi : Int
  bin_count : Int
  bin_count_tolerance : Int
  bin_index_lo : Int
  bin_index_hi : Int
  lbin : Bin
  rbin : Bin

/-- The search for the left bin at the head of the left `while` body (lines
1838-1857): `lbin_count = 0`, then the scan when `bin_index_lo > 0`. -/
def left_find (array_ordered : Int → ℚ) (bin_width : ℚ) (s : Bell) : Bin :=
  if s.bin_index_lo > 0 then
    left_scan array_ordered bin_width (s.bin_index_hi - s.bin_index_lo).toNat
      (s.bin_index_hi - 1) ⟨0, s.lbin.index_lo, s.lbin.index_hi⟩
  else ⟨0, s.lbin.index_lo, s.lbin.index_hi⟩

/-- The absorption of the left bin into the bell (lines 1869-1880). -/
def left_absorb (P : ModeParams) (array_ordered : Int → ℚ) (s : Bell) (lbin : Bin) : Bell :=
  { mode := { s.mode with
      bell_count := s.mode.bell_count + (s.bin_index_lo - lbin.index_lo)
      bell_lo := array_ordered lbin.index_lo }
    bell_index_lo := lbin.index_lo
    bell_index_hi := s.bell_index_hi
    bin_count := lbin.count
    bin_count_tolerance := toInt (P.BIN_COUNT_TOLERANCE * (lbin.count : ℚ))
    bin_index_lo := lbin.index_lo
    bin_index_hi := lbin.index_hi
    lbin := lbin
    rbin := s.rbin }

/-- The left expansion `while ( processing )` of lines 1834-1887. The first
argument bounds the number of iterations; `none` means the bound was reached
with `processing` still set. -/
def left_expand (P : ModeParams) (array_ordered : Int → ℚ) (bin_width : ℚ) :
    Nat → Bell → Option Bell
  | 0, _ => none
  | n + 1, s =>
    if (left_find array_ordered bin_width s).count > 0 then
      if (left_find array_ordered bin_width s).count < s.bin_count + s.bin_count_tolerance then
        left_expand P array_ordered bin_width n
          (left_absorb P array_ordered s (left_find array_ordered bin_width s))
      else some { s with lbin := left_find array_ordered bin_width s }
    else some { s with lbin := left_find array_ordered bin_width s }

/-- The search for the right bin at the head of the right `while` body (lines
1904-1923): `rbin_count = 0`, then the scan when `bin_index_lo < elements - 1`. -/
def right_find (array_ordered : Int → ℚ) (elements : Int) (bin_width : ℚ) (s : Bell) : Bin :=
  if s.bin_index_lo < elements - 1 then
    right_scan array_ordered elements bin_width (s.bin_index_hi - s.bin_index_lo).toNat
      (s.bin_index_lo + 1) ⟨0, s.rbin.index_lo, s.rbin.index_hi⟩
  else ⟨0, s.rbin.index_lo, s.rbin.index_hi⟩

/-- The absorption of the right bin into the bell (lines 1935-1946). -/
def right_absorb (P : ModeParams) (array_ordered : Int → ℚ) (s : Bell) (rbin : Bin) : Bell :=
  { mode := { s.mode with
      bell_count := s.mode.bell_count + (rbin.index_hi - s.bin_index_hi)
      bell_hi := array_ordered rbin.index_hi }
    bell_index_lo := s.bell_index_lo
    bell_index_hi := rbin.index_hi
    bin_count := rbin.count
    bin_count_tolerance := toInt (P.BIN_COUNT_TOLERANCE * (rbin.count : ℚ))
    bin_index_lo := rbin.index_lo
    bin_index_hi := rbin.index_hi
    lbin := s.lbin
    rbin := rbin }

/-- The right expansion `while ( processing )` of lines 1900-1953. -/
def right_expand (P : ModeParams) (array_ordered : Int → ℚ) (elements : Int) (bin_width : ℚ) :
    Nat → Bell → Option Bell
  | 0, _ => none
  | n + 1, s =>
    if (right_find array_ordered elements bin_width s).count > 0 then
      if (right_find array_ordered elements bin_width s).count <
          s.bin_count + s.bin_count_tolerance then
        right_expand P array_ordered elements bin_width n
          (right_absorb P array_ordered s (right_find array_ordered elements bin_width s))
      else some { s with rbin := right_find array_ordered elements bin_width s }
    else some { s with rbin := right_find array_ordered elements bin_width s }

/-- The state of `calculate_mode` after the central search (lines 1803-1831). -/
def bell_init (P : ModeParams) (array_ordered : Int → ℚ) (c : Central) : Bell :=
  { mode :=
      { count := c.count
        lo := array_ordered c.mode_index_lo
        hi := array_ordered c.mode_index_hi
        bell_count := c.count
        bell_lo := array_ordered c.mode_index_lo
        bell_hi := array_ordered c.mode_index_hi
        bell_kurtosis := 0 }
    bell_index_lo := c.mode_index_lo
    bell_index_hi := c.mode_index_hi
    bin_count := c.count
    bin_count_tolerance := toInt (P.BIN_COUNT_TOLERANCE * (c.count : ℚ))
    bin_index_lo := c.mode_index_lo
    bin_index_hi := c.mode_index_hi
    lbin := ⟨0, 0, 0⟩
    rbin := ⟨0, 0, 0⟩ }

/-- The reset before the right expansion (lines 1892-1895): `bin_count` and the
bin indices go back to the central bin, `bin_count_tolerance` is not reset. -/
def bell_reset (c : Central) (s : Bell) : Bell :=
  { s with
    bin_count := s.mode.count
    bin_index_lo := c.mode_index_lo
    bin_index_hi := c.mode_index_hi }

/-- The loop `for (i=bell_index_lo; i<=bell_index_hi; i++) array_valid[i] = 0;`
(lines 1956-1957). -/
def mark_classified (array_valid : Int → Bool) (bell_index_lo bell_index_hi : Int) :
    Int → Bool :=
  fun k => if bell_index_lo ≤ k ∧ k ≤ bell_index_hi then false else array_valid k

/-- What one call of `calculate_mode` leaves behind: the return code, the
validity array, the mode record, and the index ranges of the central bin and of
the bell (locals, reported on the debug log). -/
structure ModeResult where
  rc : Int
  array_valid : Int → Bool
  mode : mode_s
  mode_index_lo : Int
  mode_index_hi : Int
  bell_index_lo : Int
  bell_index_hi : Int

/-- The function `calculate_mode` (lines 1726-1980). `none` would mean that one
of the two `while ( processing )` loops did not leave within its bound. -/
def calculate_mode (P : ModeParams) (array_ordered : Int → ℚ) (array_valid : Int → Bool)
    (elements : Int) (bin_width : ℚ) (mode : mode_s) : Option ModeResult :=
  if valid_total array_valid elements = 0 then
    some ⟨-1, array_valid, mode, 0, 0, 0, 0⟩
  else
    let c := central_bin array_ordered array_valid elements bin_width
    match left_expand P array_ordered bin_width (c.mode_index_hi.toNat + 1)
        (bell_init P array_ordered c) with
    | none => none
    | some s1 =>
      match right_expand P array_ordered elements bin_width (elements.toNat + 1)
          (bell_reset c s1) with
      | none => none
      | some s2 =>
        let valid1 := mark_classified array_valid s2.bell_index_lo s2.bell_index_hi
        if s2.mode.count > P.BIN_COUNT_NOISE_THRESHOLD then
          let k := P.stat_array_kurtosis (fun t => array_ordered (s2.bell_index_lo + t))
            (s2.bell_index_hi - s2.bell_index_lo + 1)
          let m : mode_s := { s2.mode with bell_kurtosis := k }
          if k = -99999 then
            some ⟨0, valid1, m, c.mode_index_lo, c.mode_index_hi,
              s2.bell_index_lo, s2.bell_index_hi⟩
          else
            some ⟨1, valid1, m, c.mode_index_lo, c.mode_index_hi,
              s2.bell_index_lo, s2.bell_index_hi⟩
        else
          some ⟨0, valid1, s2.mode, c.mode_index_lo, c.mode_index_hi,
            s2.bell_index_lo, s2.bell_index_hi⟩

/-- The extraction loop of `session_p1_calculate` / `session_p2_calculate`
(lines 1124-1128, 1230-1234): `while ((i = calculate_mode(...)) != -1) if (i == 1)
modes[modes_count++] = mode;`. The first argument bounds the number of calls of
`calculate_mode`; the result is the list of stored modes and the final validity
array. -/
def extract_modes (P : ModeParams) (array_ordered : Int → ℚ) (elements : Int) (bin_width : ℚ) :
    Nat → (Int → Bool) → mode_s → List mode_s → Option (List mode_s × (Int → Bool))
  | 0, _, _, _ => none
  | n + 1, array_valid, mode, modes =>
    match calculate_mode P array_ordered array_valid elements bin_width mode with
    | none => none
    | some r =>
      if r.rc = -1 then some (modes, r.array_valid)
      else extract_modes P array_ordered elements bin_width n r.array_valid r.mode
        (if r.rc = 1 then modes ++ [r.mode] else modes)

/-! ## The decision procedure: `session_calculate` -/

/-- The assessment classes `BW_ASSESS_*` of `common.h` (distinct constants). -/
inductive Assessment where
  | UNKNOWN
  | QUICK
  | MODE
  | NOMODE
  | LBOUND
deriving DecidableEq

/-- Constants of `common.h` and routines of the statistics kernel used by the
decision procedure (each routine is called on an array and its length). -/
structure CalcParams where
  BW_COVAR_THRESHOLD : ℚ
  ADR_THRESHOLD : ℚ
  stat_array_interquartile_mean : (Int → ℚ) → Int → ℚ
  stat_array_std : (Int → ℚ) → Int → ℚ

/-- The fields of `struct config_s` used by the samplers and the decision procedure. -/
structure config_s where
  train_length : Int
  train_length_max : Int
  train_packet_length : Int
  train_packet_length_min : Int
  train_packet_length_max : Int
  packet_dispersion_delta_min : ℚ
  prelim_bw_mean : ℚ
  prelim_bw_std : ℚ
  p1_train_packet_length_min : Int
  p1_train_packet_length_max : Int
  p1_trains_bw : Int → ℚ
  p1_trains_delta : Int → ℚ
  p1_trains_count : Int
  p1_trains_count_discarded : Int
  p1_modes : Int → mode_s
  p1_modes_count : Int
  p2_trains_bw : Int → ℚ
  p2_trains_delta : Int → ℚ
  p2_trains_count : Int
  p2_trains_count_discarded : Int
  p2_modes : Int → mode_s
  p2_modes_count : Int
  bandwidth_assessment : Assessment
  bandwidth_lo : ℚ
  bandwidth_hi : ℚ
  bandwidth_estimated : ℚ
  bin_width : ℚ

/-- The locals `merit_max`, `merit_max_index` of the two merit loops. -/
structure Merit where
  merit_max : ℚ
  merit_max_index : Int
deriving DecidableEq

/-- The expression `bell_kurtosis * ((double)count / (double)trains_count)` of lines
1272 and 1296. -/
def merit_of (m : mode_s) (trains_count : Int) : ℚ :=
  m.bell_kurtosis * ((m.count : ℚ) / (trains_count : ℚ))

/-- One iteration of the phase-2 merit loop (lines 1270-1278). -/
def p2_merit_step (conf : config_s) (s : Merit) (i : Int) : Merit :=
  if merit_of (conf.p2_modes i) conf.p2_trains_count > s.merit_max then
    ⟨merit_of (conf.p2_modes i) conf.p2_trains_count, i⟩
  else s

/-- The phase-2 merit loop `for (i=0; i<conf.p2_modes_count; i++)` (lines 1265-1278). -/
def p2_merit_loop (conf : config_s) : Merit :=
  (List.range conf.p2_modes_count.toNat).foldl
    (fun (s : Merit) (i : Nat) => p2_merit_step conf s (i : Int)) ⟨0, 0⟩

/-- The value of the local `adr` when the phase-1 comparison starts (lines 1247-1282). -/
def session_calculate_adr (K : CalcParams) (conf : config_s) : ℚ :=
  let adr := K.stat_array_interquartile_mean conf.p2_trains_bw conf.p2_trains_count
  let adr_std := K.stat_array_std conf.p2_trains_bw conf.p2_trains_count
  if conf.p2_modes_count = 1 ∧ adr_std / adr < K.BW_COVAR_THRESHOLD ∧
      adr / conf.prelim_bw_mean < K.ADR_THRESHOLD then
    ((conf.p2_modes 0).hi + (conf.p2_modes 1).lo) / 2
  else if conf.p2_modes_count > 1 then
    ((conf.p2_modes (p2_merit_loop conf).merit_max_index).hi +
      (conf.p2_modes (p2_merit_loop conf).merit_max_index).lo) / 2
  else adr

/-- One iteration of the phase-1 merit loop (lines 1292-1304). -/
def p1_merit_step (conf : config_s) (adr : ℚ) (s : Merit) (i : Int) : Merit :=
  if (conf.p1_modes i).hi > adr then
    if merit_of (conf.p1_modes i) conf.p1_trains_count > s.merit_max then
      ⟨merit_of (conf.p1_modes i) conf.p1_trains_count, i⟩
    else s
  else s

/-- The phase-1 merit loop `for (i=0; i<conf.p1_modes_count; i++)` (lines 1287-1304). -/
def p1_merit_loop (conf : config_s) (adr : ℚ) : Merit :=
  (List.range conf.p1_modes_count.toNat).foldl
    (fun (s : Merit) (i : Nat) => p1_merit_step conf adr s (i : Int)) ⟨0, 0⟩

/-- The function `session_calculate` (lines 1241-1339); the condition of line 1285
is the literal `1`. -/
def session_calculate (K : CalcParams) (conf : config_s) : config_s :=
  let adr := session_calculate_adr K conf
  if (1 : Int) ≠ 0 then
    let m := p1_merit_loop conf adr
    if m.merit_max > 0 then
      { conf with
        bandwidth_lo := (conf.p1_modes m.merit_max_index).lo
        bandwidth_hi := (conf.p1_modes m.merit_max_index).hi
        bandwidth_estimated :=
          ((conf.p1_modes m.merit_max_index).lo + (conf.p1_modes m.merit_max_index).hi) / 2
        bandwidth_assessment := Assessment.MODE }
    else
      { conf with
        bandwidth_estimated := adr
        bandwidth_lo := adr - conf.bin_width
        bandwidth_hi := adr + conf.bin_width
        bandwidth_assessment := Assessment.NOMODE }
  else
    { conf with
      bandwidth_estimated := adr
      bandwidth_lo := adr
      bandwidth_hi := adr + conf.bin_width
      bandwidth_assessment := Assessment.LBOUND }

/-! ## The train receiver: `receive_train` -/

/-- What one pass through the body of the reception loop observes (lines 1633-1697):
the return value `p` of `select`, whether `errno` was `EINTR` when `p` is `-1`,
for a readable UDP socket the pair `(received_train_id, received_packet_id)` decoded
from the packet buffer after `recvfrom` together with the reading `t_mark` of
`gettimeofday`, and for a readable TCP socket the code `c_code` after
`receive_control_message`. -/
structure SelectEvent where
  p : Int
  eintr : Bool
  udp : Option (Nat × Nat)
  t_mark : Int
  tcp : Option Nat
deriving DecidableEq

/-- The locals of `receive_train` that the loop updates, with the caller's
`timestamps` array (times in microseconds). -/
structure RecvState where
  train_state : Int
  processing : Bool
  train_sent : Bool
  expected_packet_id : Nat
  timestamps : Nat → Int

/-- The comparison `expected_packet_id == length` of a `uint32_t` with an `int`
(the `int` is converted to `uint32_t`). -/
def length_reached (expected_packet_id : Nat) (length : Int) : Prop :=
  (expected_packet_id : Int) = length % 4294967296

instance (e : Nat) (l : Int) : Decidable (length_reached e l) := by
  unfold length_reached
  infer_instance

/-- The handling of a received packet (lines 1662-1672): a packet of another train
sets `train_state = 2`, the expected packet of this train is counted and its arrival
time stored, any other packet is ignored. -/
def recv_packet (train_id : Nat) (st : RecvState) (received : Nat × Nat) (t_mark : Int) :
    RecvState :=
  if train_id ≠ received.1 then { st with train_state := 2 }
  else if received.2 = st.expected_packet_id then
    { st with
      expected_packet_id := (st.expected_packet_id + 1) % 4294967296
      timestamps := Function.update st.timestamps received.2 t_mark }
  else st

/-- The UDP branch of the loop body (lines 1649-1677). -/
def recv_udp (train_id : Nat) (length : Int) (st : RecvState) (received : Nat × Nat)
    (t_mark : Int) : RecvState :=
  if (recv_packet train_id st received t_mark).train_sent then
    if length_reached (recv_packet train_id st received t_mark).expected_packet_id length then
      { recv_packet train_id st received t_mark with processing := false }
    else recv_packet train_id st received t_mark
  else recv_packet train_id st received t_mark

/-- The TCP branch of the loop body (lines 1681-1693). -/
def recv_tcp (MSG_TRAIN_SENT : Nat) (length : Int) (st : RecvState) (c_code : Nat) :
    RecvState :=
  if c_code = MSG_TRAIN_SENT then
    if length_reached st.expected_packet_id length then
      { st with train_sent := true, processing := false }
    else { st with train_sent := true }
  else st

/-- One pass through the loop body (lines 1633-1697); `none` when `select` failed
with an error other than `EINTR` and `session_end(1)` ends the process. -/
def recv_step (MSG_TRAIN_SENT : Nat) (train_id : Nat) (length : Int) (st : RecvState)
    (ev : SelectEvent) : Option RecvState :=
  if ev.p = -1 ∧ ev.eintr = false then none
  else
    let st1 := match ev.udp with
      | some received => recv_udp train_id length st received ev.t_mark
      | none => st
    let st2 := match ev.tcp with
      | some c_code => recv_tcp MSG_TRAIN_SENT length st1 c_code
      | none => st1
    some (if ev.p = 0 then { st2 with processing := false } else st2)

/-- How a call of `receive_train` on a sequence of loop passes ends. -/
inductive RecvResult where
  /-- The call ended the process through `session_end(1)`. -/
  | exited
  /-- The listed passes are used up and the loop is still waiting in `select`. -/
  | waiting (st : RecvState)
  /-- The call returned `train_state`; `rest` are the passes that were not started. -/
  | returned (train_state : Int) (st : RecvState) (rest : List SelectEvent)

/-- The tail of `receive_train` (lines 1700-1713): an incomplete train sets
`train_state = 1`. -/
def recv_finish (length : Int) (st : RecvState) (rest : List SelectEvent) : RecvResult :=
  if length_reached st.expected_packet_id length then RecvResult.returned st.train_state st rest
  else RecvResult.returned 1 { st with train_state := 1 } rest

/-- The loop `while ( processing )` of lines 1631-1698 followed by the tail. -/
def receive_loop (MSG_TRAIN_SENT : Nat) (train_id : Nat) (length : Int) :
    List SelectEvent → RecvState → RecvResult
  | [], st => if st.processing then RecvResult.waiting st else recv_finish length st []
  | ev :: rest, st =>
    if st.processing then
      match recv_step MSG_TRAIN_SENT train_id length st ev with
      | none => RecvResult.exited
      | some st1 => receive_loop MSG_TRAIN_SENT train_id length rest st1
    else recv_finish length st (ev :: rest)

/-- The function `receive_train` (lines 1579-1714) from the point where
`TRAIN_SEND` has been sent, on the passes `evs` of its reception loop;
`timestamps` is the caller's array. -/
def receive_train (MSG_TRAIN_SENT : Nat) (train_id : Nat) (length : Int)
    (timestamps : Nat → Int) (evs : List SelectEvent) : RecvResult :=
  receive_loop MSG_TRAIN_SENT train_id length evs ⟨0, true, false, 0, timestamps⟩

/-- The indices `received_packet_id` of the writes `timestamps[received_packet_id] =
t_mark` (line 1671) that the reception loop of `receive_train` performs on the given
passes, in order. -/
def receive_writes (MSG_TRAIN_SENT : Nat) (train_id : Nat) (length : Int) :
    List SelectEvent → RecvState → List Nat
  | [], _ => []
  | ev :: rest, st =>
    if st.processing then
      match recv_step MSG_TRAIN_SENT train_id length st ev with
      | none => []
      | some st1 =>
        (match ev.udp with
          | some received =>
            if train_id ≠ received.1 then []
            else if received.2 = st.expected_packet_id then [received.2]
            else []
          | none => []) ++ receive_writes MSG_TRAIN_SENT train_id length rest st1
    else []

/-! ## The samplers -/

/-- Constants of `common.h` used by the samplers. -/
structure SamplerParams where
  TRAIN_LENGTH_MIN : Int
  TRAIN_LENGTH_MAX : Int
  PRELIM_VALID_COUNT : Int
  PRELIM_COUNT_MAX : Int
  TRAIN_PACKET_LENGTH_SIZES : Int
  P1_TRAIN_DISCARD_COUNT_MAX : Int

/-- The outcome of one train attempt as a sampler sees it: `none` when
`receive_train` returned a non-zero `train_state`, `some delta` when it returned `0`
and `time_delta_us(timestamps[0], timestamps[conf.train_length-1])` is `delta`. -/
abbrev Outcome := Option ℚ

/-- The expression `(double)((conf.train_packet_length_max << 3) * conf.train_length) /
delta` (lines 809, 917, 1050, 1183); `<< 3` multiplies the packet length by `8`. -/
def bandwidth_of (conf : config_s) (delta : ℚ) : ℚ :=
  ((conf.train_packet_length_max * 8 * conf.train_length : Int) : ℚ) / delta

/-- The recording of a received train in the phase-1 sample buffers (lines 811-818,
919-930, 1052-1061). -/
def record_p1 (conf : config_s) (delta : ℚ) : config_s :=
  if delta > conf.packet_dispersion_delta_min then
    { conf with
      p1_trains_delta := Function.update conf.p1_trains_delta conf.p1_trains_count delta
      p1_trains_bw :=
        Function.update conf.p1_trains_bw conf.p1_trains_count (bandwidth_of conf delta)
      p1_trains_count := conf.p1_trains_count + 1 }
  else { conf with p1_trains_count_discarded := conf.p1_trains_count_discarded + 1 }

/-- The recording of a received train in the phase-2 sample buffers (lines 1185-1196). -/
def record_p2 (conf : config_s) (delta : ℚ) : config_s :=
  if delta > conf.packet_dispersion_delta_min then
    { conf with
      p2_trains_delta := Function.update conf.p2_trains_delta conf.p2_trains_count delta
      p2_trains_bw :=
        Function.update conf.p2_trains_bw conf.p2_trains_count (bandwidth_of conf delta)
      p2_trains_count := conf.p2_trains_count + 1 }
  else { conf with p2_trains_count_discarded := conf.p2_trains_count_discarded + 1 }

/-- The session and the locals of the train-length discovery of `session_rtt_sync`
(lines 765-776). -/
structure Discovery where
  conf : config_s
  train_id : Int
  train_fails : Int → Int
  path_overload : Int
  train_count : Int

/-- One pass through the body of the discovery loop (lines 786-828). -/
def discovery_body (K : SamplerParams) (s : Discovery) (o : Outcome) : Discovery :=
  match o with
  | none =>
    let fails := Function.update s.train_fails s.conf.train_length
      (s.train_fails s.conf.train_length + 1)
    if fails s.conf.train_length > 4 then
      { s with train_fails := fails, path_overload := 1 }
    else if fails s.conf.train_length > 1 then
      { s with
        train_fails := fails
        conf := { s.conf with
          train_length := s.conf.train_length -
            (if s.conf.train_length - 1 < K.TRAIN_LENGTH_MIN then 0 else 1) } }
    else { s with train_fails := fails }
  | some delta =>
    { s with
      conf := { record_p1 s.conf delta with train_length := s.conf.train_length + 1 }
      train_id := s.train_id + 1
      train_count := s.train_count + 1 }

/-- The discovery loop `while ((conf.train_length <= TRAIN_LENGTH_MAX) &&
(path_overload == 0))` (lines 783-829) on the outcomes of its train attempts; the
flag tells whether the loop was left (`true`) or the outcomes ran out (`false`). -/
def discovery_loop (K : SamplerParams) : List Outcome → Discovery → Discovery × Bool
  | [], s =>
    if s.conf.train_length ≤ K.TRAIN_LENGTH_MAX ∧ s.path_overload = 0 then (s, false)
    else (s, true)
  | o :: rest, s =>
    if s.conf.train_length ≤ K.TRAIN_LENGTH_MAX ∧ s.path_overload = 0 then
      discovery_loop K rest (discovery_body K s o)
    else (s, true)

/-- The start of the discovery (lines 765-776). -/
def discovery_init (K : SamplerParams) (conf : config_s) : Discovery :=
  { conf := { conf with
      train_length := K.TRAIN_LENGTH_MIN
      train_packet_length := conf.train_packet_length_max }
    train_id := 1
    train_fails := fun _ => 0
    path_overload := 0
    train_count := 0 }

/-- The session and the locals `train_id`, `.._count`, `.._count_valid` of the
preliminary, phase-1 and phase-2 samplers. -/
structure Sampler where
  conf : config_s
  train_id : Int
  count : Int
  count_valid : Int

/-- One pass through the body of the inner loop of `session_prelim` (lines 908-935). -/
def prelim_body (s : Sampler) (o : Outcome) : Sampler :=
  match o with
  | none => { s with count := s.count + 1 }
  | some delta =>
    { conf := record_p1 s.conf delta
      train_id := s.train_id + 1
      count := s.count + 1
      count_valid :=
        if delta > s.conf.packet_dispersion_delta_min then s.count_valid + 1
        else s.count_valid }

/-- The inner loop `while (prelim_count_valid < PRELIM_VALID_COUNT && prelim_count <
PRELIM_COUNT_MAX)` (lines 906-936); `some rest` when the loop was left with the
outcomes `rest` unused, `none` when the outcomes ran out. -/
def prelim_inner (K : SamplerParams) : List Outcome → Sampler → Sampler × Option (List Outcome)
  | [], s =>
    if s.count_valid < K.PRELIM_VALID_COUNT ∧ s.count < K.PRELIM_COUNT_MAX then (s, none)
    else (s, some [])
  | o :: rest, s =>
    if s.count_valid < K.PRELIM_VALID_COUNT ∧ s.count < K.PRELIM_COUNT_MAX then
      prelim_inner K rest (prelim_body s o)
    else (s, some (o :: rest))

/-- The outer loop `while (conf.train_length <= conf.train_length_max)` of
`session_prelim` (lines 901-940); the first argument bounds the number of its
iterations. -/
def prelim_outer (K : SamplerParams) : Nat → List Outcome → Sampler → Sampler × Bool
  | 0, _, s => (s, decide (¬ s.conf.train_length ≤ s.conf.train_length_max))
  | n + 1, outcomes, s =>
    if s.conf.train_length ≤ s.conf.train_length_max then
      match prelim_inner K outcomes { s with count := 0, count_valid := 0 } with
      | (s1, none) => (s1, false)
      | (s1, some rest) =>
        prelim_outer K n rest
          { s1 with conf := { s1.conf with train_length := s1.conf.train_length + 1 } }
    else (s, true)

/-- The sampling part of `session_prelim` (lines 885-940). -/
def prelim_sampling (K : SamplerParams) (conf : config_s) (outcomes : List Outcome) :
    Sampler × Bool :=
  prelim_outer K (conf.train_length_max - K.TRAIN_LENGTH_MIN + 1).toNat outcomes
    { conf := { conf with
        train_length := K.TRAIN_LENGTH_MIN
        train_packet_length := conf.train_packet_length_max }
      train_id := 1
      count := 0
      count_valid := 0 }

/-- One pass through the body of the inner loop of `session_p1` (lines 1041-1065). -/
def p1_body (s : Sampler) (o : Outcome) : Sampler :=
  match o with
  | none => { s with count := s.count + 1 }
  | some delta =>
    { conf := record_p1 s.conf delta
      train_id := s.train_id + 1
      count := s.count + 1
      count_valid :=
        if delta > s.conf.packet_dispersion_delta_min then s.count_valid + 1
        else s.count_valid }

/-- The inner loop `while (p1_count_valid < p1_train_count_size && p1_count <
p1_train_count_size_max)` (lines 1039-1066). -/
def p1_inner (size size_max : Int) : List Outcome → Sampler → Sampler × Option (List Outcome)
  | [], s =>
    if s.count_valid < size ∧ s.count < size_max then (s, none) else (s, some [])
  | o :: rest, s =>
    if s.count_valid < size ∧ s.count < size_max then p1_inner size size_max rest (p1_body s o)
    else (s, some (o :: rest))

/-- The clipping of lines 1089-1090. -/
def p1_clip (conf : config_s) : config_s :=
  if conf.train_packet_length > conf.train_packet_length_max then
    { conf with train_packet_length := conf.train_packet_length_max }
  else conf

/-- The loop `for (i=0; i<TRAIN_PACKET_LENGTH_SIZES; i++)` of `session_p1` (lines
1023-1091); the first argument counts the iterations left. -/
def p1_for (K : SamplerParams) (step size size_max : Int) :
    Nat → List Outcome → Sampler → Sampler × Bool
  | 0, _, s => (s, true)
  | n + 1, outcomes, s =>
    match p1_inner size size_max outcomes { s with count := 0, count_valid := 0 } with
    | (s1, none) => (s1, false)
    | (s1, some rest) =>
      if s1.count - s1.count_valid ≥ K.P1_TRAIN_DISCARD_COUNT_MAX then
        if s1.conf.train_length > s1.conf.train_length_max then (s1, true)
        else p1_for K step size size_max n rest { s1 with conf := p1_clip s1.conf }
      else
        p1_for K step size size_max n rest
          { s1 with conf := p1_clip { s1.conf with
              train_packet_length := s1.conf.train_packet_length + step } }

/-- The sampling part of `session_p1` in network mode (lines 1003-1091); `none` when
the integer division of line 1014 divides by zero. -/
def p1_sampling (K : SamplerParams) (conf : config_s) (outcomes : List Outcome) :
    Option (Sampler × Bool) :=
  let p1_packet_length_step := toInt
    (((conf.p1_train_packet_length_max - conf.p1_train_packet_length_min : Int) : ℚ) /
      (K.TRAIN_PACKET_LENGTH_SIZES : ℚ))
  if p1_packet_length_step = 0 then none
  else
    let p1_train_count_size := Int.tdiv 1000 p1_packet_length_step
    let p1_train_count_size_max := p1_train_count_size + K.P1_TRAIN_DISCARD_COUNT_MAX
    some (p1_for K p1_packet_length_step p1_train_count_size p1_train_count_size_max
      K.TRAIN_PACKET_LENGTH_SIZES.toNat outcomes
      { conf := { conf with
          train_length := K.TRAIN_LENGTH_MIN
          train_packet_length := conf.train_packet_length_min }
        train_id := 1
        count := 0
        count_valid := 0 })

/-- One pass through the body of the loop of `session_p2` (lines 1174-1201). -/
def p2_body (s : Sampler) (o : Outcome) : Sampler :=
  match o with
  | none => { s with count := s.count + 1 }
  | some delta =>
    { conf := record_p2 s.conf delta
      train_id := s.train_id + 1
      count := s.count + 1
      count_valid :=
        if delta > s.conf.packet_dispersion_delta_min then s.count_valid + 1
        else s.count_valid }

/-- The loop `while (p2_count_valid < p2_train_count_required)` of `session_p2`
(lines 1172-1202), with `p2_train_count_required = 500`. -/
def p2_loop : List Outcome → Sampler → Sampler × Bool
  | [], s => if s.count_valid < 500 then (s, false) else (s, true)
  | o :: rest, s => if s.count_valid < 500 then p2_loop rest (p2_body s o) else (s, true)

/-- The sampling part of `session_p2` in network mode (lines 1153-1202). -/
def p2_sampling (conf : config_s) (outcomes : List Outcome) : Sampler × Bool :=
  p2_loop outcomes
    { conf := { conf with
        train_length := conf.train_length_max
        train_packet_length := conf.train_packet_length_max }
      train_id := 1
      count := 0
      count_valid := 0 }

/-- The scan `while (train_fails[conf.train_length] < 3 && conf.train_length <=
TRAIN_LENGTH_MAX) conf.train_length++;` (lines 832-835): the final `train_length`;
the first argument counts the lengths left up to `TRAIN_LENGTH_MAX`. -/
def length_scan (K : SamplerParams) (train_fails : Int → Int) : Nat → Int → Int
  | 0, train_length => train_length
  | n + 1, train_length =>
    if train_fails train_length < 3 ∧ train_length ≤ K.TRAIN_LENGTH_MAX then
      length_scan K train_fails n (train_length + 1)
    else train_length

/-- How `session_rtt_sync` ends after the discovery loop: through `session_end` with
an exit code, or by returning `0` in the state `PRELIM`. -/
inductive SyncResult where
  | ended (exit_code : Int) (conf : config_s)
  | proceeds (conf : config_s)

/-- The tail of `session_rtt_sync` after the discovery loop (lines 831-866): the scan
for `train_length_max` and the two early exits. The factor `0.4` is `2/5`. -/
def discovery_finish (K : SamplerParams) (s : Discovery) : SyncResult :=
  let train_length := length_scan K s.train_fails
    (K.TRAIN_LENGTH_MAX - K.TRAIN_LENGTH_MIN).toNat (K.TRAIN_LENGTH_MIN + 1)
  let conf1 : config_s :=
    { s.conf with train_length := train_length, train_length_max := train_length - 1 }
  if conf1.p1_trains_count = 0 then
    SyncResult.ended 0 { conf1 with bandwidth_estimated := -1, bin_width := -1 }
  else if conf1.p1_trains_count ≤ toInt ((s.train_count : ℚ) * (2 / 5)) then
    SyncResult.ended 0 { conf1 with bandwidth_estimated := 1000, bin_width := 0 }
  else SyncResult.proceeds conf1

/-- The number of train attempts (calls of `receive_train`) the discovery loop makes
on the given outcomes. -/
def discovery_attempts (K : SamplerParams) : List Outcome → Discovery → Nat
  | [], _ => 0
  | o :: rest, s =>
    if s.conf.train_length ≤ K.TRAIN_LENGTH_MAX ∧ s.path_overload = 0 then
      discovery_attempts K rest (discovery_body K s o) + 1
    else 0

/-- The step, in bytes, between the packet sizes of phase 1 (line 1012). -/
def p1_packet_length_step (K : SamplerParams) (conf : config_s) : Int :=
  toInt (((conf.p1_train_packet_length_max - conf.p1_train_packet_length_min : Int) : ℚ) /
    (K.TRAIN_PACKET_LENGTH_SIZES : ℚ))

/-- The target of valid samples per packet size of phase 1, `p1_train_count_size` (line
1014, with `p1_train_count_required = 1000`); `none` when the integer division
divides by zero. -/
def p1_train_count_size (K : SamplerParams) (conf : config_s) : Option Int :=
  if p1_packet_length_step K conf = 0 then none
  else some (Int.tdiv 1000 (p1_packet_length_step K conf))

/-- The cap of attempts per packet size of phase 1, `p1_train_count_size_max` (line
1015). -/
def p1_train_count_size_max (K : SamplerParams) (conf : config_s) : Option Int :=
  match p1_train_count_size K conf with
  | none => none
  | some size => some (size + K.P1_TRAIN_DISCARD_COUNT_MAX)

/-! ## The train identifiers of the attempts -/

/-- The values of `train_id` passed to `receive_train` (line 786) by the attempts of
the discovery loop, in order. -/
def discovery_ids (K : SamplerParams) : List Outcome → Discovery → List Int
  | [], _ => []
  | o :: rest, s =>
    if s.conf.train_length ≤ K.TRAIN_LENGTH_MAX ∧ s.path_overload = 0 then
      s.train_id :: discovery_ids K rest (discovery_body K s o)
    else []

/-- The values of `train_id` passed to `receive_train` (line 908) by one run of the
inner loop of `session_prelim`. -/
def prelim_inner_ids (K : SamplerParams) : List Outcome → Sampler → List Int
  | [], _ => []
  | o :: rest, s =>
    if s.count_valid < K.PRELIM_VALID_COUNT ∧ s.count < K.PRELIM_COUNT_MAX then
      s.train_id :: prelim_inner_ids K rest (prelim_body s o)
    else []

/-- The values of `train_id` passed to `receive_train` over the outer loop of
`session_prelim`. -/
def prelim_outer_ids (K : SamplerParams) : Nat → List Outcome → Sampler → List Int
  | 0, _, _ => []
  | n + 1, outcomes, s =>
    if s.conf.train_length ≤ s.conf.train_length_max then
      match prelim_inner K outcomes { s with count := 0, count_valid := 0 } with
      | (_, none) => prelim_inner_ids K outcomes { s with count := 0, count_valid := 0 }
      | (s1, some rest) =>
        prelim_inner_ids K outcomes { s with count := 0, count_valid := 0 } ++
          prelim_outer_ids K n rest
            { s1 with conf := { s1.conf with train_length := s1.conf.train_length + 1 } }
    else []

/-- The values of `train_id` passed to `receive_train` by `session_prelim` (lines
885-940, `int train_id = 1;`). -/
def prelim_ids (K : SamplerParams) (conf : config_s) (outcomes : List Outcome) : List Int :=
  prelim_outer_ids K (conf.train_length_max - K.TRAIN_LENGTH_MIN + 1).toNat outcomes
    { conf := { conf with
        train_length := K.TRAIN_LENGTH_MIN
        train_packet_length := conf.train_packet_length_max }
      train_id := 1
      count := 0
      count_valid := 0 }

/-- The values of `train_id` passed to `receive_train` (line 1041) by one run of the
inner loop of `session_p1`. -/
def p1_inner_ids (size size_max : Int) : List Outcome → Sampler → List Int
  | [], _ => []
  | o :: rest, s =>
    if s.count_valid < size ∧ s.count < size_max then
      s.train_id :: p1_inner_ids size size_max rest (p1_body s o)
    else []

/-- The values of `train_id` passed to `receive_train` over the `for` loop of
`session_p1`. -/
def p1_for_ids (K : SamplerParams) (step size size_max : Int) :
    Nat → List Outcome → Sampler → List Int
  | 0, _, _ => []
  | n + 1, outcomes, s =>
    match p1_inner size size_max outcomes { s with count := 0, count_valid := 0 } with
    | (_, none) => p1_inner_ids size size_max outcomes { s with count := 0, count_valid := 0 }
    | (s1, some rest) =>
      p1_inner_ids size size_max outcomes { s with count := 0, count_valid := 0 } ++
        (if s1.count - s1.count_valid ≥ K.P1_TRAIN_DISCARD_COUNT_MAX then
          if s1.conf.train_length > s1.conf.train_length_max then []
          else p1_for_ids K step size size_max n rest { s1 with conf := p1_clip s1.conf }
        else
          p1_for_ids K step size size_max n rest
            { s1 with conf := p1_clip { s1.conf with
                train_packet_length := s1.conf.train_packet_length + step } })

/-- The values of `train_id` passed to `receive_train` by `session_p1` in network mode
(lines 1003-1091, `int train_id = 1;`); `none` when line 1014 divides by zero. -/
def p1_ids (K : SamplerParams) (conf : config_s) (outcomes : List Outcome) :
    Option (List Int) :=
  let p1_packet_length_step := toInt
    (((conf.p1_train_packet_length_max - conf.p1_train_packet_length_min : Int) : ℚ) /
      (K.TRAIN_PACKET_LENGTH_SIZES : ℚ))
  if p1_packet_length_step = 0 then none
  else
    let p1_train_count_size := Int.tdiv 1000 p1_packet_length_step
    let p1_train_count_size_max := p1_train_count_size + K.P1_TRAIN_DISCARD_COUNT_MAX
    some (p1_for_ids K p1_packet_length_step p1_train_count_size p1_train_count_size_max
      K.TRAIN_PACKET_LENGTH_SIZES.toNat outcomes
      { conf := { conf with
          train_length := K.TRAIN_LENGTH_MIN
          train_packet_length := conf.train_packet_length_min }
        train_id := 1
        count := 0
        count_valid := 0 })

/-- The values of `train_id` passed to `receive_train` (line 1174) by the loop of
`session_p2`. -/
def p2_loop_ids : List Outcome → Sampler → List Int
  | [], _ => []
  | o :: rest, s =>
    if s.count_valid < 500 then s.train_id :: p2_loop_ids rest (p2_body s o) else []

/-- The values of `train_id` passed to `receive_train` by `session_p2` in network mode
(lines 1153-1202, `int train_id = 1;`). -/
def p2_ids (conf : config_s) (outcomes : List Outcome) : List Int :=
  p2_loop_ids outcomes
    { conf := { conf with
        train_length := conf.train_length_max
        train_packet_length := conf.train_packet_length_max }
      train_id := 1
      count := 0
      count_valid := 0 }

/-- The values of `train_id` passed to `receive_train` from the start of the discovery
of `session_rtt_sync` to the end of `session_prelim`, which `main` calls next when the
discovery returns in the state `PRELIM`: `d` holds the outcomes of the attempts of the
discovery, `p` those of `session_prelim`. -/
def session_ids (K : SamplerParams) (conf : config_s) (d p : List Outcome) : List Int :=
  discovery_ids K d (discovery_init K conf) ++
    (match discovery_loop K d (discovery_init K conf) with
     | (_, false) => []
     | (s, true) =>
       match discovery_finish K s with
       | SyncResult.ended _ _ => []
       | SyncResult.proceeds c => prelim_ids K c p)

/-! ## The fail counters of the train-length discovery -/

/-- The indices at which the discovery loop accesses `train_fails` (lines 791-798), in
order: every failed attempt increments and tests `train_fails[conf.train_length]` at
the train length of that attempt. -/
def discovery_fail_indices (K : SamplerParams) : List Outcome → Discovery → List Int
  | [], _ => []
  | o :: rest, s =>
    if s.conf.train_length ≤ K.TRAIN_LENGTH_MAX ∧ s.path_overload = 0 then
      (match o with
        | none => [s.conf.train_length]
        | some _ => []) ++ discovery_fail_indices K rest (discovery_body K s o)
    else []

/-- The indices at which the scan of lines 832-835 reads `train_fails`, in order: each
evaluation of its condition, the one that ends the scan included, reads
`train_fails[conf.train_length]` before it tests `conf.train_length <=
TRAIN_LENGTH_MAX`. The first argument counts the lengths left up to
`TRAIN_LENGTH_MAX`, as in `length_scan`. -/
def length_scan_reads (K : SamplerParams) (train_fails : Int → Int) : Nat → Int → List Int
  | 0, train_length => [train_length]
  | n + 1, train_length =>
    if train_fails train_length < 3 ∧ train_length ≤ K.TRAIN_LENGTH_MAX then
      train_length :: length_scan_reads K train_fails n (train_length + 1)
    else [train_length]

/-- The number of failed train attempts the discovery loop makes on the given
outcomes. -/
def discovery_failed (K : SamplerParams) : List Outcome → Discovery → Nat
  | [], _ => 0
  | o :: rest, s =>
    if s.conf.train_length ≤ K.TRAIN_LENGTH_MAX ∧ s.path_overload = 0 then
      (match o with
        | none => 1
        | some _ => 0) + discovery_failed K rest (discovery_body K s o)
    else 0

/-- The number of train lengths `TRAIN_LENGTH_MIN .. TRAIN_LENGTH_MAX`. -/
def length_count (K : SamplerParams) : Nat :=
  (K.TRAIN_LENGTH_MAX + 1 - K.TRAIN_LENGTH_MIN).toNat

/-- A number of attempts within which the discovery loop is left. -/
def discovery_bound (K : SamplerParams) : Nat := 11 * length_count K

/-- The first `n` outcomes of an infinite sequence of outcomes. -/
def first_outcomes (f : Nat → Outcome) (n : Nat) : List Outcome := (List.range n).map f

/-- One pass through the body of the discovery loop with the bounds of the array
`int train_fails[TRAIN_LENGTH_MAX]` (line 771) checked: a failed attempt increments
and tests `train_fails[conf.train_length]` (lines 791-798), an entry the array has for
`0 <= conf.train_length < TRAIN_LENGTH_MAX` only; `none` stands for an access outside
the array, where C leaves the behaviour undefined. -/
def discovery_body_checked (K : SamplerParams) (s : Discovery) (o : Outcome) :
    Option Discovery :=
  match o with
  | none =>
    if 0 ≤ s.conf.train_length ∧ s.conf.train_length < K.TRAIN_LENGTH_MAX then
      some (discovery_body K s none)
    else none
  | some delta => some (discovery_body K s (some delta))

/-- The discovery loop (lines 783-829) with the bounds of `train_fails` checked:
`none` when a pass accesses the array outside its bounds, else the state and the flag
of `discovery_loop`. -/
def discovery_loop_checked (K : SamplerParams) :
    List Outcome → Discovery → Option (Discovery × Bool)
  | [], s =>
    if s.conf.train_length ≤ K.TRAIN_LENGTH_MAX ∧ s.path_overload = 0 then some (s, false)
    else some (s, true)
  | o :: rest, s =>
    if s.conf.train_length ≤ K.TRAIN_LENGTH_MAX ∧ s.path_overload = 0 then
      match discovery_body_checked K s o with
      | none => none
      | some s1 => discovery_loop_checked K rest s1
    else some (s, true)

/-! ## The calibration of `session_rtt_sync` -/

/-- Constants of `common.h` used by the RTT and latency calibration, and the median
routine of the statistics kernel. -/
structure CalibParams where
  RTT_VALID_COUNT : Int
  RTT_COUNT_MAX : Int
  LATENCY_VALID_COUNT : Int
  LATENCY_COUNT_MAX : Int
  stat_array_median : (Int → ℚ) → Int → ℚ

/-- The locals `valid_count`, `count`, `rtt_total_time` of the RTT loop (lines 632-634). -/
structure RttState where
  valid_count : Int
  count : Int
  rtt_total_time : ℚ

/-- One pass through the body of the RTT loop (lines 640-652): `ctl_value c` is the
value of the reply received in iteration `c`, `rtt_delta c` the time
`time_delta_us(t_mark1, t_mark2)` measured in it. The comparison of the `uint32_t`
reply with the `int` `0xffffff-count` converts the latter to `uint32_t`. -/
def rtt_body (ctl_value : Int → Nat) (rtt_delta : Int → ℚ) (s : RttState) : RttState :=
  if s.count > 0 ∧ (ctl_value s.count : Int) = (16777215 - s.count) % 4294967296 then
    { valid_count := s.valid_count + 1
      count := s.count + 1
      rtt_total_time := s.rtt_total_time + rtt_delta s.count }
  else { s with count := s.count + 1 }

/-- The loop `while(valid_count < RTT_VALID_COUNT && count < RTT_COUNT_MAX)` (lines
638-653); the first argument counts the iterations left up to `RTT_COUNT_MAX`. -/
def rtt_loop (K : CalibParams) (ctl_value : Int → Nat) (rtt_delta : Int → ℚ) :
    Nat → RttState → RttState
  | 0, s => s
  | n + 1, s =>
    if s.valid_count < K.RTT_VALID_COUNT ∧ s.count < K.RTT_COUNT_MAX then
      rtt_loop K ctl_value rtt_delta n (rtt_body ctl_value rtt_delta s)
    else s

/-- The state in which the RTT loop is left. -/
def rtt_run (K : CalibParams) (ctl_value : Int → Nat) (rtt_delta : Int → ℚ) : RttState :=
  rtt_loop K ctl_value rtt_delta K.RTT_COUNT_MAX.toNat ⟨0, 0, 0⟩

/-- The locals of the latency loop (lines 709-710, 722-723). -/
structure LatencyState where
  latency_count : Int
  latency_count_valid : Int
  packet_deltas : Int → ℚ
  latency_total_time : ℚ

/-- One pass through the body of the latency loop (lines 727-741): `echo_n c` is the
return value of `recvfrom` in exchange `c`, `echo_delta c` the time measured in it. -/
def latency_body (train_packet_length_max : Int) (echo_n : Int → Int)
    (echo_delta : Int → ℚ) (s : LatencyState) : LatencyState :=
  if s.latency_count > 0 ∧ echo_n s.latency_count = train_packet_length_max then
    { latency_count := s.latency_count + 1
      latency_count_valid := s.latency_count_valid + 1
      packet_deltas :=
        Function.update s.packet_deltas s.latency_count_valid (echo_delta s.latency_count)
      latency_total_time := s.latency_total_time + echo_delta s.latency_count }
  else { s with latency_count := s.latency_count + 1 }

/-- The loop `while ( latency_count_valid < LATENCY_VALID_COUNT && latency_count <
LATENCY_COUNT_MAX )` (lines 725-742). -/
def latency_loop (K : CalibParams) (train_packet_length_max : Int) (echo_n : Int → Int)
    (echo_delta : Int → ℚ) : Nat → LatencyState → LatencyState
  | 0, s => s
  | n + 1, s =>
    if s.latency_count_valid < K.LATENCY_VALID_COUNT ∧
        s.latency_count < K.LATENCY_COUNT_MAX then
      latency_loop K train_packet_length_max echo_n echo_delta n
        (latency_body train_packet_length_max echo_n echo_delta s)
    else s

/-- The state in which the latency loop is left. -/
def latency_run (K : CalibParams) (train_packet_length_max : Int) (echo_n : Int → Int)
    (echo_delta : Int → ℚ) : LatencyState :=
  latency_loop K train_packet_length_max echo_n echo_delta K.LATENCY_COUNT_MAX.toNat
    ⟨0, 0, fun _ => 0, 0⟩

/-- How the calibration part of `session_rtt_sync` ends: `rtt_failed` is the
`return 1` of line 658, `latency_failed` the `return 1` of line 753, `calibrated`
carries `rtt_tcp_socket_average`, `packet_dispersion_delta_min` and
`latency_udp_kernel_user_average`. -/
inductive CalibResult where
  | rtt_failed
  | latency_failed
  | calibrated (rtt_tcp_socket_average packet_dispersion_delta_min
      latency_udp_kernel_user_average : ℚ)
deriving DecidableEq

/-- The calibration part of `session_rtt_sync` in network mode (lines 632-756), for a
successful `malloc` of the echo packet; `train_packet_length_max` is the value set at
line 686. The test of line 750 reads `count`, the counter of the RTT loop. -/
def session_rtt_sync_calibration (K : CalibParams) (train_packet_length_max : Int)
    (ctl_value : Int → Nat) (rtt_delta : Int → ℚ) (echo_n : Int → Int)
    (echo_delta : Int → ℚ) : CalibResult :=
  if (rtt_run K ctl_value rtt_delta).count = K.RTT_COUNT_MAX then CalibResult.rtt_failed
  else if (rtt_run K ctl_value rtt_delta).count = K.LATENCY_COUNT_MAX then
    CalibResult.latency_failed
  else
    CalibResult.calibrated
      ((rtt_run K ctl_value rtt_delta).rtt_total_time / (K.RTT_VALID_COUNT : ℚ))
      (K.stat_array_median
          (latency_run K train_packet_length_max echo_n echo_delta).packet_deltas
          K.LATENCY_VALID_COUNT * (1 / 2))
      ((latency_run K train_packet_length_max echo_n echo_delta).latency_total_time /
        (K.LATENCY_VALID_COUNT : ℚ) / 2)

/-! ## The state machine and `session_end` -/

/-- The FSM states `FSM_*` of `common.h` (distinct constants). -/
inductive FsmState where
  | INIT
  | RTT_SYNC
  | PRELIM
  | P1
  | P1_CALC
  | P2
  | P2_CALC
  | CALC
  | CLOSE
  | END
deriving DecidableEq

/-- The function `fsm_state_set` (lines 224-232): the new value of `fsm_state`. -/
def fsm_state_set (fsm_state state : FsmState) : FsmState :=
  if fsm_state = state then fsm_state else state

/-- The function `session_end` (lines 1479-1506): the values `fsm_state` takes, one
after the other, through its calls of `fsm_state_set`, and the code passed to `exit`;
`mode_net` is `conf.mode & MODE_NET`. -/
def session_end (fsm_state : FsmState) (mode_net : Bool) (exit_code : Int) :
    List FsmState × Int :=
  if fsm_state ≠ FsmState.INIT ∧ mode_net = true then
    ([fsm_state_set fsm_state FsmState.CLOSE,
      fsm_state_set (fsm_state_set fsm_state FsmState.CLOSE) FsmState.END], exit_code)
  else ([fsm_state_set fsm_state FsmState.END], exit_code)

/-! ## The CSV reader -/

/-- What one `fscanf(fp, "%lf,%lf", &bw[i], &delta[i])` converts: nothing, the first
number only, or both numbers. -/
abbrev CsvRow := Option (ℚ × Option ℚ)

/-- One phase of a CSV file as `session_csv_read` reads it: the number that
`fscanf(fp, "%d", ..)` converts (`none` when it converts nothing, `n <= 0`), and what
the `i`-th `fscanf(fp, "%lf,%lf", ..)` after it converts. -/
structure CsvSection where
  count : Option Int
  rows : Nat → CsvRow

/-- The assignments of one `fscanf(fp, "%lf,%lf", &bw[i], &delta[i])` (lines 1558,
1571). -/
def csv_store (row : CsvRow) (i : Int) (a : (Int → ℚ) × (Int → ℚ)) :
    (Int → ℚ) × (Int → ℚ) :=
  match row with
  | none => a
  | some (b, none) => (Function.update a.1 i b, a.2)
  | some (b, some d) => (Function.update a.1 i b, Function.update a.2 i d)

/-- The loop `for (i=0; i<count; i++) n = fscanf(fp, "%lf,%lf", &bw[i], &delta[i]);`
(lines 1557-1558, 1570-1571): the arrays after its first iterations, as many as the
third argument says. -/
def csv_rows (rows : Nat → CsvRow) (a : (Int → ℚ) × (Int → ℚ)) :
    Nat → (Int → ℚ) × (Int → ℚ)
  | 0 => a
  | i + 1 => csv_store (rows i) (i : Int) (csv_rows rows a i)

/-- The function `session_csv_read` (lines 1540-1577) on a file that `fopen` opens:
the session after it returns `0`. -/
def session_csv_read (p1 p2 : CsvSection) (conf : config_s) : config_s :=
  let conf1 : config_s :=
    match p1.count with
    | none => conf
    | some c =>
      let a := csv_rows p1.rows (conf.p1_trains_bw, conf.p1_trains_delta) c.toNat
      { conf with p1_trains_count := c, p1_trains_bw := a.1, p1_trains_delta := a.2 }
  match p2.count with
  | none => conf1
  | some c =>
    let a := csv_rows p2.rows (conf1.p2_trains_bw, conf1.p2_trains_delta) c.toNat
    { conf1 with p2_trains_count := c, p2_trains_bw := a.1, p2_trains_delta := a.2 }

/-! ## The offline path to the bin width -/

/-- Constants of `common.h` that `session_init` copies into the packet lengths. -/
structure PacketParams where
  TRAIN_PACKET_LENGTH_MIN : Int
  TRAIN_PACKET_LENGTH_MAX : Int

/-- The case `'b'` of `parse_cmdline` (lines 289-297) on the number `strtod` reads from
the argument of `-b`; `none` when the process ends through `exit(1)`. -/
def parse_cmdline_b (conf : config_s) (width : ℚ) : Option config_s :=
  let conf1 : config_s := { conf with bin_width := width }
  if conf1.bin_width = 0 then none else some conf1

/-- The function `session_init` (lines 408-455) on the fields of the model: the session
and the return value. -/
def session_init (S : SamplerParams) (L : PacketParams) (fsm_state : FsmState)
    (conf : config_s) : config_s × Int :=
  if fsm_state ≠ FsmState.INIT then (conf, 1)
  else
    ({ conf with
        train_length_max := S.TRAIN_LENGTH_MAX
        p1_trains_count := 0
        p1_trains_count_discarded := 0
        p1_train_packet_length_min := L.TRAIN_PACKET_LENGTH_MIN
        p1_train_packet_length_max := L.TRAIN_PACKET_LENGTH_MAX
        p2_trains_count := 0
        p2_trains_count_discarded := 0
        packet_dispersion_delta_min := 0
        bandwidth_assessment := Assessment.UNKNOWN
        bandwidth_lo := 0
        bandwidth_hi := 0
        bandwidth_estimated := 0
        bin_width := 0 }, 0)

/-- The offline branch of `session_p1` (lines 984-995): the session, the FSM state and
the return value; `file` is `none` when `fopen` fails. -/
def session_p1_offline (K : CalcParams) (file : Option (CsvSection × CsvSection))
    (fsm_state : FsmState) (conf : config_s) : config_s × FsmState × Int :=
  match file with
  | none => (conf, fsm_state, 1)
  | some (p1, p2) =>
    let conf1 := session_csv_read p1 p2 conf
    let conf2 : config_s := { conf1 with
      prelim_bw_mean := K.stat_array_interquartile_mean conf1.p1_trains_bw conf1.p1_trains_count }
    (conf2, fsm_state_set fsm_state FsmState.P1_CALC, if conf2.p1_trains_count > 0 then 0 else 1)

/-- The assignment of `conf.bin_width` at the head of `session_p1_calculate` (lines
1108-1111); the extraction loop that follows passes `conf.bin_width` to
`calculate_mode` (line 1124). -/
def p1_calculate_bin_width (conf : config_s) : config_s :=
  if conf.prelim_bw_mean < 1 then { conf with bin_width := conf.prelim_bw_mean * (1 / 4) }
  else { conf with bin_width := conf.prelim_bw_mean * (1 / 8) }

/-- The offline branch of `session_p2` (lines 1140-1145): the FSM state and the return
value. -/
def session_p2_offline (fsm_state : FsmState) (conf : config_s) : FsmState × Int :=
  (fsm_state_set fsm_state FsmState.P2_CALC, if conf.p2_trains_count > 0 then 0 else 1)

/-- The offline run of `main` (lines 170-206) with the options `-r file -b width`, up
to the two extraction loops: the values of `conf.bin_width` that `session_p1_calculate`
(line 1124) and `session_p2_calculate` (line 1230) pass to `calculate_mode`; `none`
when the process ends before. Between the two calls nothing assigns `conf.bin_width`. -/
def offline_bin_width (K : CalcParams) (S : SamplerParams) (L : PacketParams) (width : ℚ)
    (file : Option (CsvSection × CsvSection)) (conf : config_s) : Option (ℚ × ℚ) :=
  match parse_cmdline_b conf width with
  | none => none
  | some conf1 =>
    let r2 := session_init S L FsmState.INIT conf1
    if r2.2 ≠ 0 then none
    else
      let r3 := session_p1_offline K file FsmState.INIT r2.1
      if r3.2.2 ≠ 0 then none
      else if r3.2.1 ≠ FsmState.P1_CALC then none
      else
        let conf4 := p1_calculate_bin_width r3.1
        let r5 := session_p2_offline FsmState.P2 conf4
        if r5.2 ≠ 0 then none
        else some (conf4.bin_width, conf4.bin_width)

/-! ## Specification predicates and loop invariants -/

/-- The sample array is sorted (ascending) on the indices `0 .. elements - 1`. -/
def SortedUpTo (a : Int → ℚ) (elements : Int) : Prop :=
  ∀ i j, 0 ≤ i → i ≤ j → j < elements → a i ≤ a j

/-- Specification predicate: `[lo..hi]` is a window of consecutive valid indices of
`[0, elements)` whose values span at most `bin_width` (`array[hi] - array[lo] ≤ bin_width`). -/
def IsWindowLe (a : Int → ℚ) (v : Int → Bool) (elements : Int) (bin_width : ℚ)
    (lo hi : Int) : Prop :=
  0 ≤ lo ∧ lo ≤ hi ∧ hi < elements ∧ (∀ k, lo ≤ k → k ≤ hi → v k = true) ∧
    a hi - a lo ≤ bin_width

/-- Specification predicate: `[lo..hi]` is a window of consecutive valid indices of
`[0, elements)` with `array[hi] < array[lo] + bin_width`, the sum taken as the program
takes it, in `double` arithmetic. -/
def IsWindowFl (a : Int → ℚ) (v : Int → Bool) (elements : Int) (bin_width : ℚ)
    (lo hi : Int) : Prop :=
  0 ≤ lo ∧ lo ≤ hi ∧ hi < elements ∧ (∀ k, lo ≤ k → k ≤ hi → v k = true) ∧
    fl64 (a hi) < dadd (a lo) bin_width

/-- The central bin `c` passes the test of the left search (line 1845) between its two
ends: `array[hi] - bin_width < array[lo]` in `double` arithmetic, where the central
search (line 1791) has established `array[hi] < array[lo] + bin_width`. A central bin
that starts at index `0` or holds one index is not searched to its left this way. -/
def LeftCompatible (a : Int → ℚ) (bin_width : ℚ) (c : Central) : Prop :=
  0 < c.mode_index_lo → c.mode_index_lo < c.mode_index_hi →
    dsub (a c.mode_index_hi) bin_width < fl64 (a c.mode_index_lo)

/-- No valid sample of `[0, elements)` passes the test of the central search against
itself: `array[i] + bin_width`, rounded to `double`, is not above `array[i]`. -/
def AllAbsorbed (a : Int → ℚ) (v : Int → Bool) (elements : Int) (bin_width : ℚ) : Prop :=
  ∀ i, 0 ≤ i → i < elements → v i = true → ¬ fl64 (a i) < dadd (a i) bin_width

/-- The index at which the inner `while` of the central search stops for start `i`. -/
def central_stop (a : Int → ℚ) (v : Int → Bool) (elements : Int) (bw : ℚ) (i : Int) : Int :=
  central_scan a v bw i (elements - i).toNat i

/-- Loop invariant of the central search after the indices `0 .. m - 1`. -/
structure CentralInv (a : Int → ℚ) (v : Int → Bool) (elements : Int) (bw : ℚ)
    (m : Int) (s : Central) : Prop where
  count_nonneg : 0 ≤ s.count
  zero : s.count = 0 → s.mode_index_lo = 0 ∧ s.mode_index_hi = 0
  pos : 0 < s.count → 0 ≤ s.mode_index_lo ∧ s.mode_index_lo < m ∧
    v s.mode_index_lo = true ∧ s.mode_index_hi = s.mode_index_lo + s.count - 1 ∧
    central_stop a v elements bw s.mode_index_lo = s.mode_index_lo + s.count
  best : ∀ i, 0 ≤ i → i < m → v i = true → central_stop a v elements bw i - i ≤ s.count
  first : ∀ i, 0 ≤ i → i < s.mode_index_lo → v i = true →
    central_stop a v elements bw i - i < s.count

/-- Loop invariant of the left expansion, relative to the central bin `c`. The
fields under `W` hold when the bin the expansion starts from passes the test of the
left search (line 1845) between its two ends. -/
structure LeftInv (W : Prop) (a : Int → ℚ) (bw : ℚ) (c : Central) (s : Bell) : Prop where
  lo_nonneg : 0 ≤ s.bin_index_lo
  lo_le_hi : s.bin_index_lo ≤ s.bin_index_hi
  hi_le : s.bin_index_hi ≤ c.mode_index_hi
  window : W → 0 < s.bin_index_lo → s.bin_index_lo < s.bin_index_hi →
    dsub (a s.bin_index_hi) bw < fl64 (a s.bin_index_lo)
  bell_lo_eq : s.bell_index_lo = s.bin_index_lo
  bell_lo_le : W → s.bell_index_lo ≤ c.mode_index_lo
  bell_hi_eq : s.bell_index_hi = c.mode_index_hi
  m_count : s.mode.count = c.count
  m_lo : s.mode.lo = a c.mode_index_lo
  m_hi : s.mode.hi = a c.mode_index_hi
  m_bell_lo : s.mode.bell_lo = a s.bell_index_lo
  m_bell_hi : s.mode.bell_hi = a c.mode_index_hi
  m_bell_count : s.mode.bell_count = c.count + (c.mode_index_lo - s.bell_index_lo)
  m_kurtosis : s.mode.bell_kurtosis = 0

/-- Loop invariant of the right expansion, relative to the central bin `c`. -/
structure RightInv (W : Prop) (a : Int → ℚ) (elements : Int) (bw : ℚ) (c : Central)
    (s : Bell) : Prop where
  lo_nonneg : 0 ≤ s.bin_index_lo
  lo_le_hi : s.bin_index_lo ≤ s.bin_index_hi
  hi_lt : s.bin_index_hi < elements
  window : s.bin_index_lo < s.bin_index_hi →
    fl64 (a s.bin_index_hi) ≤ dadd (a s.bin_index_lo) bw
  bell_hi_eq : s.bell_index_hi = s.bin_index_hi
  bell_hi_ge : c.mode_index_hi ≤ s.bell_index_hi
  bell_lo_le : W → s.bell_index_lo ≤ c.mode_index_lo
  bell_lo_le_hi : s.bell_index_lo ≤ c.mode_index_hi
  bell_lo_nonneg : 0 ≤ s.bell_index_lo
  m_count : s.mode.count = c.count
  m_lo : s.mode.lo = a c.mode_index_lo
  m_hi : s.mode.hi = a c.mode_index_hi
  m_bell_lo : s.mode.bell_lo = a s.bell_index_lo
  m_bell_hi : s.mode.bell_hi = a s.bell_index_hi
  m_bell_count : s.mode.bell_count =
    c.count + (c.mode_index_lo - s.bell_index_lo) + (s.bell_index_hi - c.mode_index_hi)
  m_kurtosis : s.mode.bell_kurtosis = 0

/-- What a call of `calculate_mode` that does not return `-1` leaves behind. The field
under `W` holds when the central bin passes the test of the left search between its
two ends. -/
structure ModeSpec (W : Prop) (a : Int → ℚ) (v : Int → Bool) (elements : Int) (bw : ℚ)
    (r : ModeResult) : Prop where
  rc : r.rc = 0 ∨ r.rc = 1
  index_lo : r.mode_index_lo = (central_bin a v elements bw).mode_index_lo
  index_hi : r.mode_index_hi = (central_bin a v elements bw).mode_index_hi
  count : r.mode.count = (central_bin a v elements bw).count
  lo : r.mode.lo = a r.mode_index_lo
  hi : r.mode.hi = a r.mode_index_hi
  bell_lo : r.mode.bell_lo = a r.bell_index_lo
  bell_hi : r.mode.bell_hi = a r.bell_index_hi
  bell_count : r.mode.bell_count =
    r.mode.count + (r.mode_index_lo - r.bell_index_lo) + (r.bell_index_hi - r.mode_index_hi)
  lo_nonneg : 0 ≤ r.mode_index_lo
  bell_lo_nonneg : 0 ≤ r.bell_index_lo
  bell_lo_le : W → r.bell_index_lo ≤ r.mode_index_lo
  bell_lo_le_hi : r.bell_index_lo ≤ r.mode_index_hi
  lo_le_hi : r.mode_index_lo ≤ r.mode_index_hi
  bell_hi_ge : r.mode_index_hi ≤ r.bell_index_hi
  bell_hi_lt : r.bell_index_hi < elements
  valid : r.array_valid = mark_classified v r.bell_index_lo r.bell_index_hi

/-- The common shape of the two merit loops: a running maximum, started at `0`,
over the merits of the eligible indices `0 .. n - 1`. -/
def select_fold (merit : Int → ℚ) (eligible : Int → Prop) [DecidablePred eligible]
    (n : Nat) : Merit :=
  (List.range n).foldl
    (fun (s : Merit) (i : Nat) =>
      if eligible (i : Int) then
        if merit (i : Int) > s.merit_max then ⟨merit (i : Int), (i : Int)⟩ else s
      else s) ⟨0, 0⟩

/-- The passes `pre` run one after the other from `st`, whatever `processing` is. -/
def recv_steps (MSG_TRAIN_SENT : Nat) (train_id : Nat) (length : Int) :
    List SelectEvent → RecvState → Option RecvState
  | [], st => some st
  | ev :: rest, st =>
    match recv_step MSG_TRAIN_SENT train_id length st ev with
    | none => none
    | some st1 => recv_steps MSG_TRAIN_SENT train_id length rest st1

/-- The state after the packet handling of a pass, before the `train_sent` check, the
TCP branch and the timeout check. -/
def after_packet (train_id : Nat) (st : RecvState) (ev : SelectEvent) : RecvState :=
  match ev.udp with
  | some received => recv_packet train_id st received ev.t_mark
  | none => st

/-- Specification predicate: a packet with a train id other than `train_id` was
received in one of the passes `pre`. -/
def stale_seen (train_id : Nat) (pre : List SelectEvent) : Prop :=
  ∃ ev ∈ pre, ∃ received, ev.udp = some received ∧ received.1 ≠ train_id

/-- Specification: the arrival times of the accepted packets among the passes, in
the order of the passes; a packet is accepted when its train id is `train_id` and its
packet id is the number `k` of packets accepted before it. -/
def accepted_times (train_id : Nat) : List SelectEvent → Nat → List Int
  | [], _ => []
  | ev :: rest, k =>
    match ev.udp with
    | some received =>
      if received.1 = train_id ∧ received.2 = k then
        ev.t_mark :: accepted_times train_id rest (k + 1)
      else accepted_times train_id rest k
    | none => accepted_times train_id rest k

/-- The sample buffers of a session with their counts and discard counters. -/
def sample_fields (c : config_s) :
    (Int → ℚ) × (Int → ℚ) × Int × Int × (Int → ℚ) × (Int → ℚ) × Int × Int :=
  (c.p1_trains_bw, c.p1_trains_delta, c.p1_trains_count, c.p1_trains_count_discarded,
    c.p2_trains_bw, c.p2_trains_delta, c.p2_trains_count, c.p2_trains_count_discarded)

/-- Specification predicate: the buffer `(d, b)` with `n` samples extends the buffer
`(d0, b0)` with `n0` samples, and every appended sample has `delta > dmin` and
`bandwidth = (pmax * 8 * L) / delta` for a train length `L`. -/
def Appended (pmax : Int) (dmin : ℚ) (d0 b0 : Int → ℚ) (n0 : Int) (d b : Int → ℚ)
    (n : Int) : Prop :=
  n0 ≤ n ∧ (∀ k, k < n0 → d k = d0 k ∧ b k = b0 k) ∧
    (∀ k, n0 ≤ k → k < n → d k > dmin ∧ ∃ L : Int, b k = ((pmax * 8 * L : Int) : ℚ) / d k)

/-- Specification predicate: from the session `c0` to the session `c` the dispersion
minimum and the maximum packet length are unchanged and both sample buffers were
only extended by samples with `delta > packet_dispersion_delta_min` and
`bandwidth = (train_packet_length_max * 8 * L) / delta`. -/
def Recorded (c0 c : config_s) : Prop :=
  c.packet_dispersion_delta_min = c0.packet_dispersion_delta_min ∧
  c.train_packet_length_max = c0.train_packet_length_max ∧
  Appended c0.train_packet_length_max c0.packet_dispersion_delta_min
    c0.p1_trains_delta c0.p1_trains_bw c0.p1_trains_count
    c.p1_trains_delta c.p1_trains_bw c.p1_trains_count ∧
  Appended c0.train_packet_length_max c0.packet_dispersion_delta_min
    c0.p2_trains_delta c0.p2_trains_bw c0.p2_trains_count
    c.p2_trains_delta c.p2_trains_bw c.p2_trains_count

/-- A list of identifiers never decreases. -/
def NonDecreasing (ids : List Int) : Prop := ids.Pairwise (fun a b => a ≤ b)

/-- Specification predicate: `[j..i]` is a window of the left-expansion step as the
specification describes it, with its right endpoint `i` in `[bin_index_lo,
bin_index_hi - 1]`, its left endpoint `j` any index from `0` upward, and values that
span at most `bin_width`. -/
def IsLeftWindowLe (a : Int → ℚ) (bin_width : ℚ) (bin_index_lo bin_index_hi j i : Int) :
    Prop :=
  0 ≤ j ∧ j ≤ i ∧ bin_index_lo ≤ i ∧ i ≤ bin_index_hi - 1 ∧ a i - a j ≤ bin_width

/-- Proof measure: the failures the counters of the lengths `TRAIN_LENGTH_MIN ..
TRAIN_LENGTH_MAX` can still take before one of them reaches `5`, summed. -/
def fails_slack (K : SamplerParams) (train_fails : Int → Int) : Int :=
  Finset.sum (Finset.Icc K.TRAIN_LENGTH_MIN K.TRAIN_LENGTH_MAX) (fun x => 5 - train_fails x)

/-- Loop invariant of the discovery: the length stays at or above the minimum, no
counter exceeds `5`, and none exceeds `4` while `path_overload` is clear. -/
def DiscoveryInv (K : SamplerParams) (s : Discovery) : Prop :=
  K.TRAIN_LENGTH_MIN ≤ s.conf.train_length ∧ (∀ x, s.train_fails x ≤ 5) ∧
    (s.path_overload = 0 → ∀ x, s.train_fails x ≤ 4)

/-! ## Sample inputs -/

/-- Sample parameters (the values of `common.h` are not part of `loco.c`). -/
def exParams : ModeParams := ⟨1 / 4, 1, fun _ _ => 1⟩

/-- The sample array `0, 1, 2, ...` (`array_ordered[i] = i`). -/
def exArray : Int → ℚ := fun i => (i : ℚ)

/-- The validity array as the callers set it up: every entry `1`. -/
def exValid : Int → Bool := fun _ => true

/-- A cleared mode record. -/
def exMode : mode_s := ⟨0, 0, 0, 0, 0, 0, 0⟩

/-- A mode record given by its central bin and kurtosis (bell equal to the bin). -/
def exModeOf (count : Int) (lo hi kurtosis : ℚ) : mode_s :=
  ⟨count, lo, hi, count, lo, hi, kurtosis⟩

/-- Sample decision parameters: the statistics kernel reports `adr = 1`, `adr_std = 1`. -/
def exCalc : CalcParams := ⟨1 / 10, 9 / 10, fun _ _ => 1, fun _ _ => 1⟩

/-- A sample session: `p1` modes `m1`, `p2` modes `m2`, ten samples per phase. -/
def exConf (m1 : List mode_s) (m2 : List mode_s) : config_s :=
  { train_length := 2
    train_length_max := 2
    train_packet_length := 1500
    train_packet_length_min := 100
    train_packet_length_max := 1500
    packet_dispersion_delta_min := 1
    prelim_bw_mean := 1
    prelim_bw_std := 1
    p1_train_packet_length_min := 0
    p1_train_packet_length_max := 1500
    p1_trains_bw := fun _ => 0
    p1_trains_delta := fun _ => 0
    p1_trains_count := 10
    p1_trains_count_discarded := 0
    p1_modes := fun i => m1.getD i.toNat exMode
    p1_modes_count := m1.length
    p2_trains_bw := fun _ => 0
    p2_trains_delta := fun _ => 0
    p2_trains_count := 10
    p2_trains_count_discarded := 0
    p2_modes := fun i => m2.getD i.toNat exMode
    p2_modes_count := m2.length
    bandwidth_assessment := Assessment.QUICK
    bandwidth_lo := 0
    bandwidth_hi := 0
    bandwidth_estimated := 0
    bin_width := 1 / 8 }

/-- A sample session with two P2 modes of negative merit: `[0, 2]` with merit `-1`
and `[10, 12]` with merit `-1/2`. -/
def exBimodal : config_s := exConf [] [exModeOf 5 0 2 (-2), exModeOf 5 10 12 (-1)]

/-- A pass in which `select` timed out: `p == 0`, no socket readable. -/
def timeout_event : SelectEvent := ⟨0, false, none, 0, none⟩

/-- A pass in which one UDP packet `(train_id, packet_id)` arrived at time `t`. -/
def packet_event (train_id packet_id : Nat) (t : Int) : SelectEvent :=
  ⟨1, false, some (train_id, packet_id), t, none⟩

/-- A pass in which one control message with code `c_code` arrived. -/
def control_event (c_code : Nat) : SelectEvent := ⟨1, false, none, 0, some c_code⟩

/-- Sample sampler constants: train lengths `2..3`. -/
def exSampler : SamplerParams := ⟨2, 3, 2, 4, 2, 3⟩

/-- A sample session at `INIT`: empty sample buffers, dispersion minimum `1`. -/
def exSession : config_s :=
  { exConf [] [] with p1_trains_count := 0, p2_trains_count := 0 }

/-- Replies of a daemon whose first `RTT_COUNT_MAX - RTT_VALID_COUNT` replies carry a
wrong value and whose later replies carry the value `0xffffff - count`. -/
def late_replies (K : CalibParams) : Int → Nat :=
  fun c =>
    if K.RTT_COUNT_MAX - K.RTT_VALID_COUNT ≤ c then (16777215 - c).toNat
    else (16777216 - c).toNat

/-- The replies of a daemon that follows the protocol: `0xffffff - count`. -/
def good_replies : Int → Nat := fun c => (16777215 - c).toNat

/-- Sample calibration constants: two valid RTT replies within six iterations, two
valid latency samples within four exchanges. -/
def exCalib : CalibParams := ⟨2, 6, 2, 4, fun a _ => a 0⟩

/-- Replies of a daemon whose reply in iteration `1` carries a wrong value. -/
def exRepliesOneBad : Int → Nat := fun c => if c = 1 then 0 else (16777215 - c).toNat

/-- Sample decision parameters: the statistics kernel reports `adr = 10`,
`adr_std = 0`. -/
def exCalcUni : CalcParams := ⟨1 / 10, 9 / 10, fun _ _ => 10, fun _ _ => 0⟩

/-- A sample session with the single P2 mode `[8, 12]` and `prelim_bw_mean = 20`; the
entries of `p2_modes` beyond the first hold zeros, as in the zero-initialised global
`conf`. -/
def exUnimodal : config_s := { exConf [] [exModeOf 5 8 12 1] with prelim_bw_mean := 20 }

/-- A phase of `4097` rows, the `i`-th row holding `i,i`. -/
def exCsvLong : CsvSection := ⟨some 4097, fun i => some ((i : ℚ), some (i : ℚ))⟩

/-- A phase whose count cannot be read. -/
def exCsvNone : CsvSection := ⟨none, fun _ => none⟩

/-- The passes in which the packets `start, start + 1, ..` of the train `train_id`
arrive one by one, as many as the last argument says; the packet `k` arrives at the
time `t k`. -/
def in_order_packets (train_id : Nat) (t : Nat → Int) : Nat → Nat → List SelectEvent
  | _, 0 => []
  | start, n + 1 => packet_event train_id start (t start) :: in_order_packets train_id t (start + 1) n

/-- A CSV phase of two rows `10,100`. -/
def exCsvShort : CsvSection := ⟨some 2, fun _ => some ((10 : ℚ), some (100 : ℚ))⟩

/-- Sample packet-length constants. -/
def exPacket : PacketParams := ⟨100, 1500⟩

/-- The sample session with a phase-1 packet-length range of one byte. -/
def exNarrow : config_s :=
  { exSession with p1_train_packet_length_min := 100, p1_train_packet_length_max := 101 }

/-- Sample parameters with `BIN_COUNT_TOLERANCE = 1/2`. -/
def exTolerant : ModeParams := ⟨1 / 2, 1, fun _ _ => 1⟩

/-- The sorted sample array `0, 100, 105, 112`. -/
def exFar : Int → ℚ :=
  fun i => if i = 0 then 0 else if i = 1 then 100 else if i = 2 then 105 else 112

/-- The sorted sample array `100, 105, 112`: `exFar` without its first sample. -/
def exNear : Int → ℚ := fun i => if i = 0 then 100 else if i = 1 then 105 else 112

/-- The sorted sample array `0, 1, 1, 1, ...`. -/
def exTie : Int → ℚ := fun i => if i = 0 then 0 else 1

/-- The sorted sample array `0, 1/4, 1/2, 1/2, ...`. -/
def exClose : Int → ℚ := fun i => if i = 0 then 0 else if i = 1 then 1 / 4 else 1 / 2

/-- A validity array whose entry `0` is cleared. -/
def exValidTail : Int → Bool := fun i => decide (i ≠ 0)

/-- The sorted sample array `0, 2^53 + 4, 2^53 + 6, 2^53 + 6` of `double`s. -/
def exRound : Int → ℚ :=
  fun i => if i = 0 then 0 else if i = 1 then 9007199254740996 else 9007199254740998

/-- The sorted sample array `1, 1, 1, 10^17` of `double`s. -/
def exAbsorb : Int → ℚ := fun i => if i = 3 then 100000000000000000 else 1

/-- An infinite sequence of outcomes: the first attempt succeeds, every later one
fails. -/
def exOutcomesClimb : Nat → Outcome := fun i => if i = 0 then some 10 else none

/-- An infinite sequence of outcomes: every attempt fails. -/
def exOutcomesFail : Nat → Outcome := fun _ => none

/-! ## Rounding to `double` -/

theorem round_even_cases (y : ℚ) :
    (round_even y = Int.floor y ∧ y - (Int.floor y : ℚ) ≤ 1 / 2) ∨
    (round_even y = Int.floor y + 1 ∧ 1 / 2 ≤ y - (Int.floor y : ℚ)) := by
  unfold round_even
  split_ifs with h1 h2 h3
  · left; exact ⟨rfl, le_of_lt h1⟩
  · right; exact ⟨rfl, le_of_lt h2⟩
  · left; exact ⟨rfl, not_lt.mp h2⟩
  · right; exact ⟨rfl, not_lt.mp h1⟩

theorem round_even_intCast (n : Int) : round_even (n : ℚ) = n := by
  unfold round_even
  simp

theorem round_even_mono {y z : ℚ} (h : y ≤ z) : round_even y ≤ round_even z := by
  have hf : Int.floor y ≤ Int.floor z := Int.floor_mono h
  have y1 := Int.floor_le y
  have y2 := Int.lt_floor_add_one y
  have z1 := Int.floor_le z
  have z2 := Int.lt_floor_add_one z
  rcases lt_or_eq_of_le hf with hlt | heq
  · rcases round_even_cases y with ⟨e, _⟩ | ⟨e, _⟩ <;>
      rcases round_even_cases z with ⟨e2, _⟩ | ⟨e2, _⟩ <;> omega
  · unfold round_even
    rw [← heq]
    split_ifs <;> first | omega | (exfalso; linarith)

theorem fl64_quantum_pos (x : ℚ) : (0 : ℚ) < (2 : ℚ) ^ (fl64_exponent x - 52) :=
  zpow_pos (by norm_num) _

theorem fl64_exponent_ge (x : ℚ) : -1022 ≤ fl64_exponent x := le_max_right _ _

theorem fl64_abs_lt (x : ℚ) : |x| < (2 : ℚ) ^ (fl64_exponent x + 1) := by
  have h1 : |x| < ((2 : ℕ) : ℚ) ^ (Int.log 2 |x| + 1) := Int.lt_zpow_succ_log_self (by norm_num) _
  have h2 : ((2 : ℕ) : ℚ) ^ (Int.log 2 |x| + 1) ≤ (2 : ℚ) ^ (fl64_exponent x + 1) := by
    have : Int.log 2 |x| + 1 ≤ fl64_exponent x + 1 := by
      have := le_max_left (Int.log 2 |x|) (-1022)
      unfold fl64_exponent
      omega
    exact_mod_cast zpow_le_zpow_right₀ (by norm_num : (1 : ℚ) ≤ 2) this
  exact lt_of_lt_of_le h1 h2

theorem fl64_le_abs (x : ℚ) (hx : x ≠ 0) (he : -1022 < fl64_exponent x) :
    (2 : ℚ) ^ fl64_exponent x ≤ |x| := by
  have hlog : fl64_exponent x = Int.log 2 |x| := by
    unfold fl64_exponent at he ⊢
    rcases max_cases (Int.log 2 |x|) (-1022) with ⟨h, _⟩ | ⟨h, _⟩
    · exact h
    · rw [h] at he
      omega
  rw [hlog]
  have := Int.zpow_log_le_self (b := 2) (r := |x|) (by norm_num) (abs_pos.mpr hx)
  exact_mod_cast this

theorem fl64_anchor (e : Int) : (2 : ℚ) ^ e / (2 : ℚ) ^ (e - 52) = ((2 ^ 52 : Int) : ℚ) := by
  rw [← zpow_sub₀ (by norm_num : (2 : ℚ) ≠ 0)]
  have : e - (e - 52) = 52 := by omega
  rw [this]
  norm_num

theorem fl64_anchor_succ (e : Int) :
    (2 : ℚ) ^ (e + 1) / (2 : ℚ) ^ (e - 52) = ((2 ^ 53 : Int) : ℚ) := by
  rw [← zpow_sub₀ (by norm_num : (2 : ℚ) ≠ 0)]
  have : e + 1 - (e - 52) = 53 := by omega
  rw [this]
  norm_num

theorem fl64_nonneg {x : ℚ} (h : 0 ≤ x) : 0 ≤ fl64 x := by
  unfold fl64
  have hq := fl64_quantum_pos x
  have h0 : (0 : ℚ) ≤ x / (2 : ℚ) ^ (fl64_exponent x - 52) := div_nonneg h hq.le
  have := round_even_mono h0
  rw [show ((0 : ℚ)) = ((0 : Int) : ℚ) by norm_num, round_even_intCast] at this
  exact mul_nonneg (by exact_mod_cast this) hq.le

theorem fl64_nonpos {x : ℚ} (h : x ≤ 0) : fl64 x ≤ 0 := by
  unfold fl64
  have hq := fl64_quantum_pos x
  have h0 : x / (2 : ℚ) ^ (fl64_exponent x - 52) ≤ 0 := div_nonpos_of_nonpos_of_nonneg h hq.le
  have := round_even_mono h0
  rw [show ((0 : ℚ)) = ((0 : Int) : ℚ) by norm_num, round_even_intCast] at this
  exact mul_nonpos_of_nonpos_of_nonneg (by exact_mod_cast this) hq.le

/-- The mantissa of the rounding lies within `2 ^ 53` in magnitude. -/
theorem fl64_mantissa_bound (x : ℚ) :
    -(2 ^ 53 : Int) ≤ round_even (x / (2 : ℚ) ^ (fl64_exponent x - 52)) ∧
    round_even (x / (2 : ℚ) ^ (fl64_exponent x - 52)) ≤ (2 ^ 53 : Int) := by
  have hq := fl64_quantum_pos x
  have hlt := fl64_abs_lt x
  have h1 : x / (2 : ℚ) ^ (fl64_exponent x - 52) ≤ ((2 ^ 53 : Int) : ℚ) := by
    rw [← fl64_anchor_succ (fl64_exponent x)]
    exact div_le_div_of_nonneg_right (le_of_lt (lt_of_le_of_lt (le_abs_self x) hlt)) hq.le
  have h2 : ((-(2 ^ 53) : Int) : ℚ) ≤ x / (2 : ℚ) ^ (fl64_exponent x - 52) := by
    have : -(2 : ℚ) ^ (fl64_exponent x + 1) ≤ x := by
      have := neg_abs_le x
      linarith
    have h3 := div_le_div_of_nonneg_right this hq.le
    rw [neg_div, fl64_anchor_succ] at h3
    push_cast at h3 ⊢
    exact h3
  have r1 := round_even_mono h1
  have r2 := round_even_mono h2
  rw [round_even_intCast] at r1 r2
  exact ⟨r2, r1⟩

theorem fl64_le_pow (x : ℚ) : fl64 x ≤ (2 : ℚ) ^ (fl64_exponent x + 1) := by
  have hq := fl64_quantum_pos x
  have hb := (fl64_mantissa_bound x).2
  unfold fl64
  have : ((round_even (x / (2 : ℚ) ^ (fl64_exponent x - 52)) : Int) : ℚ) ≤ ((2 ^ 53 : Int) : ℚ) := by
    exact_mod_cast hb
  have h := mul_le_mul_of_nonneg_right this hq.le
  rw [← fl64_anchor_succ (fl64_exponent x), div_mul_cancel₀ _ hq.ne'] at h
  exact h

theorem fl64_ge_neg_pow (x : ℚ) : -(2 : ℚ) ^ (fl64_exponent x + 1) ≤ fl64 x := by
  have hq := fl64_quantum_pos x
  have hb := (fl64_mantissa_bound x).1
  unfold fl64
  have : ((-(2 ^ 53) : Int) : ℚ) ≤ ((round_even (x / (2 : ℚ) ^ (fl64_exponent x - 52)) : Int) : ℚ) := by
    exact_mod_cast hb
  have h := mul_le_mul_of_nonneg_right this hq.le
  have e : ((-(2 ^ 53) : Int) : ℚ) * (2 : ℚ) ^ (fl64_exponent x - 52) =
      -(2 : ℚ) ^ (fl64_exponent x + 1) := by
    have := fl64_anchor_succ (fl64_exponent x)
    rw [div_eq_iff hq.ne'] at this
    rw [this]
    push_cast
    ring
  rw [e] at h
  exact h

theorem fl64_ge_pow {x : ℚ} (hx : 0 < x) (he : -1022 < fl64_exponent x) :
    (2 : ℚ) ^ fl64_exponent x ≤ fl64 x := by
  have hq := fl64_quantum_pos x
  have hle := fl64_le_abs x hx.ne' he
  rw [abs_of_pos hx] at hle
  have h1 : ((2 ^ 52 : Int) : ℚ) ≤ x / (2 : ℚ) ^ (fl64_exponent x - 52) := by
    rw [← fl64_anchor (fl64_exponent x)]
    exact div_le_div_of_nonneg_right hle hq.le
  have r1 := round_even_mono h1
  rw [round_even_intCast] at r1
  unfold fl64
  have : ((2 ^ 52 : Int) : ℚ) ≤ ((round_even (x / (2 : ℚ) ^ (fl64_exponent x - 52)) : Int) : ℚ) := by
    exact_mod_cast r1
  have h := mul_le_mul_of_nonneg_right this hq.le
  rw [← fl64_anchor (fl64_exponent x), div_mul_cancel₀ _ hq.ne'] at h
  exact h

theorem fl64_le_neg_pow {x : ℚ} (hx : x < 0) (he : -1022 < fl64_exponent x) :
    fl64 x ≤ -(2 : ℚ) ^ fl64_exponent x := by
  have hq := fl64_quantum_pos x
  have hle := fl64_le_abs x hx.ne he
  rw [abs_of_neg hx] at hle
  have h1 : x / (2 : ℚ) ^ (fl64_exponent x - 52) ≤ ((-(2 ^ 52) : Int) : ℚ) := by
    have h3 := div_le_div_of_nonneg_right (show x ≤ -(2 : ℚ) ^ fl64_exponent x by linarith) hq.le
    rw [neg_div, fl64_anchor] at h3
    push_cast at h3 ⊢
    exact h3
  have r1 := round_even_mono h1
  rw [round_even_intCast] at r1
  unfold fl64
  have : ((round_even (x / (2 : ℚ) ^ (fl64_exponent x - 52)) : Int) : ℚ) ≤ ((-(2 ^ 52) : Int) : ℚ) := by
    exact_mod_cast r1
  have h := mul_le_mul_of_nonneg_right this hq.le
  have e : ((-(2 ^ 52) : Int) : ℚ) * (2 : ℚ) ^ (fl64_exponent x - 52) =
      -(2 : ℚ) ^ fl64_exponent x := by
    have := fl64_anchor (fl64_exponent x)
    rw [div_eq_iff hq.ne'] at this
    rw [this]
    push_cast
    ring
  rw [e] at h
  exact h

theorem fl64_same_exponent {x y : ℚ} (h : x ≤ y) (he : fl64_exponent x = fl64_exponent y) :
    fl64 x ≤ fl64 y := by
  unfold fl64
  rw [he]
  have hq := fl64_quantum_pos y
  have h1 := round_even_mono (div_le_div_of_nonneg_right h hq.le)
  exact mul_le_mul_of_nonneg_right (by exact_mod_cast h1) hq.le

theorem fl64_exponent_mono {x y : ℚ} (hx : 0 < |x|) (h : |x| ≤ |y|) :
    fl64_exponent x ≤ fl64_exponent y := by
  unfold fl64_exponent
  exact max_le_max (Int.log_mono_right hx h) (le_refl _)

/-- Rounding to `double` is monotone. -/
theorem fl64_mono {x y : ℚ} (h : x ≤ y) : fl64 x ≤ fl64 y := by
  rcases lt_trichotomy x 0 with hx | hx | hx
  · rcases lt_or_le y 0 with hy | hy
    · -- both negative
      have habs : |y| ≤ |x| := by
        rw [abs_of_neg hx, abs_of_neg hy]
        linarith
      have hexp := fl64_exponent_mono (abs_pos.mpr hy.ne) habs
      rcases lt_or_eq_of_le hexp with hlt | heq
      · have a1 := fl64_le_neg_pow hx (lt_of_le_of_lt (fl64_exponent_ge y) hlt)
        have a2 := fl64_ge_neg_pow y
        have a3 : (2 : ℚ) ^ (fl64_exponent y + 1) ≤ (2 : ℚ) ^ fl64_exponent x :=
          zpow_le_zpow_right₀ (by norm_num) (by omega)
        linarith
      · exact fl64_same_exponent h heq.symm
    · exact le_trans (fl64_nonpos hx.le) (fl64_nonneg hy)
  · rw [hx] at h ⊢
    exact le_trans (fl64_nonpos (le_refl _)) (fl64_nonneg h)
  · have hy : 0 < y := lt_of_lt_of_le hx h
    have habs : |x| ≤ |y| := by
      rw [abs_of_pos hx, abs_of_pos hy]
      exact h
    have hexp := fl64_exponent_mono (abs_pos.mpr hx.ne') habs
    rcases lt_or_eq_of_le hexp with hlt | heq
    · have a1 := fl64_le_pow x
      have a2 := fl64_ge_pow hy (lt_of_le_of_lt (fl64_exponent_ge x) hlt)
      have a3 : (2 : ℚ) ^ (fl64_exponent x + 1) ≤ (2 : ℚ) ^ fl64_exponent y :=
        zpow_le_zpow_right₀ (by norm_num) (by omega)
      linarith
    · exact fl64_same_exponent h heq

theorem fl64_of_mantissa (y : ℚ) (m : Int)
    (h : y / (2 : ℚ) ^ (fl64_exponent y - 52) = (m : ℚ)) : fl64 y = y := by
  unfold fl64
  rw [h, round_even_intCast, ← h]
  exact div_mul_cancel₀ _ (fl64_quantum_pos y).ne'

/-- Every `n * 2 ^ k` with `|n| <= 2 ^ 53` and `k >= -1074` is a `double`. -/
theorem fl64_dyadic (n k : Int) (hn : |n| ≤ 2 ^ 53) (hk : -1074 ≤ k) :
    fl64 ((n : ℚ) * (2 : ℚ) ^ k) = (n : ℚ) * (2 : ℚ) ^ k := by
  have h2 : (2 : ℚ) ≠ 0 := by norm_num
  by_cases hn0 : n = 0
  · subst hn0
    apply fl64_of_mantissa _ 0
    simp
  · have hy : (n : ℚ) * (2 : ℚ) ^ k ≠ 0 := by
      apply mul_ne_zero
      · exact_mod_cast hn0
      · exact zpow_ne_zero _ h2
    by_cases hcase : fl64_exponent ((n : ℚ) * (2 : ℚ) ^ k) ≤ k + 52
    · apply fl64_of_mantissa _ (n * 2 ^ (k - fl64_exponent ((n : ℚ) * (2 : ℚ) ^ k) + 52).toNat)
      rw [mul_div_assoc, ← zpow_sub₀ h2]
      push_cast
      congr 1
      rw [← zpow_natCast]
      congr 1
      rw [Int.toNat_of_nonneg (by omega)]
      omega
    · push_neg at hcase
      have he : -1022 < fl64_exponent ((n : ℚ) * (2 : ℚ) ^ k) := by omega
      have hle := fl64_le_abs _ hy he
      rw [abs_mul, abs_of_pos (zpow_pos (by norm_num : (0 : ℚ) < 2) k)] at hle
      have hnq : |(n : ℚ)| ≤ (2 : ℚ) ^ (53 : Int) := by
        have : ((|n| : Int) : ℚ) ≤ ((2 ^ 53 : Int) : ℚ) := by exact_mod_cast hn
        rw [Int.cast_abs] at this
        norm_num at this ⊢
        exact this
      have hup : |(n : ℚ)| * (2 : ℚ) ^ k ≤ (2 : ℚ) ^ (k + 53) := by
        rw [show k + 53 = 53 + k by omega, zpow_add₀ h2]
        exact mul_le_mul_of_nonneg_right hnq (zpow_pos (by norm_num) k).le
      have hexp : fl64_exponent ((n : ℚ) * (2 : ℚ) ^ k) ≤ k + 53 :=
        (zpow_le_zpow_iff_right₀ (by norm_num : (1 : ℚ) < 2)).mp (le_trans hle hup)
      have heq : fl64_exponent ((n : ℚ) * (2 : ℚ) ^ k) = k + 53 := by omega
      rw [heq] at hle
      have hge : (2 : ℚ) ^ (53 : Int) ≤ |(n : ℚ)| := by
        rw [show k + 53 = 53 + k by omega, zpow_add₀ h2] at hle
        exact le_of_mul_le_mul_right hle (zpow_pos (by norm_num) k)
      have habs : |(n : ℚ)| = (2 : ℚ) ^ (53 : Int) := le_antisymm hnq hge
      have hq : (n : ℚ) * (2 : ℚ) ^ k / (2 : ℚ) ^ (k + 53 - 52) = (n : ℚ) / 2 := by
        rw [show k + 53 - 52 = k + 1 by omega, zpow_add₀ h2, zpow_one]
        field_simp
        ring
      rcases abs_eq (by positivity : (0 : ℚ) ≤ (2 : ℚ) ^ (53 : Int)) |>.mp habs with hp | hp
      · apply fl64_of_mantissa _ (2 ^ 52)
        rw [heq, hq, hp]
        norm_num
      · apply fl64_of_mantissa _ (-(2 ^ 52))
        rw [heq, hq, hp]
        norm_num

/-- Rounding to `double` leaves a `double` as it is. -/
theorem fl64_idem (x : ℚ) : fl64 (fl64 x) = fl64 x := by
  have hb := fl64_mantissa_bound x
  have he := fl64_exponent_ge x
  have hk := fl64_dyadic (round_even (x / (2 : ℚ) ^ (fl64_exponent x - 52)))
    (fl64_exponent x - 52) (abs_le.mpr ⟨hb.1, hb.2⟩) (by omega)
  exact hk

theorem fl64_exponent_eq (x : ℚ) (e : Int) (h1 : (2 : ℚ) ^ e ≤ |x|)
    (h2 : |x| < (2 : ℚ) ^ (e + 1)) (h3 : -1022 ≤ e) : fl64_exponent x = e := by
  have hpos : 0 < |x| := lt_of_lt_of_le (zpow_pos (by norm_num) e) h1
  have a1 : e ≤ Int.log 2 |x| := by
    rw [← Int.zpow_le_iff_le_log (by norm_num) hpos]
    exact_mod_cast h1
  have a2 : Int.log 2 |x| < e + 1 := by
    rw [← Int.lt_zpow_iff_log_lt (by norm_num) hpos]
    exact_mod_cast h2
  unfold fl64_exponent
  rw [max_eq_left (by omega)]
  omega

/-- The rounding of `x`, from its exponent. -/
theorem fl64_eval (x : ℚ) (e : Int) (h1 : (2 : ℚ) ^ e ≤ |x|) (h2 : |x| < (2 : ℚ) ^ (e + 1))
    (h3 : -1022 ≤ e) :
    fl64 x = (round_even (x / (2 : ℚ) ^ (e - 52)) : ℚ) * (2 : ℚ) ^ (e - 52) := by
  unfold fl64
  rw [fl64_exponent_eq x e h1 h2 h3]

theorem fl64_intCast (n : Int) (hn : |n| ≤ 2 ^ 53) : fl64 (n : ℚ) = n := by
  have := fl64_dyadic n 0 hn (by norm_num)
  simpa using this

theorem fl64_zero : fl64 0 = 0 := by
  have := fl64_intCast 0 (by norm_num)
  simpa using this

/-- A rational of the form `n * 2 ^ k` with `|n| <= 2 ^ 53` is a `double`. -/
theorem fl64_repr (x : ℚ) (n k : Int) (hx : x = (n : ℚ) * (2 : ℚ) ^ k) (hn : |n| ≤ 2 ^ 53)
    (hk : -1074 ≤ k) : fl64 x = x := by
  rw [hx]
  exact fl64_dyadic n k hn hk

theorem fl64_one : fl64 1 = 1 := by
  have := fl64_intCast 1 (by norm_num)
  simpa using this

/-- A natural number up to `2 ^ 53`, written as a literal, is a `double`. -/
theorem fl64_ofNat (n : Nat) [n.AtLeastTwo] (hn : n ≤ 9007199254740992) :
    fl64 (no_index (OfNat.ofNat n) : ℚ) = OfNat.ofNat n := by
  have h := fl64_intCast (n : Int) (by
    rw [abs_of_nonneg (by positivity)]
    norm_num
    exact_mod_cast hn)
  simpa using h

theorem dadd_mono_left {x y : ℚ} (h : x ≤ y) (w : ℚ) : dadd x w ≤ dadd y w :=
  fl64_mono (add_le_add_right (fl64_mono h) _)

theorem dsub_mono_left {x y : ℚ} (h : x ≤ y) (w : ℚ) : dsub x w ≤ dsub y w :=
  fl64_mono (sub_le_sub_right (fl64_mono h) _)

/-- Adding a `double` that is not positive does not raise a `double`. -/
theorem dadd_nonpos (x w : ℚ) (hw : w ≤ 0) : dadd x w ≤ fl64 x := by
  have h1 : fl64 x + fl64 w ≤ fl64 x := by
    have := fl64_nonpos hw
    linarith
  have h2 := fl64_mono h1
  rwa [fl64_idem] at h2

/-! ## The central bin -/

theorem central_scan_spec (a : Int → ℚ) (v : Int → Bool) (bw : ℚ) (i : Int) :
    ∀ (n : Nat) (j : Int),
      j ≤ central_scan a v bw i n j ∧ central_scan a v bw i n j ≤ j + n ∧
      (∀ k, j ≤ k → k < central_scan a v bw i n j → v k = true ∧ fl64 (a k) < dadd (a i) bw) ∧
      (central_scan a v bw i n j < j + n →
        ¬ (v (central_scan a v bw i n j) = true ∧
            fl64 (a (central_scan a v bw i n j)) < dadd (a i) bw)) := by
  intro n
  induction n with
  | zero =>
    intro j
    simp only [central_scan]
    refine ⟨le_refl _, by simp, ?_, ?_⟩
    · intro k h1 h2; omega
    · intro h; simp at h
  | succ n ih =>
    intro j
    simp only [central_scan]
    by_cases hc : (v j && decide (fl64 (a j) < dadd (a i) bw)) = true
    · rw [if_pos hc]
      obtain ⟨h1, h2, h3, h4⟩ := ih (j + 1)
      refine ⟨by omega, by push_cast; omega, ?_, ?_⟩
      · intro k hk1 hk2
        by_cases hkj : k = j
        · subst hkj
          simpa using hc
        · exact h3 k (by omega) hk2
      · intro h
        apply h4
        push_cast at h
        omega
    · rw [if_neg hc]
      refine ⟨le_refl _, by push_cast; omega, ?_, ?_⟩
      · intro k h1 h2; omega
      · intro _
        simpa using hc

theorem central_step_inv (a : Int → ℚ) (v : Int → Bool) (elements : Int) (bw : ℚ)
    (m : Int) (s : Central) (hm : 0 ≤ m) (h : CentralInv a v elements bw m s) :
    CentralInv a v elements bw (m + 1) (central_step a v elements bw s m) := by
  unfold central_step
  by_cases hv : v m = true
  · rw [if_pos hv]
    show CentralInv a v elements bw (m + 1)
      (if s.count < central_stop a v elements bw m - m then
        ⟨central_stop a v elements bw m - m, m, central_stop a v elements bw m - 1⟩ else s)
    by_cases hlt : s.count < central_stop a v elements bw m - m
    · rw [if_pos hlt]
      have h0 := h.count_nonneg
      refine ⟨by simp only; omega, ?_, ?_, ?_, ?_⟩
      · intro hz; simp only at hz; omega
      · intro _
        refine ⟨hm, by simp only; omega, hv, by simp only; omega, by simp only; omega⟩
      · intro i hi0 hi hvi
        by_cases him : i = m
        · subst him; simp only; omega
        · have := h.best i hi0 (by omega) hvi
          simp only; omega
      · intro i hi0 hi hvi
        simp only at hi
        have := h.best i hi0 hi hvi
        simp only; omega
    · rw [if_neg hlt]
      refine ⟨h.count_nonneg, h.zero, ?_, ?_, h.first⟩
      · intro hp
        obtain ⟨p1, p2, p3, p4, p5⟩ := h.pos hp
        exact ⟨p1, by omega, p3, p4, p5⟩
      · intro i hi0 hi hvi
        by_cases him : i = m
        · subst him; omega
        · exact h.best i hi0 (by omega) hvi
  · rw [if_neg hv]
    refine ⟨h.count_nonneg, h.zero, ?_, ?_, h.first⟩
    · intro hp
      obtain ⟨p1, p2, p3, p4, p5⟩ := h.pos hp
      exact ⟨p1, by omega, p3, p4, p5⟩
    · intro i hi0 hi hvi
      by_cases him : i = m
      · subst him; exact absurd hvi hv
      · exact h.best i hi0 (by omega) hvi

theorem central_fold_inv (a : Int → ℚ) (v : Int → Bool) (elements : Int) (bw : ℚ) (n : Nat) :
    CentralInv a v elements bw (n : Int)
      ((List.range n).foldl
        (fun (s : Central) (i : Nat) => central_step a v elements bw s (i : Int)) ⟨0, 0, 0⟩) := by
  induction n with
  | zero =>
    refine ⟨by simp, by simp, by simp, ?_, ?_⟩
    · intro i h1 h2; simp at h2; omega
    · intro i h1 h2; simp at h2; omega
  | succ n ih =>
    rw [List.range_succ, List.foldl_append]
    simp only [List.foldl_cons, List.foldl_nil]
    have := central_step_inv a v elements bw (n : Int) _ (by omega) ih
    simpa using this

theorem central_bin_inv (a : Int → ℚ) (v : Int → Bool) (elements : Int) (bw : ℚ)
    (he : 0 ≤ elements) :
    CentralInv a v elements bw elements (central_bin a v elements bw) := by
  have := central_fold_inv a v elements bw elements.toNat
  rw [Int.toNat_of_nonneg he] at this
  exact this

/-! ## The left expansion -/

theorem left_inner_spec (a : Int → ℚ) (bw : ℚ) (i : Int) :
    ∀ (n : Nat) (j c : Int),
      (left_inner a bw i n j c).1 = j - ((left_inner a bw i n j c).2 - c) ∧
      c ≤ (left_inner a bw i n j c).2 ∧ (left_inner a bw i n j c).2 ≤ c + n ∧
      (∀ k, (left_inner a bw i n j c).1 < k → k ≤ j → fl64 (a k) > dsub (a i) bw) ∧
      ((left_inner a bw i n j c).2 < c + n →
        ¬ (fl64 (a (left_inner a bw i n j c).1) > dsub (a i) bw)) := by
  intro n
  induction n with
  | zero =>
    intro j c
    simp only [left_inner]
    refine ⟨by omega, le_refl _, by simp, ?_, ?_⟩
    · intro k h1 h2; omega
    · intro h; simp at h
  | succ n ih =>
    intro j c
    simp only [left_inner]
    by_cases hc : fl64 (a j) > dsub (a i) bw
    · rw [if_pos hc]
      obtain ⟨h1, h2, h3, h4, h5⟩ := ih (j - 1) (c + 1)
      refine ⟨by omega, by omega, by push_cast; omega, ?_, ?_⟩
      · intro k hk1 hk2
        by_cases hkj : k = j
        · subst hkj; exact hc
        · exact h4 k hk1 (by omega)
      · intro h
        apply h5
        push_cast at h
        omega
    · rw [if_neg hc]
      refine ⟨by simp, le_refl _, by push_cast; omega, ?_, ?_⟩
      · intro k h1 h2; omega
      · intro _; exact hc

theorem left_scan_cases (a : Int → ℚ) (bw : ℚ) :
    ∀ (n : Nat) (i0 : Int) (lb : Bin),
      left_scan a bw n i0 lb = lb ∨
      ∃ i, i0 - n < i ∧ i ≤ i0 ∧ (left_inner a bw i i.toNat i 0).2 > lb.count ∧
        left_scan a bw n i0 lb =
          ⟨(left_inner a bw i i.toNat i 0).2, (left_inner a bw i i.toNat i 0).1 + 1, i⟩ := by
  intro n
  induction n with
  | zero => intro i0 lb; left; rfl
  | succ n ih =>
    intro i0 lb
    simp only [left_scan]
    by_cases hc : (left_inner a bw i0 i0.toNat i0 0).2 > lb.count
    · rw [if_pos hc]
      rcases ih (i0 - 1) ⟨(left_inner a bw i0 i0.toNat i0 0).2,
          (left_inner a bw i0 i0.toNat i0 0).1 + 1, i0⟩ with h | ⟨i, h1, h2, h3, h4⟩
      · right
        exact ⟨i0, by push_cast; omega, le_refl _, hc, h⟩
      · right
        refine ⟨i, by push_cast; omega, by omega, ?_, h4⟩
        simp only at h3
        omega
    · rw [if_neg hc]
      rcases ih (i0 - 1) lb with h | ⟨i, h1, h2, h3, h4⟩
      · left; exact h
      · right
        exact ⟨i, by push_cast; omega, by omega, h3, h4⟩

/-- Where the left scan can find its window, on any array, from a bin
`[bin_lo..bin_hi]`: the window starts at an index `>= 1` (the inner loop runs while
`j > 0`) and ends inside the bin, left of `bin_hi`. -/
theorem left_scan_range (a : Int → ℚ) (bw : ℚ) (bin_lo bin_hi : Int) (lb0 : Bin)
    (hlb0 : lb0.count = 0)
    (hpos : 0 < (left_scan a bw (bin_hi - bin_lo).toNat (bin_hi - 1) lb0).count) :
    1 ≤ (left_scan a bw (bin_hi - bin_lo).toNat (bin_hi - 1) lb0).index_lo ∧
    (left_scan a bw (bin_hi - bin_lo).toNat (bin_hi - 1) lb0).index_lo ≤
      (left_scan a bw (bin_hi - bin_lo).toNat (bin_hi - 1) lb0).index_hi ∧
    bin_lo ≤ (left_scan a bw (bin_hi - bin_lo).toNat (bin_hi - 1) lb0).index_hi ∧
    (left_scan a bw (bin_hi - bin_lo).toNat (bin_hi - 1) lb0).index_hi ≤ bin_hi - 1 := by
  rcases left_scan_cases a bw (bin_hi - bin_lo).toNat (bin_hi - 1) lb0 with h | ⟨i, h1, h2, h3, h4⟩
  · rw [h, hlb0] at hpos; omega
  · rw [h4]
    simp only
    rw [hlb0] at h3
    obtain ⟨e1, e2, e3, e4, e5⟩ := left_inner_spec a bw i i.toNat i 0
    refine ⟨by omega, by omega, by omega, h2⟩

/-- What the left scan finds, on a sorted array, from a bin `[bin_lo..bin_hi]` that
passes the test of the scan between its two ends: a window that starts at or left of
`bin_lo` and passes the test between its two ends. -/
theorem left_scan_window (a : Int → ℚ) (elements : Int) (bw : ℚ)
    (hs : SortedUpTo a elements) (bin_lo bin_hi : Int) (lb0 : Bin)
    (h0 : 0 < bin_lo) (hhi : bin_hi < elements)
    (hw : bin_lo < bin_hi → dsub (a bin_hi) bw < fl64 (a bin_lo)) (hlb0 : lb0.count = 0)
    (hpos : 0 < (left_scan a bw (bin_hi - bin_lo).toNat (bin_hi - 1) lb0).count) :
    (left_scan a bw (bin_hi - bin_lo).toNat (bin_hi - 1) lb0).index_lo ≤ bin_lo ∧
    ((left_scan a bw (bin_hi - bin_lo).toNat (bin_hi - 1) lb0).index_lo <
        (left_scan a bw (bin_hi - bin_lo).toNat (bin_hi - 1) lb0).index_hi →
      dsub (a (left_scan a bw (bin_hi - bin_lo).toNat (bin_hi - 1) lb0).index_hi) bw <
        fl64 (a (left_scan a bw (bin_hi - bin_lo).toNat (bin_hi - 1) lb0).index_lo)) := by
  rcases left_scan_cases a bw (bin_hi - bin_lo).toNat (bin_hi - 1) lb0 with h | ⟨i, h1, h2, h3, h4⟩
  · rw [h, hlb0] at hpos; omega
  · rw [h4]
    simp only
    obtain ⟨e1, e2, e3, e4, e5⟩ := left_inner_spec a bw i i.toNat i 0
    have hi1 : bin_lo ≤ i := by omega
    have hlt : bin_lo < bin_hi := by omega
    have hw1 := hw hlt
    -- the inner loop passes every index of the bin
    have hpass : (left_inner a bw i i.toNat i 0).1 < bin_lo := by
      by_contra hcon
      push_neg at hcon
      have hj : (left_inner a bw i i.toNat i 0).2 < 0 + (i.toNat : Int) := by omega
      apply e5 hj
      have s1 : fl64 (a bin_lo) ≤ fl64 (a (left_inner a bw i i.toNat i 0).1) :=
        fl64_mono (hs _ _ (le_of_lt h0) hcon (by omega))
      have s2 : dsub (a i) bw ≤ dsub (a bin_hi) bw :=
        dsub_mono_left (hs _ _ (by omega) (by omega) hhi) bw
      exact lt_of_le_of_lt s2 (lt_of_lt_of_le hw1 s1)
    refine ⟨by omega, ?_⟩
    intro hlt2
    exact e4 ((left_inner a bw i i.toNat i 0).1 + 1) (by omega) (by omega)

theorem leftInv_frame {W : Prop} {a : Int → ℚ} {bw : ℚ} {c : Central} {s : Bell}
    (h : LeftInv W a bw c s) (lb : Bin) : LeftInv W a bw c { s with lbin := lb } :=
  ⟨h.lo_nonneg, h.lo_le_hi, h.hi_le, h.window, h.bell_lo_eq, h.bell_lo_le, h.bell_hi_eq,
    h.m_count, h.m_lo, h.m_hi, h.m_bell_lo, h.m_bell_hi, h.m_bell_count, h.m_kurtosis⟩

/-- Where the left search can find its window, on any array: when it finds one, the
bin starts above index `0`, and the window starts at an index `>= 1` and ends inside
the bin, left of `bin_index_hi`. -/
theorem left_find_range (a : Int → ℚ) (bw : ℚ) (s : Bell)
    (hpos : 0 < (left_find a bw s).count) :
    0 < s.bin_index_lo ∧ 1 ≤ (left_find a bw s).index_lo ∧
    (left_find a bw s).index_lo ≤ (left_find a bw s).index_hi ∧
    s.bin_index_lo ≤ (left_find a bw s).index_hi ∧
    (left_find a bw s).index_hi ≤ s.bin_index_hi - 1 := by
  unfold left_find at hpos ⊢
  by_cases hlo : s.bin_index_lo > 0
  · rw [if_pos hlo] at hpos ⊢
    exact ⟨hlo, left_scan_range a bw _ _ _ rfl hpos⟩
  · rw [if_neg hlo] at hpos
    simp at hpos

theorem left_find_window (a : Int → ℚ) (elements : Int) (bw : ℚ)
    (hs : SortedUpTo a elements) (s : Bell) (hhi : s.bin_index_hi < elements)
    (hw : 0 < s.bin_index_lo → s.bin_index_lo < s.bin_index_hi →
      dsub (a s.bin_index_hi) bw < fl64 (a s.bin_index_lo))
    (hpos : 0 < (left_find a bw s).count) :
    (left_find a bw s).index_lo ≤ s.bin_index_lo ∧
    ((left_find a bw s).index_lo < (left_find a bw s).index_hi →
      dsub (a (left_find a bw s).index_hi) bw < fl64 (a (left_find a bw s).index_lo)) := by
  unfold left_find at hpos ⊢
  by_cases hlo : s.bin_index_lo > 0
  · rw [if_pos hlo] at hpos ⊢
    exact left_scan_window a elements bw hs _ _ _ hlo hhi (hw hlo) rfl hpos
  · rw [if_neg hlo] at hpos
    simp at hpos

/-- The left expansion leaves its loop within `bin_index_hi + 1` iterations, on any
array, and keeps the invariant; the fields under `W` need a sorted array. -/
theorem left_expand_total (W : Prop) (P : ModeParams) (a : Int → ℚ) (elements : Int)
    (bw : ℚ) (c : Central) (hs : W → SortedUpTo a elements) (hc : c.mode_index_hi < elements) :
    ∀ (n : Nat) (s : Bell), LeftInv W a bw c s → s.bin_index_hi < n →
      ∃ s1, left_expand P a bw n s = some s1 ∧ LeftInv W a bw c s1 := by
  intro n
  induction n with
  | zero =>
    intro s hinv hn
    have := hinv.lo_nonneg
    have := hinv.lo_le_hi
    simp at hn
    omega
  | succ n ih =>
    intro s hinv hn
    simp only [left_expand]
    by_cases hpos : (left_find a bw s).count > 0
    · rw [if_pos hpos]
      by_cases habs : (left_find a bw s).count < s.bin_count + s.bin_count_tolerance
      · rw [if_pos habs]
        obtain ⟨w0, w1, w2, w3, w4⟩ := left_find_range a bw s hpos
        have b1 := hinv.bell_lo_eq
        have b3 := hinv.hi_le
        apply ih
        · refine ⟨?_, w2, ?_, ?_, rfl, ?_, hinv.bell_hi_eq, hinv.m_count, hinv.m_lo,
            hinv.m_hi, rfl, hinv.m_bell_hi, ?_, hinv.m_kurtosis⟩
          · show 0 ≤ (left_find a bw s).index_lo
            omega
          · show (left_find a bw s).index_hi ≤ c.mode_index_hi
            omega
          · intro hW _
            exact (left_find_window a elements bw (hs hW) s
              (lt_of_le_of_lt hinv.hi_le hc) (hinv.window hW) hpos).2
          · intro hW
            have b2 := hinv.bell_lo_le hW
            have w5 := (left_find_window a elements bw (hs hW) s
              (lt_of_le_of_lt hinv.hi_le hc) (hinv.window hW) hpos).1
            show (left_find a bw s).index_lo ≤ c.mode_index_lo
            omega
          · show s.mode.bell_count + (s.bin_index_lo - (left_find a bw s).index_lo) =
              c.count + (c.mode_index_lo - (left_find a bw s).index_lo)
            rw [hinv.m_bell_count]
            omega
        · show (left_find a bw s).index_hi < (n : Int)
          push_cast at hn
          omega
      · rw [if_neg habs]
        exact ⟨_, rfl, leftInv_frame hinv _⟩
    · rw [if_neg hpos]
      exact ⟨_, rfl, leftInv_frame hinv _⟩

/-! ## The right expansion -/

theorem right_inner_spec (a : Int → ℚ) (bw : ℚ) (i : Int) :
    ∀ (n : Nat) (j c : Int),
      (right_inner a bw i n j c).1 = j + ((right_inner a bw i n j c).2 - c) ∧
      c ≤ (right_inner a bw i n j c).2 ∧ (right_inner a bw i n j c).2 ≤ c + n ∧
      (∀ k, j ≤ k → k < (right_inner a bw i n j c).1 → fl64 (a k) ≤ dadd (a i) bw) ∧
      ((right_inner a bw i n j c).2 < c + n →
        ¬ (fl64 (a (right_inner a bw i n j c).1) ≤ dadd (a i) bw)) := by
  intro n
  induction n with
  | zero =>
    intro j c
    simp only [right_inner]
    refine ⟨by omega, le_refl _, by simp, ?_, ?_⟩
    · intro k h1 h2; omega
    · intro h; simp at h
  | succ n ih =>
    intro j c
    simp only [right_inner]
    by_cases hc : fl64 (a j) ≤ dadd (a i) bw
    · rw [if_pos hc]
      obtain ⟨h1, h2, h3, h4, h5⟩ := ih (j + 1) (c + 1)
      refine ⟨by omega, by omega, by push_cast; omega, ?_, ?_⟩
      · intro k hk1 hk2
        by_cases hkj : k = j
        · subst hkj; exact hc
        · exact h4 k (by omega) hk2
      · intro h
        apply h5
        push_cast at h
        omega
    · rw [if_neg hc]
      refine ⟨by simp, le_refl _, by push_cast; omega, ?_, ?_⟩
      · intro k h1 h2; omega
      · intro _; exact hc

theorem right_scan_cases (a : Int → ℚ) (elements : Int) (bw : ℚ) :
    ∀ (n : Nat) (i0 : Int) (rb : Bin),
      right_scan a elements bw n i0 rb = rb ∨
      ∃ i, i0 ≤ i ∧ i < i0 + n ∧
        (right_inner a bw i (elements - i).toNat i 0).2 > rb.count ∧
        right_scan a elements bw n i0 rb =
          ⟨(right_inner a bw i (elements - i).toNat i 0).2, i,
            (right_inner a bw i (elements - i).toNat i 0).1 - 1⟩ := by
  intro n
  induction n with
  | zero => intro i0 rb; left; rfl
  | succ n ih =>
    intro i0 rb
    simp only [right_scan]
    by_cases hc : (right_inner a bw i0 (elements - i0).toNat i0 0).2 > rb.count
    · rw [if_pos hc]
      rcases ih (i0 + 1) ⟨(right_inner a bw i0 (elements - i0).toNat i0 0).2, i0,
          (right_inner a bw i0 (elements - i0).toNat i0 0).1 - 1⟩ with h | ⟨i, h1, h2, h3, h4⟩
      · right
        exact ⟨i0, le_refl _, by push_cast; omega, hc, h⟩
      · right
        refine ⟨i, by omega, by push_cast; omega, ?_, h4⟩
        simp only at h3
        omega
    · rw [if_neg hc]
      rcases ih (i0 + 1) rb with h | ⟨i, h1, h2, h3, h4⟩
      · left; exact h
      · right
        exact ⟨i, by omega, by push_cast; omega, h3, h4⟩

/-- What the right scan finds, on a sorted array, from a bin `[bin_lo..bin_hi]` that
passes the test of the scan between its two ends: a window that starts inside the
bin, right of `bin_lo`, ends at or right of `bin_hi`, and passes the test between its
two ends. -/
theorem right_find_window (a : Int → ℚ) (elements : Int) (bw : ℚ)
    (hs : SortedUpTo a elements) (s : Bell) (hlo : 0 ≤ s.bin_index_lo)
    (hhi : s.bin_index_hi < elements)
    (hw : s.bin_index_lo < s.bin_index_hi →
      fl64 (a s.bin_index_hi) ≤ dadd (a s.bin_index_lo) bw)
    (hpos : 0 < (right_find a elements bw s).count) :
    s.bin_index_lo + 1 ≤ (right_find a elements bw s).index_lo ∧
    (right_find a elements bw s).index_lo ≤ s.bin_index_hi ∧
    s.bin_index_hi ≤ (right_find a elements bw s).index_hi ∧
    (right_find a elements bw s).index_hi < elements ∧
    ((right_find a elements bw s).index_lo < (right_find a elements bw s).index_hi →
      fl64 (a (right_find a elements bw s).index_hi) ≤
        dadd (a (right_find a elements bw s).index_lo) bw) := by
  unfold right_find at hpos ⊢
  by_cases hg : s.bin_index_lo < elements - 1
  · rw [if_pos hg] at hpos ⊢
    rcases right_scan_cases a elements bw (s.bin_index_hi - s.bin_index_lo).toNat
      (s.bin_index_lo + 1) ⟨0, s.rbin.index_lo, s.rbin.index_hi⟩ with h | ⟨i, h1, h2, h3, h4⟩
    · rw [h] at hpos
      simp at hpos
    · rw [h4]
      simp only
      simp only at h3
      obtain ⟨e1, e2, e3, e4, e5⟩ := right_inner_spec a bw i (elements - i).toNat i 0
      have hi2 : i ≤ s.bin_index_hi := by omega
      have hw1 := hw (by omega)
      have hpass : s.bin_index_hi < (right_inner a bw i (elements - i).toNat i 0).1 := by
        by_contra hcon
        push_neg at hcon
        have hj : (right_inner a bw i (elements - i).toNat i 0).2 <
            0 + ((elements - i).toNat : Int) := by omega
        apply e5 hj
        have s1 : fl64 (a (right_inner a bw i (elements - i).toNat i 0).1) ≤
            fl64 (a s.bin_index_hi) :=
          fl64_mono (hs _ _ (by omega) hcon hhi)
        have s2 : dadd (a s.bin_index_lo) bw ≤ dadd (a i) bw :=
          dadd_mono_left (hs _ _ hlo (by omega) (by omega)) bw
        exact le_trans s1 (le_trans hw1 s2)
      refine ⟨h1, hi2, by omega, by omega, ?_⟩
      intro hlt2
      exact e4 _ (by omega) (by omega)
  · rw [if_neg hg] at hpos
    simp at hpos

theorem rightInv_frame {W : Prop} {a : Int → ℚ} {elements : Int} {bw : ℚ} {c : Central}
    {s : Bell} (h : RightInv W a elements bw c s) (rb : Bin) :
    RightInv W a elements bw c { s with rbin := rb } :=
  ⟨h.lo_nonneg, h.lo_le_hi, h.hi_lt, h.window, h.bell_hi_eq, h.bell_hi_ge, h.bell_lo_le,
    h.bell_lo_le_hi, h.bell_lo_nonneg, h.m_count, h.m_lo, h.m_hi, h.m_bell_lo, h.m_bell_hi,
    h.m_bell_count, h.m_kurtosis⟩

/-- The right expansion leaves its loop within `elements - bin_index_lo`
iterations and keeps the invariant. -/
theorem right_expand_total (W : Prop) (P : ModeParams) (a : Int → ℚ) (elements : Int)
    (bw : ℚ) (c : Central) (hs : SortedUpTo a elements) :
    ∀ (n : Nat) (s : Bell), RightInv W a elements bw c s → elements - s.bin_index_lo ≤ n →
      ∃ s2, right_expand P a elements bw n s = some s2 ∧ RightInv W a elements bw c s2 := by
  intro n
  induction n with
  | zero =>
    intro s hinv hn
    have := hinv.lo_le_hi
    have := hinv.hi_lt
    simp at hn
    omega
  | succ n ih =>
    intro s hinv hn
    simp only [right_expand]
    by_cases hpos : (right_find a elements bw s).count > 0
    · rw [if_pos hpos]
      by_cases habs : (right_find a elements bw s).count < s.bin_count + s.bin_count_tolerance
      · rw [if_pos habs]
        obtain ⟨w1, w2, w3, w4, w5⟩ := right_find_window a elements bw hs s
          hinv.lo_nonneg hinv.hi_lt hinv.window hpos
        have b1 := hinv.bell_hi_eq
        have b2 := hinv.bell_hi_ge
        have b3 := hinv.lo_nonneg
        apply ih
        · refine ⟨?_, ?_, w4, w5, rfl, ?_, hinv.bell_lo_le, hinv.bell_lo_le_hi,
            hinv.bell_lo_nonneg, hinv.m_count, hinv.m_lo, hinv.m_hi, hinv.m_bell_lo, rfl, ?_,
            hinv.m_kurtosis⟩
          · show 0 ≤ (right_find a elements bw s).index_lo
            omega
          · show (right_find a elements bw s).index_lo ≤ (right_find a elements bw s).index_hi
            omega
          · show c.mode_index_hi ≤ (right_find a elements bw s).index_hi
            omega
          · show s.mode.bell_count + ((right_find a elements bw s).index_hi - s.bin_index_hi) =
              c.count + (c.mode_index_lo - s.bell_index_lo) +
                ((right_find a elements bw s).index_hi - c.mode_index_hi)
            rw [hinv.m_bell_count]
            omega
        · show elements - (right_find a elements bw s).index_lo ≤ (n : Int)
          push_cast at hn
          omega
      · rw [if_neg habs]
        exact ⟨_, rfl, rightInv_frame hinv _⟩
    · rw [if_neg hpos]
      exact ⟨_, rfl, rightInv_frame hinv _⟩

/-! ## The validity count -/

theorem valid_fold_succ (v : Int → Bool) (n : Nat) :
    (List.range (n + 1)).foldl
        (fun (j : Int) (i : Nat) => j + (if v (i : Int) then 1 else 0)) 0 =
      (List.range n).foldl
        (fun (j : Int) (i : Nat) => j + (if v (i : Int) then 1 else 0)) 0 +
      (if v (n : Int) then 1 else 0) := by
  rw [List.range_succ, List.foldl_append]
  rfl

theorem valid_fold_bounds (v : Int → Bool) (n : Nat) :
    0 ≤ (List.range n).foldl
        (fun (j : Int) (i : Nat) => j + (if v (i : Int) then 1 else 0)) 0 ∧
    (List.range n).foldl
        (fun (j : Int) (i : Nat) => j + (if v (i : Int) then 1 else 0)) 0 ≤ n ∧
    ((List.range n).foldl
        (fun (j : Int) (i : Nat) => j + (if v (i : Int) then 1 else 0)) 0 = 0 ↔
      ∀ i : Nat, i < n → v (i : Int) = false) := by
  induction n with
  | zero => simp
  | succ n ih =>
    rw [valid_fold_succ]
    obtain ⟨h1, h2, h3⟩ := ih
    by_cases hv : v (n : Int) = true
    · rw [if_pos hv]
      refine ⟨by omega, by push_cast; omega, ?_⟩
      constructor
      · intro h; omega
      · intro h
        have := h n (by omega)
        rw [hv] at this
        exact absurd this (by simp)
    · rw [if_neg hv]
      refine ⟨by omega, by push_cast; omega, ?_⟩
      constructor
      · intro h i hi
        by_cases hin : i = n
        · subst hin; simpa using hv
        · exact h3.mp (by omega) i (by omega)
      · intro h
        have := h3.mpr (fun i hi => h i (by omega))
        omega

theorem valid_fold_mono (v w : Int → Bool) (hle : ∀ k, w k = true → v k = true) (n : Nat) :
    (List.range n).foldl
        (fun (j : Int) (i : Nat) => j + (if w (i : Int) then 1 else 0)) 0 ≤
      (List.range n).foldl
        (fun (j : Int) (i : Nat) => j + (if v (i : Int) then 1 else 0)) 0 ∧
    ((∃ k : Nat, k < n ∧ v (k : Int) = true ∧ w (k : Int) = false) →
      (List.range n).foldl
          (fun (j : Int) (i : Nat) => j + (if w (i : Int) then 1 else 0)) 0 <
        (List.range n).foldl
          (fun (j : Int) (i : Nat) => j + (if v (i : Int) then 1 else 0)) 0) := by
  induction n with
  | zero => simp
  | succ n ih =>
    rw [valid_fold_succ, valid_fold_succ]
    obtain ⟨h1, h2⟩ := ih
    have hstep : (if w (n : Int) = true then (1 : Int) else 0) ≤
        (if v (n : Int) = true then (1 : Int) else 0) := by
      by_cases hw : w (n : Int) = true
      · rw [if_pos hw, if_pos (hle _ hw)]
      · rw [if_neg hw]; split <;> omega
    refine ⟨by omega, ?_⟩
    rintro ⟨k, hk, hvk, hwk⟩
    by_cases hkn : k = n
    · subst hkn
      rw [if_pos hvk, if_neg (by simp [hwk])]
      omega
    · have := h2 ⟨k, by omega, hvk, hwk⟩
      omega

theorem valid_total_eq_zero_iff (v : Int → Bool) (elements : Int) :
    valid_total v elements = 0 ↔ ∀ i, 0 ≤ i → i < elements → v i = false := by
  unfold valid_total
  rw [(valid_fold_bounds v elements.toNat).2.2]
  constructor
  · intro h i h0 h1
    have := h i.toNat (by omega)
    rwa [Int.toNat_of_nonneg h0] at this
  · intro h i hi
    exact h i (by omega) (by omega)

theorem valid_total_bounds (v : Int → Bool) (elements : Int) :
    0 ≤ valid_total v elements ∧ valid_total v elements ≤ elements.toNat :=
  ⟨(valid_fold_bounds v elements.toNat).1, (valid_fold_bounds v elements.toNat).2.1⟩

theorem valid_total_lt (v w : Int → Bool) (elements : Int)
    (hle : ∀ k, w k = true → v k = true)
    (k : Int) (hk0 : 0 ≤ k) (hk1 : k < elements) (hvk : v k = true) (hwk : w k = false) :
    valid_total w elements < valid_total v elements := by
  unfold valid_total
  apply (valid_fold_mono v w hle elements.toNat).2
  refine ⟨k.toNat, by omega, ?_, ?_⟩
  · rwa [Int.toNat_of_nonneg hk0]
  · rwa [Int.toNat_of_nonneg hk0]

/-! ## One call of `calculate_mode` -/

theorem central_bin_window (a : Int → ℚ) (v : Int → Bool) (elements : Int) (bw : ℚ)
    (he : 0 ≤ elements) (hp : 0 < (central_bin a v elements bw).count) :
    0 ≤ (central_bin a v elements bw).mode_index_lo ∧
    (central_bin a v elements bw).mode_index_hi =
      (central_bin a v elements bw).mode_index_lo + (central_bin a v elements bw).count - 1 ∧
    (central_bin a v elements bw).mode_index_hi < elements ∧
    (∀ k, (central_bin a v elements bw).mode_index_lo ≤ k →
      k ≤ (central_bin a v elements bw).mode_index_hi →
      v k = true ∧
        fl64 (a k) < dadd (a (central_bin a v elements bw).mode_index_lo) bw) := by
  obtain ⟨p1, p2, p3, p4, p5⟩ := (central_bin_inv a v elements bw he).pos hp
  obtain ⟨s1, s2, s3, s4⟩ := central_scan_spec a v bw
    (central_bin a v elements bw).mode_index_lo
    (elements - (central_bin a v elements bw).mode_index_lo).toNat
    (central_bin a v elements bw).mode_index_lo
  unfold central_stop at p5
  rw [p5] at s2 s3
  refine ⟨p1, p4, by omega, ?_⟩
  intro k hk1 hk2
  exact s3 k hk1 (by omega)

theorem central_bin_range (a : Int → ℚ) (v : Int → Bool) (elements : Int) (bw : ℚ)
    (he : 0 < elements) :
    0 ≤ (central_bin a v elements bw).mode_index_lo ∧
    (central_bin a v elements bw).mode_index_lo ≤ (central_bin a v elements bw).mode_index_hi ∧
    (central_bin a v elements bw).mode_index_hi < elements ∧
    ((central_bin a v elements bw).mode_index_lo < (central_bin a v elements bw).mode_index_hi →
      fl64 (a (central_bin a v elements bw).mode_index_hi) <
        dadd (a (central_bin a v elements bw).mode_index_lo) bw) := by
  have hinv := central_bin_inv a v elements bw (le_of_lt he)
  rcases lt_or_eq_of_le hinv.count_nonneg with hp | hz
  · obtain ⟨w1, w2, w3, w4⟩ := central_bin_window a v elements bw (le_of_lt he) hp
    refine ⟨w1, by omega, w3, ?_⟩
    intro _
    exact (w4 _ (by omega) (le_refl _)).2
  · obtain ⟨z1, z2⟩ := hinv.zero hz.symm
    rw [z1, z2]
    exact ⟨le_refl _, le_refl _, he, fun h => absurd h (lt_irrefl _)⟩

/-- With a valid entry that passes the test of the central search against itself
(`array[i] < array[i] + bin_width` in `double` arithmetic) the central bin is not
empty. -/
theorem central_bin_count_pos (a : Int → ℚ) (v : Int → Bool) (elements : Int) (bw : ℚ)
    (i : Int) (hi0 : 0 ≤ i) (hi1 : i < elements) (hvi : v i = true)
    (hna : fl64 (a i) < dadd (a i) bw) :
    0 < (central_bin a v elements bw).count := by
  have hinv := central_bin_inv a v elements bw (by omega)
  have hb := hinv.best i hi0 hi1 hvi
  have hstop : i + 1 ≤ central_stop a v elements bw i := by
    unfold central_stop
    obtain ⟨n, hn⟩ : ∃ n : Nat, (elements - i).toNat = n + 1 :=
      ⟨(elements - i).toNat - 1, by omega⟩
    rw [hn]
    simp only [central_scan]
    have hc : (v i && decide (fl64 (a i) < dadd (a i) bw)) = true := by
      simp [hvi, hna]
    rw [if_pos hc]
    exact (central_scan_spec a v bw i n (i + 1)).1
  omega

theorem bell_init_inv (W : Prop) (P : ModeParams) (a : Int → ℚ) (v : Int → Bool)
    (elements : Int) (bw : ℚ) (he : 0 < elements)
    (hl : W → LeftCompatible a bw (central_bin a v elements bw)) :
    LeftInv W a bw (central_bin a v elements bw)
      (bell_init P a (central_bin a v elements bw)) := by
  obtain ⟨c1, c2, c3, c4⟩ := central_bin_range a v elements bw he
  refine ⟨c1, c2, le_refl _, ?_, rfl, fun _ => le_refl _, rfl, rfl, rfl, rfl, rfl, rfl, ?_,
    rfl⟩
  · intro hW h0 h
    exact hl hW h0 h
  · show (central_bin a v elements bw).count = (central_bin a v elements bw).count +
      ((central_bin a v elements bw).mode_index_lo - (central_bin a v elements bw).mode_index_lo)
    omega

theorem bell_reset_inv (W : Prop) (a : Int → ℚ) (v : Int → Bool) (elements : Int)
    (bw : ℚ) (he : 0 < elements) (s : Bell)
    (h : LeftInv W a bw (central_bin a v elements bw) s) :
    RightInv W a elements bw (central_bin a v elements bw)
      (bell_reset (central_bin a v elements bw) s) := by
  obtain ⟨c1, c2, c3, c4⟩ := central_bin_range a v elements bw he
  have b1 := h.bell_lo_eq
  have b2 := h.lo_nonneg
  have b3 := h.lo_le_hi
  have b4 := h.hi_le
  refine ⟨c1, c2, c3, ?_, h.bell_hi_eq, ?_, h.bell_lo_le, ?_, ?_, h.m_count, h.m_lo, h.m_hi,
    h.m_bell_lo, ?_, ?_, h.m_kurtosis⟩
  · intro hlt
    exact le_of_lt (c4 hlt)
  · show (central_bin a v elements bw).mode_index_hi ≤ s.bell_index_hi
    rw [h.bell_hi_eq]
  · show s.bell_index_lo ≤ (central_bin a v elements bw).mode_index_hi
    omega
  · show 0 ≤ s.bell_index_lo
    omega
  · show s.mode.bell_hi = a s.bell_index_hi
    rw [h.m_bell_hi, h.bell_hi_eq]
  · show s.mode.bell_count = (central_bin a v elements bw).count +
      ((central_bin a v elements bw).mode_index_lo - s.bell_index_lo) +
      (s.bell_index_hi - (central_bin a v elements bw).mode_index_hi)
    rw [h.m_bell_count, h.bell_hi_eq]
    omega

/-- A call of `calculate_mode` that sees no valid entry returns `-1` and changes
nothing. -/
theorem calculate_mode_terminal (P : ModeParams) (a : Int → ℚ) (v : Int → Bool)
    (elements : Int) (bw : ℚ) (mode : mode_s) (hv : valid_total v elements = 0) :
    calculate_mode P a v elements bw mode = some ⟨-1, v, mode, 0, 0, 0, 0⟩ := by
  unfold calculate_mode
  rw [if_pos hv]

/-- On a sorted array a call of `calculate_mode` that sees a valid entry returns
`0` or `1` with a mode that satisfies `ModeSpec`; the bell reaches down to the start
of the central bin (`W`) when the central bin passes the test of the left search. -/
theorem calculate_mode_spec (W : Prop) (P : ModeParams) (a : Int → ℚ) (v : Int → Bool)
    (elements : Int) (bw : ℚ) (mode : mode_s) (hs : SortedUpTo a elements)
    (hv : valid_total v elements ≠ 0)
    (hl : W → LeftCompatible a bw (central_bin a v elements bw)) :
    ∃ r, calculate_mode P a v elements bw mode = some r ∧ ModeSpec W a v elements bw r := by
  have he : 0 < elements := by
    by_contra hcon
    apply hv
    rw [valid_total_eq_zero_iff]
    intro i h0 h1
    omega
  obtain ⟨c1, c2, c3, c4⟩ := central_bin_range a v elements bw he
  obtain ⟨s1, hl, hl1⟩ := left_expand_total W P a elements bw (central_bin a v elements bw)
    (fun _ => hs) c3
    ((central_bin a v elements bw).mode_index_hi.toNat + 1)
    (bell_init P a (central_bin a v elements bw)) (bell_init_inv W P a v elements bw he hl)
    (by show (central_bin a v elements bw).mode_index_hi < _; push_cast; omega)
  obtain ⟨s2, hr, hr1⟩ := right_expand_total W P a elements bw (central_bin a v elements bw) hs
    (elements.toNat + 1) (bell_reset (central_bin a v elements bw) s1)
    (bell_reset_inv W a v elements bw he s1 hl1)
    (by show elements - (central_bin a v elements bw).mode_index_lo ≤ _; push_cast; omega)
  have key : ∀ (rc : Int) (k : ℚ), (rc = 0 ∨ rc = 1) →
      ModeSpec W a v elements bw
        ⟨rc, mark_classified v s2.bell_index_lo s2.bell_index_hi,
          { s2.mode with bell_kurtosis := k },
          (central_bin a v elements bw).mode_index_lo,
          (central_bin a v elements bw).mode_index_hi, s2.bell_index_lo, s2.bell_index_hi⟩ := by
    intro rc k hrc
    exact ⟨hrc, rfl, rfl, hr1.m_count, hr1.m_lo, hr1.m_hi, hr1.m_bell_lo, hr1.m_bell_hi,
      by
        show s2.mode.bell_count = s2.mode.count + _ + _
        rw [hr1.m_bell_count, hr1.m_count],
      c1, hr1.bell_lo_nonneg, hr1.bell_lo_le, hr1.bell_lo_le_hi, c2, hr1.bell_hi_ge,
      by have := hr1.bell_hi_eq; have := hr1.hi_lt; show s2.bell_index_hi < elements; omega,
      rfl⟩
  unfold calculate_mode
  rw [if_neg hv]
  simp only [hl, hr]
  split
  · split
    · exact ⟨_, rfl, key 0 _ (Or.inl rfl)⟩
    · exact ⟨_, rfl, key 1 _ (Or.inr rfl)⟩
  · refine ⟨_, rfl, ?_⟩
    have := key 0 s2.mode.bell_kurtosis (Or.inl rfl)
    exact this

/-! ## Claims on the modal analyzer -/

theorem exArray_sorted (n : Int) : SortedUpTo exArray n := by
  intro i j _ hij _
  unfold exArray
  exact_mod_cast hij

theorem exValid_total_ne (n : Int) (hn : 0 < n) : valid_total exValid n ≠ 0 := by
  rw [Ne, valid_total_eq_zero_iff]
  intro h
  have := h 0 (le_refl _) hn
  simp [exValid] at this

theorem central_stop_ge_window (a : Int → ℚ) (v : Int → Bool) (elements : Int) (bw : ℚ)
    (hs : SortedUpTo a elements) (lo hi : Int) (hw : IsWindowFl a v elements bw lo hi) :
    hi + 1 ≤ central_stop a v elements bw lo := by
  obtain ⟨w1, w2, w3, w4, w5⟩ := hw
  obtain ⟨s1, s2, s3, s4⟩ := central_scan_spec a v bw lo (elements - lo).toNat lo
  unfold central_stop
  by_contra hcon
  push_neg at hcon
  apply s4 (by omega)
  refine ⟨w4 _ s1 (by omega), ?_⟩
  have : fl64 (a (central_scan a v bw lo (elements - lo).toNat lo)) ≤ fl64 (a hi) :=
    fl64_mono (hs _ _ (by omega) (by omega) w3)
  exact lt_of_le_of_lt this w5

theorem exArray_central : central_bin exArray exValid 2 1 = ⟨1, 0, 0⟩ := by
  norm_num [central_bin, central_step, central_scan, exArray, exValid, List.range,
    List.range.loop, dadd, fl64_zero, fl64_one, fl64_ofNat]

/-- Roundings to `double` next to `2^53 = 9007199254740992`, where the `double`s are
the even integers: an odd integer goes to the neighbour with the even mantissa. -/
theorem fl64_near_pow53 :
    fl64 9007199254740993 = 9007199254740992 ∧ fl64 9007199254740995 = 9007199254740996 ∧
    fl64 9007199254740996 = 9007199254740996 ∧ fl64 9007199254740998 = 9007199254740998 ∧
    fl64 9007199254740999 = 9007199254741000 ∧
    fl64 9007199254741001 = 9007199254741000 := by
  refine ⟨?_, ?_, ?_, ?_, ?_, ?_⟩ <;>
  · rw [fl64_eval _ 53 (by norm_num [abs_of_pos]) (by norm_num [abs_of_pos]) (by norm_num)]
    norm_num [round_even]

/-- Roundings to `double` at `1/8` and at `10^17`, where the `double`s are the
multiples of `16`. -/
theorem fl64_near_pow17 :
    fl64 (1 / 8) = 1 / 8 ∧ fl64 (9 / 8) = 9 / 8 ∧
    fl64 100000000000000000 = 100000000000000000 ∧
    fl64 (800000000000000001 / 8) = 100000000000000000 := by
  refine ⟨?_, ?_, ?_, ?_⟩
  · exact fl64_repr _ 1 (-3) (by norm_num) (by norm_num) (by norm_num)
  · exact fl64_repr _ 9 (-3) (by norm_num) (by norm_num) (by norm_num)
  · exact fl64_repr _ 762939453125 17 (by norm_num) (by norm_num) (by norm_num)
  · rw [fl64_eval _ 56 (by norm_num [abs_of_pos]) (by norm_num [abs_of_pos]) (by norm_num)]
    norm_num [round_even]

/-- The central search over two, three and four elements, step by step. -/
theorem central_bin_steps (a : Int → ℚ) (v : Int → Bool) (bw : ℚ) :
    central_bin a v 2 bw =
      central_step a v 2 bw (central_step a v 2 bw ⟨0, 0, 0⟩ 0) 1 ∧
    central_bin a v 3 bw =
      central_step a v 3 bw (central_step a v 3 bw (central_step a v 3 bw ⟨0, 0, 0⟩ 0) 1) 2 ∧
    central_bin a v 4 bw =
      central_step a v 4 bw (central_step a v 4 bw (central_step a v 4 bw
        (central_step a v 4 bw ⟨0, 0, 0⟩ 0) 1) 2) 3 :=
  ⟨rfl, rfl, rfl⟩

/-- A call of `calculate_mode` that sees a valid entry, from the results of its three
stages: the central bin, the left expansion, the right expansion. -/
theorem calculate_mode_stages (P : ModeParams) (a : Int → ℚ) (v : Int → Bool)
    (elements : Int) (bw : ℚ) (mode : mode_s) (c : Central) (s1 s2 : Bell)
    (hv : valid_total v elements ≠ 0) (hc : central_bin a v elements bw = c)
    (hl : left_expand P a bw (c.mode_index_hi.toNat + 1) (bell_init P a c) = some s1)
    (hr : right_expand P a elements bw (elements.toNat + 1) (bell_reset c s1) = some s2) :
    calculate_mode P a v elements bw mode =
      if s2.mode.count > P.BIN_COUNT_NOISE_THRESHOLD then
        if P.stat_array_kurtosis (fun t => a (s2.bell_index_lo + t))
            (s2.bell_index_hi - s2.bell_index_lo + 1) = -99999 then
          some ⟨0, mark_classified v s2.bell_index_lo s2.bell_index_hi,
            { s2.mode with
              bell_kurtosis := P.stat_array_kurtosis (fun t => a (s2.bell_index_lo + t))
                (s2.bell_index_hi - s2.bell_index_lo + 1) },
            c.mode_index_lo, c.mode_index_hi, s2.bell_index_lo, s2.bell_index_hi⟩
        else
          some ⟨1, mark_classified v s2.bell_index_lo s2.bell_index_hi,
            { s2.mode with
              bell_kurtosis := P.stat_array_kurtosis (fun t => a (s2.bell_index_lo + t))
                (s2.bell_index_hi - s2.bell_index_lo + 1) },
            c.mode_index_lo, c.mode_index_hi, s2.bell_index_lo, s2.bell_index_hi⟩
      else
        some ⟨0, mark_classified v s2.bell_index_lo s2.bell_index_hi, s2.mode,
          c.mode_index_lo, c.mode_index_hi, s2.bell_index_lo, s2.bell_index_hi⟩ := by
  unfold calculate_mode
  rw [if_neg hv]
  simp only [hc, hl, hr]

theorem exRound_central : central_bin exRound exValid 4 3 = ⟨3, 1, 3⟩ := by
  have e0 : central_step exRound exValid 4 3 ⟨0, 0, 0⟩ 0 = ⟨1, 0, 0⟩ := by
    norm_num [central_step, central_scan, exRound, exValid, dadd, fl64_zero, fl64_ofNat,
      fl64_near_pow53.1, fl64_near_pow53.2.1, fl64_near_pow53.2.2.1,
    fl64_near_pow53.2.2.2.1, fl64_near_pow53.2.2.2.2.1, fl64_near_pow53.2.2.2.2.2]
  have e1 : central_step exRound exValid 4 3 ⟨1, 0, 0⟩ 1 = ⟨3, 1, 3⟩ := by
    norm_num [central_step, central_scan, exRound, exValid, dadd, fl64_zero, fl64_ofNat,
      fl64_near_pow53.1, fl64_near_pow53.2.1, fl64_near_pow53.2.2.1,
    fl64_near_pow53.2.2.2.1, fl64_near_pow53.2.2.2.2.1, fl64_near_pow53.2.2.2.2.2]
  have e2 : central_step exRound exValid 4 3 ⟨3, 1, 3⟩ 2 = ⟨3, 1, 3⟩ := by
    norm_num [central_step, central_scan, exRound, exValid, dadd, fl64_zero, fl64_ofNat,
      fl64_near_pow53.1, fl64_near_pow53.2.1, fl64_near_pow53.2.2.1,
    fl64_near_pow53.2.2.2.1, fl64_near_pow53.2.2.2.2.1, fl64_near_pow53.2.2.2.2.2]
  have e3 : central_step exRound exValid 4 3 ⟨3, 1, 3⟩ 3 = ⟨3, 1, 3⟩ := by
    norm_num [central_step, central_scan, exRound, exValid, dadd, fl64_zero, fl64_ofNat,
      fl64_near_pow53.1, fl64_near_pow53.2.1, fl64_near_pow53.2.2.1,
    fl64_near_pow53.2.2.2.1, fl64_near_pow53.2.2.2.2.1, fl64_near_pow53.2.2.2.2.2]
  rw [(central_bin_steps exRound exValid 3).2.2, e0, e1, e2, e3]

theorem exRound_left :
    left_expand exParams exRound 3 4 (bell_init exParams exRound ⟨3, 1, 3⟩) =
      some
        { mode := ⟨3, 9007199254740996, 9007199254740998, 2, 9007199254740998,
            9007199254740998, 0⟩
          bell_index_lo := 2
          bell_index_hi := 3
          bin_count := 1
          bin_count_tolerance := 0
          bin_index_lo := 2
          bin_index_hi := 2
          lbin := ⟨0, 2, 2⟩
          rbin := ⟨0, 0, 0⟩ } := by
  norm_num [left_expand, left_find, left_scan, left_inner, left_absorb, bell_init,
    exParams, exRound, toInt, dsub, fl64_zero, fl64_ofNat,
    fl64_near_pow53.1, fl64_near_pow53.2.1, fl64_near_pow53.2.2.1,
    fl64_near_pow53.2.2.2.1, fl64_near_pow53.2.2.2.2.1, fl64_near_pow53.2.2.2.2.2]

theorem exRound_right :
    right_expand exParams exRound 4 3 5
        (bell_reset ⟨3, 1, 3⟩
          { mode := ⟨3, 9007199254740996, 9007199254740998, 2, 9007199254740998,
              9007199254740998, 0⟩
            bell_index_lo := 2
            bell_index_hi := 3
            bin_count := 1
            bin_count_tolerance := 0
            bin_index_lo := 2
            bin_index_hi := 2
            lbin := ⟨0, 2, 2⟩
            rbin := ⟨0, 0, 0⟩ }) =
      some
        { mode := ⟨3, 9007199254740996, 9007199254740998, 2, 9007199254740998,
            9007199254740998, 0⟩
          bell_index_lo := 2
          bell_index_hi := 3
          bin_count := 1
          bin_count_tolerance := 0
          bin_index_lo := 3
          bin_index_hi := 3
          lbin := ⟨0, 2, 2⟩
          rbin := ⟨0, 3, 3⟩ } := by
  norm_num [right_expand, right_find, right_scan, right_inner, right_absorb, bell_reset,
    exParams, exRound, toInt, dadd, fl64_zero, fl64_ofNat,
    fl64_near_pow53.1, fl64_near_pow53.2.1, fl64_near_pow53.2.2.1,
    fl64_near_pow53.2.2.2.1, fl64_near_pow53.2.2.2.2.1, fl64_near_pow53.2.2.2.2.2]

theorem exRound_call :
    (calculate_mode exParams exRound exValid 4 3 exMode).map
        (fun r => (r.rc, r.mode_index_lo, r.mode_index_hi, r.bell_index_lo, r.bell_index_hi,
          r.mode.count, r.mode.bell_count, r.mode.lo, r.mode.bell_lo)) =
      some (1, 1, 3, 2, 3, 3, 2, 9007199254740996, 9007199254740998) := by
  rw [calculate_mode_stages exParams exRound exValid 4 3 exMode _ _ _
    (exValid_total_ne 4 (by norm_num)) exRound_central exRound_left exRound_right]
  norm_num [exParams]

/-! ### Samples that absorb the bin width -/

theorem central_scan_absorbed (a : Int → ℚ) (v : Int → Bool) (bw : ℚ) (i : Int)
    (h : v i = true → ¬ fl64 (a i) < dadd (a i) bw) (n : Nat) :
    central_scan a v bw i n i = i := by
  cases n with
  | zero => rfl
  | succ n =>
    unfold central_scan
    by_cases hv : v i = true
    · simp [h hv]
    · simp [hv]

theorem central_step_absorbed (a : Int → ℚ) (v : Int → Bool) (elements : Int) (bw : ℚ)
    (i : Int) (h : v i = true → ¬ fl64 (a i) < dadd (a i) bw) :
    central_step a v elements bw ⟨0, 0, 0⟩ i = ⟨0, 0, 0⟩ := by
  unfold central_step
  split
  · simp only [central_scan_absorbed a v bw i h]
    rw [if_neg (by omega)]
  · rfl

theorem foldl_fixed {α β : Type} (f : α → β → α) (s : α) :
    ∀ l : List β, (∀ x, x ∈ l → f s x = s) → l.foldl f s = s := by
  intro l
  induction l with
  | nil => intro _; rfl
  | cons x l ih =>
    intro h
    rw [List.foldl_cons, h x (List.mem_cons_self x l)]
    exact ih (fun y hy => h y (List.mem_cons_of_mem x hy))

/-- When every valid sample absorbs the bin width the central search finds no window:
`count` stays `0` and the indices stay `0`. -/
theorem central_bin_absorbed (a : Int → ℚ) (v : Int → Bool) (elements : Int) (bw : ℚ)
    (h : AllAbsorbed a v elements bw) : central_bin a v elements bw = ⟨0, 0, 0⟩ := by
  unfold central_bin
  apply foldl_fixed
  intro x hx
  rw [List.mem_range] at hx
  exact central_step_absorbed a v elements bw (x : Int)
    (h (x : Int) (by omega) (by omega))

/-- A call of `calculate_mode` that sees a valid entry and whose central search finds
no window (with a noise threshold that is not negative) returns `0` with a central
count of `0` and clears the validity entry `0` only. -/
theorem calculate_mode_empty (P : ModeParams) (a : Int → ℚ) (v : Int → Bool)
    (elements : Int) (bw : ℚ) (mode : mode_s)
    (hc : central_bin a v elements bw = ⟨0, 0, 0⟩)
    (hn : 0 ≤ P.BIN_COUNT_NOISE_THRESHOLD) (hv : valid_total v elements ≠ 0) :
    ∃ r, calculate_mode P a v elements bw mode = some r ∧ r.rc = 0 ∧ r.mode.count = 0 ∧
      r.array_valid = mark_classified v 0 0 := by
  unfold calculate_mode
  rw [if_neg hv]
  simp only [hc]
  have hl : left_expand P a bw ((0 : Int).toNat + 1) (bell_init P a ⟨0, 0, 0⟩) =
      some { bell_init P a ⟨0, 0, 0⟩ with lbin := ⟨0, 0, 0⟩ } := by
    simp [left_expand, left_find, bell_init]
  rw [hl]
  simp only
  have hr : right_expand P a elements bw (elements.toNat + 1)
      (bell_reset ⟨0, 0, 0⟩ { bell_init P a ⟨0, 0, 0⟩ with lbin := ⟨0, 0, 0⟩ }) =
      some { bell_reset ⟨0, 0, 0⟩ { bell_init P a ⟨0, 0, 0⟩ with lbin := ⟨0, 0, 0⟩ } with
        rbin := ⟨0, 0, 0⟩ } := by
    simp [right_expand, right_find, right_scan, bell_init, bell_reset]
  rw [hr]
  simp only
  have hc : ¬ ((0 : Int) > P.BIN_COUNT_NOISE_THRESHOLD) := by omega
  simp [bell_reset, bell_init, hc]

theorem mark_classified_zero (v : Int → Bool) :
    (∀ k, k ≠ 0 → mark_classified v 0 0 k = v k) ∧
    (v 0 = false → mark_classified v 0 0 = v) := by
  constructor
  · intro k hk
    unfold mark_classified
    rw [if_neg (by omega)]
  · intro h0
    funext k
    unfold mark_classified
    split
    · rename_i hk
      have : k = 0 := by omega
      rw [this, h0]
    · rfl

theorem extract_modes_zero (P : ModeParams) (a : Int → ℚ) (elements : Int) (bw : ℚ)
    (v : Int → Bool) (mode : mode_s) (modes : List mode_s) :
    extract_modes P a elements bw 0 v mode modes = none := rfl

/-- When every valid sample absorbs the bin width and an index `>= 1` is valid, the
extraction loop is not left within any number of calls. -/
theorem extract_modes_absorbed (P : ModeParams) (a : Int → ℚ) (elements : Int) (bw : ℚ)
    (hn : 0 ≤ P.BIN_COUNT_NOISE_THRESHOLD) :
    ∀ (n : Nat) (v : Int → Bool) (mode : mode_s) (modes : List mode_s),
      AllAbsorbed a v elements bw → (∃ k, 1 ≤ k ∧ k < elements ∧ v k = true) →
      extract_modes P a elements bw n v mode modes = none := by
  intro n
  induction n with
  | zero =>
    intro v mode modes _ _
    rfl
  | succ n ih =>
    intro v mode modes habs hk
    obtain ⟨k, k1, k2, k3⟩ := hk
    have hv : valid_total v elements ≠ 0 := by
      rw [Ne, valid_total_eq_zero_iff]
      intro h
      have := h k (by omega) k2
      rw [k3] at this
      exact absurd this (by simp)
    obtain ⟨r, hr, r1, _, r3⟩ := calculate_mode_empty P a v elements bw mode
      (central_bin_absorbed a v elements bw habs) hn hv
    unfold extract_modes
    rw [hr]
    simp only
    rw [if_neg (by rw [r1]; decide)]
    apply ih
    · intro i h0 h1 hvi
      apply habs i h0 h1
      rw [r3] at hvi
      unfold mark_classified at hvi
      split at hvi
      · exact absurd hvi (by simp)
      · exact hvi
    · refine ⟨k, k1, k2, ?_⟩
      rw [r3, (mark_classified_zero v).1 k (by omega)]
      exact k3

/-! ### The central bin (C1) -/

/-- C1 (as stated, refuted): on the sorted array `0, 1` with both entries valid and
`bin_width = 1`, `calculate_mode` reports the central bin `(0, 0)` of count `1`,
although `[0..1]` is a window of valid indices with `array[1] - array[0] ≤ bin_width`
and count `2`. -/
theorem C1_counterexample :
    SortedUpTo exArray 2 ∧ (0 : ℚ) < 1 ∧ exValid 0 = true ∧
    IsWindowLe exArray exValid 2 1 0 1 ∧
    ∃ r, calculate_mode exParams exArray exValid 2 1 exMode = some r ∧
      r.mode_index_lo = 0 ∧ r.mode_index_hi = 0 ∧ r.mode.count = 1 ∧
      ¬ ((1 : Int) - 0 + 1 ≤ r.mode.count) := by
  have hc : central_bin exArray exValid 2 1 = ⟨1, 0, 0⟩ := exArray_central
  have hv : valid_total exValid 2 ≠ 0 := exValid_total_ne 2 (by norm_num)
  obtain ⟨r, hr, hspec⟩ := calculate_mode_spec False exParams exArray exValid 2 1 exMode
    (exArray_sorted 2) hv (fun h => h.elim)
  refine ⟨exArray_sorted 2, by norm_num, rfl, ?_, r, hr, ?_, ?_, ?_, ?_⟩
  · refine ⟨le_refl _, by norm_num, by norm_num, fun _ _ _ => rfl, ?_⟩
    simp [exArray]
  · rw [hspec.index_lo, hc]
  · rw [hspec.index_hi, hc]
  · rw [hspec.count, hc]
  · rw [hspec.count, hc]
    norm_num

/-- C1 (amended): for every sorted sample array, validity bitmap and bin width with at
least one valid entry `i` of `[0, elements)` that passes the test of the central
search against itself (`array[i] < array[i] + bin_width` in `double` arithmetic: the
bin width is positive and the sample does not absorb it), `calculate_mode` returns,
and the central bin `(lo, hi)` it reports is a window of consecutive valid indices
with `array[hi] < array[lo] + bin_width`, the sum rounded to `double` (strictly less,
not `array[hi] - array[lo] <= bin_width`); its count `hi - lo + 1` is the largest
among all such windows, and among the windows of that count it has the lowest `lo`. -/
theorem C1_central_bin_double (P : ModeParams) (a : Int → ℚ) (v : Int → Bool)
    (elements : Int) (bw : ℚ) (mode : mode_s) (hs : SortedUpTo a elements)
    (hv : ∃ i, 0 ≤ i ∧ i < elements ∧ v i = true ∧ fl64 (a i) < dadd (a i) bw) :
    ∃ r, calculate_mode P a v elements bw mode = some r ∧ r.rc ≠ -1 ∧
      r.mode.count = r.mode_index_hi - r.mode_index_lo + 1 ∧
      r.mode.lo = a r.mode_index_lo ∧ r.mode.hi = a r.mode_index_hi ∧
      IsWindowFl a v elements bw r.mode_index_lo r.mode_index_hi ∧
      (∀ lo hi, IsWindowFl a v elements bw lo hi → hi - lo + 1 ≤ r.mode.count) ∧
      (∀ lo hi, IsWindowFl a v elements bw lo hi → hi - lo + 1 = r.mode.count →
        r.mode_index_lo ≤ lo) := by
  obtain ⟨i, hi0, hi1, hvi, hna⟩ := hv
  have hvt : valid_total v elements ≠ 0 := by
    rw [Ne, valid_total_eq_zero_iff]
    intro h
    have := h i hi0 hi1
    rw [hvi] at this
    exact absurd this (by simp)
  obtain ⟨r, hr, hspec⟩ := calculate_mode_spec False P a v elements bw mode hs hvt
    (fun h => h.elim)
  have he : 0 ≤ elements := by omega
  have hpos := central_bin_count_pos a v elements bw i hi0 hi1 hvi hna
  obtain ⟨w1, w2, w3, w4⟩ := central_bin_window a v elements bw he hpos
  have hinv := central_bin_inv a v elements bw he
  refine ⟨r, hr, ?_, ?_, hspec.lo, hspec.hi, ?_, ?_, ?_⟩
  · rcases hspec.rc with h | h <;> rw [h] <;> norm_num
  · rw [hspec.count, hspec.index_lo, hspec.index_hi]
    omega
  · rw [hspec.index_lo, hspec.index_hi]
    exact ⟨w1, by omega, w3, fun k h1 h2 => (w4 k h1 h2).1, (w4 _ (by omega) (le_refl _)).2⟩
  · intro lo hi hw
    have h1 := central_stop_ge_window a v elements bw hs lo hi hw
    have h2 := hinv.best lo hw.1 (by have := hw.2.1; have := hw.2.2.1; omega)
      (hw.2.2.2.1 lo (le_refl _) hw.2.1)
    rw [hspec.count]
    omega
  · intro lo hi hw heq
    rw [hspec.count] at heq
    rw [hspec.index_lo]
    by_contra hcon
    push_neg at hcon
    have h1 := central_stop_ge_window a v elements bw hs lo hi hw
    have h2 := hinv.first lo hw.1 hcon (hw.2.2.2.1 lo (le_refl _) hw.2.1)
    omega

/-- Witness of C1 (amended) on the array `0, 1` with `bin_width = 1`. -/
theorem C1_central_bin_double_witness :
    SortedUpTo exArray 2 ∧
    (∃ i, 0 ≤ i ∧ i < (2 : Int) ∧ exValid i = true ∧
      fl64 (exArray i) < dadd (exArray i) 1) ∧
    ∃ r, calculate_mode exParams exArray exValid 2 1 exMode = some r ∧ r.rc ≠ -1 ∧
      r.mode.count = r.mode_index_hi - r.mode_index_lo + 1 ∧
      r.mode.lo = exArray r.mode_index_lo ∧ r.mode.hi = exArray r.mode_index_hi ∧
      IsWindowFl exArray exValid 2 1 r.mode_index_lo r.mode_index_hi ∧
      (∀ lo hi, IsWindowFl exArray exValid 2 1 lo hi → hi - lo + 1 ≤ r.mode.count) ∧
      (∀ lo hi, IsWindowFl exArray exValid 2 1 lo hi → hi - lo + 1 = r.mode.count →
        r.mode_index_lo ≤ lo) :=
  ⟨exArray_sorted 2,
    ⟨0, le_refl _, by norm_num, rfl, by norm_num [exArray, dadd, fl64_zero, fl64_one]⟩,
    C1_central_bin_double exParams exArray exValid 2 1 exMode (exArray_sorted 2)
      ⟨0, le_refl _, by norm_num, rfl, by norm_num [exArray, dadd, fl64_zero, fl64_one]⟩⟩

/-! ### The bell and the central bin (C2) -/

theorem exRound_sorted : SortedUpTo exRound 4 := by
  intro i j h0 hij hj
  unfold exRound
  by_cases hi : i = 0
  · rw [if_pos hi]
    split_ifs <;> norm_num
  · rw [if_neg hi, if_neg (by omega : ¬ j = 0)]
    by_cases h1 : i = 1
    · rw [if_pos h1]
      split_ifs <;> norm_num
    · rw [if_neg h1, if_neg (by omega)]

/-- On a sorted array `calculate_mode` returns, and a call that does not return `-1`
leaves a mode with `lo <= hi <= bell_hi`; when the central bin passes the test of the
left search between its two ends, also `bell_lo <= lo` and `bell_count >= count`. -/
theorem calculate_mode_invariant (P : ModeParams) (a : Int → ℚ) (v : Int → Bool)
    (elements : Int) (bw : ℚ) (mode : mode_s) (hs : SortedUpTo a elements) :
    ∃ r, calculate_mode P a v elements bw mode = some r ∧
      (r.rc ≠ -1 → r.mode.lo ≤ r.mode.hi ∧ r.mode.hi ≤ r.mode.bell_hi ∧
        (LeftCompatible a bw (central_bin a v elements bw) →
          r.mode.bell_lo ≤ r.mode.lo ∧ r.mode.bell_count ≥ r.mode.count)) := by
  by_cases hv : valid_total v elements = 0
  · refine ⟨_, calculate_mode_terminal P a v elements bw mode hv, ?_⟩
    intro h
    exact absurd rfl h
  · obtain ⟨r, hr, hspec⟩ := calculate_mode_spec
      (LeftCompatible a bw (central_bin a v elements bw)) P a v elements bw mode hs hv id
    refine ⟨r, hr, fun _ => ?_⟩
    have i0 := hspec.lo_nonneg
    have i1 := hspec.bell_lo_nonneg
    have i3 := hspec.lo_le_hi
    have i4 := hspec.bell_hi_ge
    have i5 := hspec.bell_hi_lt
    rw [hspec.bell_lo, hspec.lo, hspec.hi, hspec.bell_hi, hspec.bell_count]
    refine ⟨hs _ _ (by omega) i3 (by omega), hs _ _ (by omega) i4 i5, fun hW => ?_⟩
    have i2 := hspec.bell_lo_le hW
    exact ⟨hs _ _ i1 i2 (by omega), by omega⟩

theorem exFar_central : central_bin exFar exValid 4 10 = ⟨2, 1, 2⟩ := by
  have e0 : central_step exFar exValid 4 10 ⟨0, 0, 0⟩ 0 = ⟨1, 0, 0⟩ := by
    norm_num [central_step, central_scan, exFar, exValid, dadd, fl64_zero, fl64_ofNat]
  have e1 : central_step exFar exValid 4 10 ⟨1, 0, 0⟩ 1 = ⟨2, 1, 2⟩ := by
    norm_num [central_step, central_scan, exFar, exValid, dadd, fl64_zero, fl64_ofNat]
  have e2 : central_step exFar exValid 4 10 ⟨2, 1, 2⟩ 2 = ⟨2, 1, 2⟩ := by
    norm_num [central_step, central_scan, exFar, exValid, dadd, fl64_zero, fl64_ofNat]
  have e3 : central_step exFar exValid 4 10 ⟨2, 1, 2⟩ 3 = ⟨2, 1, 2⟩ := by
    norm_num [central_step, central_scan, exFar, exValid, dadd, fl64_zero, fl64_ofNat]
  rw [(central_bin_steps exFar exValid 10).2.2, e0, e1, e2, e3]

theorem exFar_compatible :
    LeftCompatible exFar 10 ⟨2, 1, 2⟩ ∧ dsub (exFar 2) 10 < fl64 (exFar 1) := by
  have h : dsub (exFar 2) 10 < fl64 (exFar 1) := by
    norm_num [exFar, dsub, fl64_ofNat]
  exact ⟨fun _ _ => h, h⟩

/-- C2 (the code at the failing input): on a sorted array `calculate_mode` returns and
a call that does not return `-1` leaves `lo <= hi <= bell_hi`; `bell_lo <= lo` and
`bell_count >= count` hold when the central bin passes the test of the left search
(line 1845, `array[hi] - bin_width < array[lo]`) between its two ends, which the
central search (line 1791, `array[hi] < array[lo] + bin_width`) does not ensure in
`double` arithmetic. On the sorted array `0, 2^53 + 4, 2^53 + 6, 2^53 + 6` with every
entry valid and `bin_width = 3` the central bin is `[1..3]` with count `3`
(`2^53 + 4 + 3` rounds to `2^53 + 8`), the left search stops at index `1`
(`2^53 + 6 - 3` rounds to `2^53 + 4`) and the window `[2..2]` it finds is taken for
the left neighbour: the bell becomes `[2..3]` with `bell_count = 2 < count = 3` and
`bell_lo = 2^53 + 6 > lo = 2^53 + 4`. -/
theorem C2_bell_misses_central_bin :
    (∀ (P : ModeParams) (a : Int → ℚ) (v : Int → Bool) (elements : Int) (bw : ℚ)
        (mode : mode_s), SortedUpTo a elements →
      ∃ r, calculate_mode P a v elements bw mode = some r ∧
        (r.rc ≠ -1 → r.mode.lo ≤ r.mode.hi ∧ r.mode.hi ≤ r.mode.bell_hi ∧
          (LeftCompatible a bw (central_bin a v elements bw) →
            r.mode.bell_lo ≤ r.mode.lo ∧ r.mode.bell_count ≥ r.mode.count))) ∧
    (central_bin exFar exValid 4 10 = ⟨2, 1, 2⟩ ∧ LeftCompatible exFar 10 ⟨2, 1, 2⟩ ∧
      dsub (exFar 2) 10 < fl64 (exFar 1)) ∧
    (SortedUpTo exRound 4 ∧ (∀ i, exValid i = true) ∧
      central_bin exRound exValid 4 3 = ⟨3, 1, 3⟩ ∧
      fl64 (exRound 3) < dadd (exRound 1) 3 ∧ ¬ dsub (exRound 3) 3 < fl64 (exRound 1) ∧
      ¬ LeftCompatible exRound 3 ⟨3, 1, 3⟩ ∧
      (calculate_mode exParams exRound exValid 4 3 exMode).map
          (fun r => (r.rc, r.mode_index_lo, r.mode_index_hi, r.bell_index_lo,
            r.bell_index_hi, r.mode.count, r.mode.bell_count, r.mode.lo, r.mode.bell_lo)) =
        some (1, 1, 3, 2, 3, 3, 2, 9007199254740996, 9007199254740998) ∧
      ∃ r, calculate_mode exParams exRound exValid 4 3 exMode = some r ∧ r.rc ≠ -1 ∧
        r.mode.lo < r.mode.bell_lo ∧ r.mode.bell_count < r.mode.count) := by
  have h1 : fl64 (exRound 3) < dadd (exRound 1) 3 := by
    norm_num [exRound, dadd, fl64_ofNat, fl64_near_pow53.2.2.1, fl64_near_pow53.2.2.2.1,
      fl64_near_pow53.2.2.2.2.1]
  have h2 : ¬ dsub (exRound 3) 3 < fl64 (exRound 1) := by
    norm_num [exRound, dsub, fl64_ofNat, fl64_near_pow53.2.1, fl64_near_pow53.2.2.1,
      fl64_near_pow53.2.2.2.1]
  refine ⟨calculate_mode_invariant, ⟨exFar_central, exFar_compatible⟩,
    exRound_sorted, fun _ => rfl, exRound_central, h1, h2, ?_, exRound_call, ?_⟩
  · intro h
    exact h2 (h (by norm_num) (by norm_num))
  · have hcall := exRound_call
    cases hr : calculate_mode exParams exRound exValid 4 3 exMode with
    | none =>
      rw [hr] at hcall
      simp at hcall
    | some r =>
      rw [hr] at hcall
      simp only [Option.map_some', Option.some.injEq, Prod.mk.injEq] at hcall
      obtain ⟨c1, _, _, _, _, c6, c7, c8, c9⟩ := hcall
      refine ⟨r, rfl, ?_, ?_, ?_⟩
      · rw [c1]; norm_num
      · rw [c8, c9]; norm_num
      · rw [c6, c7]; norm_num

/-! ### The extraction loop (C3) -/

/-- A call of `calculate_mode` on a sorted array that sees a valid entry which passes
the test of the central search against itself clears a previously valid entry and
sets none. -/
theorem calculate_mode_clears (P : ModeParams) (a : Int → ℚ) (v : Int → Bool)
    (elements : Int) (bw : ℚ) (mode : mode_s) (hs : SortedUpTo a elements)
    (hv : ∃ i, 0 ≤ i ∧ i < elements ∧ v i = true ∧ fl64 (a i) < dadd (a i) bw) :
    ∃ r, calculate_mode P a v elements bw mode = some r ∧ r.rc ≠ -1 ∧
      (∀ k, r.array_valid k = true → v k = true) ∧
      (∃ k, 0 ≤ k ∧ k < elements ∧ v k = true ∧ r.array_valid k = false) ∧
      valid_total r.array_valid elements < valid_total v elements := by
  obtain ⟨i, hi0, hi1, hvi, hna⟩ := hv
  have hvt : valid_total v elements ≠ 0 := by
    rw [Ne, valid_total_eq_zero_iff]
    intro h
    have := h i hi0 hi1
    rw [hvi] at this
    exact absurd this (by simp)
  obtain ⟨r, hr, hspec⟩ := calculate_mode_spec False P a v elements bw mode hs hvt
    (fun h => h.elim)
  have hpos := central_bin_count_pos a v elements bw i hi0 hi1 hvi hna
  obtain ⟨w1, w2, w3, w4⟩ := central_bin_window a v elements bw (by omega) hpos
  have hmono : ∀ k, r.array_valid k = true → v k = true := by
    intro k hk
    rw [hspec.valid] at hk
    unfold mark_classified at hk
    split at hk
    · exact absurd hk (by simp)
    · exact hk
  have i2 := hspec.bell_lo_le_hi
  have i3 := hspec.lo_le_hi
  have i4 := hspec.bell_hi_ge
  have hcl : r.array_valid r.mode_index_hi = false := by
    rw [hspec.valid]
    unfold mark_classified
    rw [if_pos ⟨i2, i4⟩]
  have hwas : v r.mode_index_hi = true := by
    rw [hspec.index_hi]
    exact (w4 _ (by omega) (le_refl _)).1
  have hhi0 : 0 ≤ r.mode_index_hi := by
    have := hspec.lo_nonneg
    omega
  have hhi1 : r.mode_index_hi < elements := by rw [hspec.index_hi]; exact w3
  refine ⟨r, hr, ?_, hmono, ⟨r.mode_index_hi, hhi0, hhi1, hwas, hcl⟩,
    valid_total_lt v r.array_valid elements hmono r.mode_index_hi hhi0 hhi1 hwas hcl⟩
  rcases hspec.rc with h | h <;> rw [h] <;> norm_num

theorem extract_modes_total (P : ModeParams) (a : Int → ℚ) (elements : Int) (bw : ℚ)
    (hs : SortedUpTo a elements)
    (hna : ∀ i, 0 ≤ i → i < elements → fl64 (a i) < dadd (a i) bw) :
    ∀ (n : Nat) (v : Int → Bool) (mode : mode_s) (modes : List mode_s),
      valid_total v elements ≤ n →
      ∃ out, extract_modes P a elements bw (n + 1) v mode modes = some out ∧
        ∀ i, 0 ≤ i → i < elements → out.2 i = false := by
  intro n
  induction n with
  | zero =>
    intro v mode modes hn
    have hz : valid_total v elements = 0 := by
      have := (valid_total_bounds v elements).1
      simp at hn
      omega
    simp only [extract_modes, calculate_mode_terminal P a v elements bw mode hz]
    exact ⟨_, rfl, (valid_total_eq_zero_iff v elements).mp hz⟩
  | succ n ih =>
    intro v mode modes hn
    by_cases hz : valid_total v elements = 0
    · simp only [extract_modes, calculate_mode_terminal P a v elements bw mode hz]
      exact ⟨_, rfl, (valid_total_eq_zero_iff v elements).mp hz⟩
    · have hv : ∃ i, 0 ≤ i ∧ i < elements ∧ v i = true ∧ fl64 (a i) < dadd (a i) bw := by
        by_contra hcon
        push_neg at hcon
        apply hz
        rw [valid_total_eq_zero_iff]
        intro i h0 h1
        by_contra hvi
        exact absurd (hna i h0 h1) (not_lt.mpr (hcon i h0 h1 (by simpa using hvi)))
      obtain ⟨r, hr, hrc, _, _, hlt⟩ := calculate_mode_clears P a v elements bw mode hs hv
      rw [extract_modes]
      simp only [hr, if_neg hrc]
      apply ih
      push_cast at hn
      omega

theorem exAbsorb_sorted : SortedUpTo exAbsorb 4 := by
  intro i j h0 hij hj
  unfold exAbsorb
  by_cases hi : i = 3
  · rw [if_pos hi, if_pos (by omega)]
  · rw [if_neg hi]
    split_ifs <;> norm_num

theorem exAbsorb_central : central_bin exAbsorb exValid 4 (1 / 8) = ⟨3, 0, 2⟩ := by
  have e0 : central_step exAbsorb exValid 4 (1 / 8) ⟨0, 0, 0⟩ 0 = ⟨3, 0, 2⟩ := by
    norm_num [central_step, central_scan, exAbsorb, exValid, dadd, fl64_one,
      fl64_near_pow17.1, fl64_near_pow17.2.1, fl64_near_pow17.2.2.1, fl64_near_pow17.2.2.2]
  have e1 : central_step exAbsorb exValid 4 (1 / 8) ⟨3, 0, 2⟩ 1 = ⟨3, 0, 2⟩ := by
    norm_num [central_step, central_scan, exAbsorb, exValid, dadd, fl64_one,
      fl64_near_pow17.1, fl64_near_pow17.2.1, fl64_near_pow17.2.2.1, fl64_near_pow17.2.2.2]
  have e2 : central_step exAbsorb exValid 4 (1 / 8) ⟨3, 0, 2⟩ 2 = ⟨3, 0, 2⟩ := by
    norm_num [central_step, central_scan, exAbsorb, exValid, dadd, fl64_one,
      fl64_near_pow17.1, fl64_near_pow17.2.1, fl64_near_pow17.2.2.1, fl64_near_pow17.2.2.2]
  have e3 : central_step exAbsorb exValid 4 (1 / 8) ⟨3, 0, 2⟩ 3 = ⟨3, 0, 2⟩ := by
    norm_num [central_step, central_scan, exAbsorb, exValid, dadd, fl64_one,
      fl64_near_pow17.1, fl64_near_pow17.2.1, fl64_near_pow17.2.2.1, fl64_near_pow17.2.2.2]
  rw [(central_bin_steps exAbsorb exValid (1 / 8)).2.2, e0, e1, e2, e3]

theorem exAbsorb_left :
    left_expand exParams exAbsorb (1 / 8) 3 (bell_init exParams exAbsorb ⟨3, 0, 2⟩) =
      some
        { mode := ⟨3, 1, 1, 3, 1, 1, 0⟩
          bell_index_lo := 0
          bell_index_hi := 2
          bin_count := 3
          bin_count_tolerance := 0
          bin_index_lo := 0
          bin_index_hi := 2
          lbin := ⟨0, 0, 0⟩
          rbin := ⟨0, 0, 0⟩ } := by
  norm_num [left_expand, left_find, bell_init, exParams, exAbsorb, toInt]

theorem exAbsorb_right :
    right_expand exParams exAbsorb 4 (1 / 8) 5
        (bell_reset ⟨3, 0, 2⟩
          { mode := ⟨3, 1, 1, 3, 1, 1, 0⟩
            bell_index_lo := 0
            bell_index_hi := 2
            bin_count := 3
            bin_count_tolerance := 0
            bin_index_lo := 0
            bin_index_hi := 2
            lbin := ⟨0, 0, 0⟩
            rbin := ⟨0, 0, 0⟩ }) =
      some
        { mode := ⟨3, 1, 1, 3, 1, 1, 0⟩
          bell_index_lo := 0
          bell_index_hi := 2
          bin_count := 1
          bin_count_tolerance := 0
          bin_index_lo := 2
          bin_index_hi := 2
          lbin := ⟨0, 0, 0⟩
          rbin := ⟨0, 2, 2⟩ } := by
  norm_num [right_expand, right_find, right_scan, right_inner, right_absorb, bell_reset,
    exParams, exAbsorb, toInt, dadd, fl64_one,
    fl64_near_pow17.1, fl64_near_pow17.2.1, fl64_near_pow17.2.2.1, fl64_near_pow17.2.2.2]

theorem exAbsorb_call :
    calculate_mode exParams exAbsorb exValid 4 (1 / 8) exMode =
      some ⟨1, mark_classified exValid 0 2, ⟨3, 1, 1, 3, 1, 1, 1⟩, 0, 2, 0, 2⟩ := by
  rw [calculate_mode_stages exParams exAbsorb exValid 4 (1 / 8) exMode _ _ _
    (exValid_total_ne 4 (by norm_num)) exAbsorb_central exAbsorb_left exAbsorb_right]
  norm_num [exParams]

theorem exAbsorb_rest :
    AllAbsorbed exAbsorb (mark_classified exValid 0 2) 4 (1 / 8) ∧
    ¬ fl64 (exAbsorb 3) < dadd (exAbsorb 3) (1 / 8) := by
  have h3 : ¬ fl64 (exAbsorb 3) < dadd (exAbsorb 3) (1 / 8) := by
    norm_num [exAbsorb, dadd, fl64_near_pow17.1, fl64_near_pow17.2.2.1,
      fl64_near_pow17.2.2.2]
  refine ⟨?_, h3⟩
  intro i h0 h1 hv
  have hi : i = 3 := by
    by_contra hne
    unfold mark_classified at hv
    rw [if_pos ⟨h0, by omega⟩] at hv
    exact absurd hv (by simp)
  rw [hi]
  exact h3

theorem exArray_passes (i : Int) (h0 : 0 ≤ i) (h1 : i < 3) :
    fl64 (exArray i) < dadd (exArray i) 1 := by
  interval_cases i <;> norm_num [exArray, dadd, fl64_zero, fl64_one, fl64_ofNat]

/-- C3 (the code at the failing input): on a sorted array whose samples all pass the
test of the central search against themselves (`array[i] < array[i] + bin_width` in
`double` arithmetic), each call of `calculate_mode` that finds a valid entry clears a
previously valid entry and the extraction loop receives `-1` within `elements + 1`
calls with no entry of `[0, elements)` left valid. A sample that absorbs the bin width
breaks this: on the sorted array `1, 1, 1, 10^17` with `bin_width = 1/8 > 0` and a
fresh bitmap the first call classifies the indices `0..2`; in the second call the
only valid sample `10^17` fails `array[3] < array[3] + bin_width` (the sum rounds to
`10^17`), the central count is `0`, the call returns `0` and clears nothing, and the
extraction loop of `session_p1_calculate` / `session_p2_calculate` is not left within
any number of calls. -/
theorem C3_extraction_absorbed_never_ends :
    (∀ (P : ModeParams) (a : Int → ℚ) (elements : Int) (bw : ℚ) (v : Int → Bool)
        (mode : mode_s) (modes : List mode_s), SortedUpTo a elements →
      (∀ i, 0 ≤ i → i < elements → fl64 (a i) < dadd (a i) bw) →
      (valid_total v elements ≠ 0 →
        ∃ r, calculate_mode P a v elements bw mode = some r ∧ r.rc ≠ -1 ∧
          (∀ k, r.array_valid k = true → v k = true) ∧
          (∃ k, 0 ≤ k ∧ k < elements ∧ v k = true ∧ r.array_valid k = false)) ∧
      ∃ out, extract_modes P a elements bw (elements.toNat + 1) v mode modes = some out ∧
        ∀ i, 0 ≤ i → i < elements → out.2 i = false) ∧
    (SortedUpTo exArray 3 ∧ (∀ i, 0 ≤ i → i < 3 → fl64 (exArray i) < dadd (exArray i) 1)) ∧
    (SortedUpTo exAbsorb 4 ∧ (0 : ℚ) < 1 / 8 ∧ (∀ i, exValid i = true) ∧
      calculate_mode exParams exAbsorb exValid 4 (1 / 8) exMode =
        some ⟨1, mark_classified exValid 0 2, ⟨3, 1, 1, 3, 1, 1, 1⟩, 0, 2, 0, 2⟩ ∧
      mark_classified exValid 0 2 3 = true ∧
      ¬ fl64 (exAbsorb 3) < dadd (exAbsorb 3) (1 / 8) ∧
      (∀ mode : mode_s,
        ∃ r, calculate_mode exParams exAbsorb (mark_classified exValid 0 2) 4 (1 / 8) mode =
            some r ∧
          r.rc = 0 ∧ r.mode.count = 0 ∧ r.array_valid = mark_classified exValid 0 2) ∧
      ∀ n : Nat, extract_modes exParams exAbsorb 4 (1 / 8) n exValid exMode [] = none) := by
  have hv3 : mark_classified exValid 0 2 3 = true := by
    simp [mark_classified, exValid]
  have hvt : valid_total (mark_classified exValid 0 2) 4 ≠ 0 := by
    rw [Ne, valid_total_eq_zero_iff]
    intro h
    have := h 3 (by norm_num) (by norm_num)
    rw [hv3] at this
    exact absurd this (by simp)
  refine ⟨?_, ⟨exArray_sorted 3, exArray_passes⟩, exAbsorb_sorted, by norm_num,
    fun _ => rfl, exAbsorb_call, hv3, exAbsorb_rest.2, ?_, ?_⟩
  · intro P a elements bw v mode modes hs hna
    constructor
    · intro hv
      have hv1 : ∃ i, 0 ≤ i ∧ i < elements ∧ v i = true ∧ fl64 (a i) < dadd (a i) bw := by
        by_contra hcon
        push_neg at hcon
        apply hv
        rw [valid_total_eq_zero_iff]
        intro i h0 h1
        by_contra hvi
        exact absurd (hna i h0 h1) (not_lt.mpr (hcon i h0 h1 (by simpa using hvi)))
      obtain ⟨r, h1, h2, h3, h4, _⟩ := calculate_mode_clears P a v elements bw mode hs hv1
      exact ⟨r, h1, h2, h3, h4⟩
    · exact extract_modes_total P a elements bw hs hna elements.toNat v mode modes
        (valid_total_bounds v elements).2
  · intro mode
    obtain ⟨r, hr, r1, r2, r3⟩ := calculate_mode_empty exParams exAbsorb
      (mark_classified exValid 0 2) 4 (1 / 8) mode
      (central_bin_absorbed _ _ _ _ exAbsorb_rest.1) (by decide) hvt
    refine ⟨r, hr, r1, r2, ?_⟩
    rw [r3]
    exact (mark_classified_zero _).2 (by simp [mark_classified])
  · intro n
    cases n with
    | zero => exact extract_modes_zero _ _ _ _ _ _ _
    | succ n =>
      rw [extract_modes, exAbsorb_call]
      simp only
      rw [if_neg (by decide)]
      exact extract_modes_absorbed exParams exAbsorb 4 (1 / 8) (by decide) n _ _ _
        exAbsorb_rest.1 ⟨3, by norm_num, by norm_num, hv3⟩

/-! ## Claims on `session_calculate` -/

theorem select_fold_inv (merit : Int → ℚ) (eligible : Int → Prop) [DecidablePred eligible]
    (n : Nat) :
    0 ≤ (select_fold merit eligible n).merit_max ∧
    ((select_fold merit eligible n).merit_max = 0 →
      (select_fold merit eligible n).merit_max_index = 0) ∧
    (0 < (select_fold merit eligible n).merit_max →
      0 ≤ (select_fold merit eligible n).merit_max_index ∧
      (select_fold merit eligible n).merit_max_index < n ∧
      eligible (select_fold merit eligible n).merit_max_index ∧
      merit (select_fold merit eligible n).merit_max_index =
        (select_fold merit eligible n).merit_max) ∧
    (∀ i : Int, 0 ≤ i → i < n → eligible i →
      merit i ≤ (select_fold merit eligible n).merit_max) := by
  induction n with
  | zero =>
    refine ⟨le_refl _, fun _ => rfl, ?_, ?_⟩
    · intro h; exact absurd h (lt_irrefl _)
    · intro i h0 h1; simp at h1; omega
  | succ n ih =>
    obtain ⟨h1, h2, h3, h4⟩ := ih
    have hstep : select_fold merit eligible (n + 1) =
        (if eligible (n : Int) then
          if merit (n : Int) > (select_fold merit eligible n).merit_max then
            ⟨merit (n : Int), (n : Int)⟩ else select_fold merit eligible n
        else select_fold merit eligible n) := by
      unfold select_fold
      rw [List.range_succ, List.foldl_append]
      rfl
    rw [hstep]
    by_cases he : eligible (n : Int)
    · rw [if_pos he]
      by_cases hm : merit (n : Int) > (select_fold merit eligible n).merit_max
      · rw [if_pos hm]
        refine ⟨?_, ?_, ?_, ?_⟩
        · exact le_of_lt (lt_of_le_of_lt h1 hm)
        · intro hz
          have : (0 : ℚ) < merit (n : Int) := lt_of_le_of_lt h1 hm
          simp only at hz
          linarith
        · intro _
          exact ⟨by simp, by simp, he, rfl⟩
        · intro i hi0 hi1 hie
          by_cases hin : i = n
          · subst hin; exact le_refl _
          · have := h4 i hi0 (by push_cast at hi1; omega) hie
            simp only
            linarith
      · rw [if_neg hm]
        refine ⟨h1, h2, ?_, ?_⟩
        · intro hp
          obtain ⟨a1, a2, a3, a4⟩ := h3 hp
          exact ⟨a1, by push_cast; omega, a3, a4⟩
        · intro i hi0 hi1 hie
          by_cases hin : i = n
          · subst hin; exact not_lt.mp hm
          · exact h4 i hi0 (by push_cast at hi1; omega) hie
    · rw [if_neg he]
      refine ⟨h1, h2, ?_, ?_⟩
      · intro hp
        obtain ⟨a1, a2, a3, a4⟩ := h3 hp
        exact ⟨a1, by push_cast; omega, a3, a4⟩
      · intro i hi0 hi1 hie
        by_cases hin : i = n
        · subst hin; exact absurd hie he
        · exact h4 i hi0 (by push_cast at hi1; omega) hie

theorem p1_merit_loop_eq (conf : config_s) (adr : ℚ) :
    p1_merit_loop conf adr =
      select_fold (fun i => merit_of (conf.p1_modes i) conf.p1_trains_count)
        (fun i => (conf.p1_modes i).hi > adr) conf.p1_modes_count.toNat := rfl

theorem p2_merit_loop_eq (conf : config_s) :
    p2_merit_loop conf =
      select_fold (fun i => merit_of (conf.p2_modes i) conf.p2_trains_count)
        (fun _ => True) conf.p2_modes_count.toNat := by
  unfold p2_merit_loop select_fold p2_merit_step
  simp

theorem p1_merit_loop_spec (conf : config_s) (adr : ℚ) :
    (0 < (p1_merit_loop conf adr).merit_max ↔
      ∃ i, 0 ≤ i ∧ i < conf.p1_modes_count ∧ (conf.p1_modes i).hi > adr ∧
        merit_of (conf.p1_modes i) conf.p1_trains_count > 0) ∧
    (0 < (p1_merit_loop conf adr).merit_max →
      0 ≤ (p1_merit_loop conf adr).merit_max_index ∧
      (p1_merit_loop conf adr).merit_max_index < conf.p1_modes_count ∧
      (conf.p1_modes (p1_merit_loop conf adr).merit_max_index).hi > adr ∧
      ∀ j, 0 ≤ j → j < conf.p1_modes_count → (conf.p1_modes j).hi > adr →
        merit_of (conf.p1_modes j) conf.p1_trains_count ≤
          merit_of (conf.p1_modes (p1_merit_loop conf adr).merit_max_index)
            conf.p1_trains_count) := by
  rw [p1_merit_loop_eq]
  obtain ⟨h1, h2, h3, h4⟩ := select_fold_inv
    (fun i => merit_of (conf.p1_modes i) conf.p1_trains_count)
    (fun i => (conf.p1_modes i).hi > adr) conf.p1_modes_count.toNat
  constructor
  · constructor
    · intro hp
      obtain ⟨a1, a2, a3, a4⟩ := h3 hp
      refine ⟨_, a1, by omega, a3, ?_⟩
      have a5 : merit_of (conf.p1_modes _) conf.p1_trains_count = _ := a4
      rw [a5]
      exact hp
    · rintro ⟨i, i0, i1, i2, i3⟩
      exact lt_of_lt_of_le i3 (h4 i i0 (by omega) i2)
  · intro hp
    obtain ⟨a1, a2, a3, a4⟩ := h3 hp
    refine ⟨a1, by omega, a3, ?_⟩
    intro j j0 j1 j2
    have a5 : merit_of (conf.p1_modes _) conf.p1_trains_count = _ := a4
    rw [a5]
    exact h4 j j0 (by omega) j2

theorem p2_merit_loop_spec (conf : config_s) :
    (0 < (p2_merit_loop conf).merit_max ↔
      ∃ i, 0 ≤ i ∧ i < conf.p2_modes_count ∧
        merit_of (conf.p2_modes i) conf.p2_trains_count > 0) ∧
    (0 < (p2_merit_loop conf).merit_max →
      0 ≤ (p2_merit_loop conf).merit_max_index ∧
      (p2_merit_loop conf).merit_max_index < conf.p2_modes_count ∧
      ∀ j, 0 ≤ j → j < conf.p2_modes_count →
        merit_of (conf.p2_modes j) conf.p2_trains_count ≤
          merit_of (conf.p2_modes (p2_merit_loop conf).merit_max_index)
            conf.p2_trains_count) ∧
    (¬ 0 < (p2_merit_loop conf).merit_max → (p2_merit_loop conf).merit_max_index = 0) := by
  rw [p2_merit_loop_eq]
  obtain ⟨h1, h2, h3, h4⟩ := select_fold_inv
    (fun i => merit_of (conf.p2_modes i) conf.p2_trains_count)
    (fun _ => True) conf.p2_modes_count.toNat
  refine ⟨⟨?_, ?_⟩, ?_, ?_⟩
  · intro hp
    obtain ⟨a1, a2, a3, a4⟩ := h3 hp
    refine ⟨_, a1, by omega, ?_⟩
    have a5 : merit_of (conf.p2_modes _) conf.p2_trains_count = _ := a4
    rw [a5]
    exact hp
  · rintro ⟨i, i0, i1, i3⟩
    exact lt_of_lt_of_le i3 (h4 i i0 (by omega) trivial)
  · intro hp
    obtain ⟨a1, a2, a3, a4⟩ := h3 hp
    refine ⟨a1, by omega, ?_⟩
    intro j j0 j1
    have a5 : merit_of (conf.p2_modes _) conf.p2_trains_count = _ := a4
    rw [a5]
    exact h4 j j0 (by omega) trivial
  · intro hn
    exact h2 (le_antisymm (not_lt.mp hn) h1)

theorem session_calculate_mode (K : CalcParams) (conf : config_s)
    (h : 0 < (p1_merit_loop conf (session_calculate_adr K conf)).merit_max) :
    session_calculate K conf =
      { conf with
        bandwidth_lo := (conf.p1_modes
          (p1_merit_loop conf (session_calculate_adr K conf)).merit_max_index).lo
        bandwidth_hi := (conf.p1_modes
          (p1_merit_loop conf (session_calculate_adr K conf)).merit_max_index).hi
        bandwidth_estimated :=
          ((conf.p1_modes
              (p1_merit_loop conf (session_calculate_adr K conf)).merit_max_index).lo +
            (conf.p1_modes
              (p1_merit_loop conf (session_calculate_adr K conf)).merit_max_index).hi) / 2
        bandwidth_assessment := Assessment.MODE } := by
  unfold session_calculate
  simp only [ne_eq, one_ne_zero, not_false_eq_true, if_true]
  rw [if_pos h]

theorem session_calculate_nomode (K : CalcParams) (conf : config_s)
    (h : ¬ 0 < (p1_merit_loop conf (session_calculate_adr K conf)).merit_max) :
    session_calculate K conf =
      { conf with
        bandwidth_estimated := session_calculate_adr K conf
        bandwidth_lo := session_calculate_adr K conf - conf.bin_width
        bandwidth_hi := session_calculate_adr K conf + conf.bin_width
        bandwidth_assessment := Assessment.NOMODE } := by
  unfold session_calculate
  simp only [ne_eq, one_ne_zero, not_false_eq_true, if_true]
  rw [if_neg h]

theorem session_calculate_mode_iff (K : CalcParams) (conf : config_s) :
    (session_calculate K conf).bandwidth_assessment = Assessment.MODE ↔
      ∃ i, 0 ≤ i ∧ i < conf.p1_modes_count ∧
        (conf.p1_modes i).hi > session_calculate_adr K conf ∧
        merit_of (conf.p1_modes i) conf.p1_trains_count > 0 := by
  have hspec := (p1_merit_loop_spec conf (session_calculate_adr K conf)).1
  by_cases hp : 0 < (p1_merit_loop conf (session_calculate_adr K conf)).merit_max
  · rw [session_calculate_mode K conf hp]
    exact ⟨fun _ => hspec.mp hp, fun _ => rfl⟩
  · rw [session_calculate_nomode K conf hp]
    refine ⟨fun h => ?_, fun h => absurd (hspec.mpr h) hp⟩
    exact absurd h (by simp)

theorem exCalc_adr_no_p2_modes (m1 : List mode_s) :
    session_calculate_adr exCalc (exConf m1 []) = 1 := by
  simp [session_calculate_adr, exCalc, exConf]

/-- C4 (as stated, refuted): a session whose only P1 mode has `hi = 10 > adr = 1` but
a negative kurtosis (merit `-1/2`) is assessed `NOMODE`, not `MODE`. -/
theorem C4_counterexample :
    (∃ i, 0 ≤ i ∧ i < (exConf [exModeOf 5 8 10 (-1)] []).p1_modes_count ∧
      ((exConf [exModeOf 5 8 10 (-1)] []).p1_modes i).hi >
        session_calculate_adr exCalc (exConf [exModeOf 5 8 10 (-1)] [])) ∧
    (session_calculate exCalc (exConf [exModeOf 5 8 10 (-1)] [])).bandwidth_assessment =
      Assessment.NOMODE := by
  constructor
  · refine ⟨0, le_refl _, by simp [exConf], ?_⟩
    rw [exCalc_adr_no_p2_modes]
    simp [exConf, exModeOf]
  · rw [session_calculate_nomode]
    rw [(p1_merit_loop_spec _ _).1]
    rintro ⟨i, i0, i1, _, i3⟩
    have hi : i = 0 := by
      simp [exConf] at i1
      omega
    subst hi
    simp [exConf, exModeOf, merit_of] at i3
    linarith

/-- C4 (amended): `session_calculate` reports the assessment `MODE` if and only if at
least one P1 mode has `hi > adr` and a positive merit
`bell_kurtosis * count / p1_trains_count > 0`; when no P1 mode has both, it reports
`NOMODE` (in particular when no P1 mode has `hi > adr`). -/
theorem C4_mode_iff_positive_merit (K : CalcParams) (conf : config_s) :
    ((session_calculate K conf).bandwidth_assessment = Assessment.MODE ↔
      ∃ i, 0 ≤ i ∧ i < conf.p1_modes_count ∧
        (conf.p1_modes i).hi > session_calculate_adr K conf ∧
        merit_of (conf.p1_modes i) conf.p1_trains_count > 0) ∧
    ((¬ ∃ i, 0 ≤ i ∧ i < conf.p1_modes_count ∧
        (conf.p1_modes i).hi > session_calculate_adr K conf ∧
        merit_of (conf.p1_modes i) conf.p1_trains_count > 0) →
      (session_calculate K conf).bandwidth_assessment = Assessment.NOMODE) ∧
    ((¬ ∃ i, 0 ≤ i ∧ i < conf.p1_modes_count ∧
        (conf.p1_modes i).hi > session_calculate_adr K conf) →
      (session_calculate K conf).bandwidth_assessment = Assessment.NOMODE) := by
  have hspec := (p1_merit_loop_spec conf (session_calculate_adr K conf)).1
  by_cases hp : 0 < (p1_merit_loop conf (session_calculate_adr K conf)).merit_max
  · rw [session_calculate_mode K conf hp]
    have hex := hspec.mp hp
    refine ⟨⟨fun _ => hex, fun _ => rfl⟩, fun h => absurd hex h, fun h => ?_⟩
    obtain ⟨i, i0, i1, i2, _⟩ := hex
    exact absurd ⟨i, i0, i1, i2⟩ h
  · rw [session_calculate_nomode K conf hp]
    have hnex := fun h => hp (hspec.mpr h)
    refine ⟨⟨fun h => ?_, fun h => absurd h hnex⟩, fun _ => rfl, fun _ => rfl⟩
    exact absurd h (by simp)

/-- C5: the values `session_calculate` reports are determined by its assessment: when
it reports `MODE`, the bounds are `[lo, hi]` of a P1 mode that has `hi > adr` and whose
merit `bell_kurtosis * count / p1_trains_count` is maximal among the P1 modes with
`hi > adr`, and `estimated = (lo + hi) / 2`; when it reports `NOMODE`,
`estimated = adr` and the bounds are `[adr - bin_width, adr + bin_width]`. -/
theorem C5_reported_values (K : CalcParams) (conf : config_s) :
    ((session_calculate K conf).bandwidth_assessment = Assessment.MODE →
      ∃ i, 0 ≤ i ∧ i < conf.p1_modes_count ∧
        (conf.p1_modes i).hi > session_calculate_adr K conf ∧
        (∀ j, 0 ≤ j → j < conf.p1_modes_count →
          (conf.p1_modes j).hi > session_calculate_adr K conf →
          merit_of (conf.p1_modes j) conf.p1_trains_count ≤
            merit_of (conf.p1_modes i) conf.p1_trains_count) ∧
        (session_calculate K conf).bandwidth_lo = (conf.p1_modes i).lo ∧
        (session_calculate K conf).bandwidth_hi = (conf.p1_modes i).hi ∧
        (session_calculate K conf).bandwidth_estimated =
          ((conf.p1_modes i).lo + (conf.p1_modes i).hi) / 2) ∧
    ((session_calculate K conf).bandwidth_assessment = Assessment.NOMODE →
      (session_calculate K conf).bandwidth_estimated = session_calculate_adr K conf ∧
      (session_calculate K conf).bandwidth_lo = session_calculate_adr K conf - conf.bin_width ∧
      (session_calculate K conf).bandwidth_hi =
        session_calculate_adr K conf + conf.bin_width) := by
  by_cases hp : 0 < (p1_merit_loop conf (session_calculate_adr K conf)).merit_max
  · rw [session_calculate_mode K conf hp]
    obtain ⟨a1, a2, a3, a4⟩ := (p1_merit_loop_spec conf (session_calculate_adr K conf)).2 hp
    refine ⟨fun _ => ⟨_, a1, a2, a3, a4, rfl, rfl, rfl⟩, fun h => ?_⟩
    exact absurd h (by simp)
  · rw [session_calculate_nomode K conf hp]
    refine ⟨fun h => ?_, fun _ => ⟨rfl, rfl, rfl⟩⟩
    exact absurd h (by simp)

/-- Witness of C5: a session with the P1 modes `[8, 10]` (merit `1/2`) and `[20, 30]`
(merit `3/2`) above `adr = 1` reports `MODE` with the bounds `[20, 30]` and
`estimated = 25`. -/
theorem C5_reported_values_witness :
    (session_calculate exCalc
        (exConf [exModeOf 5 8 10 1, exModeOf 5 20 30 3] [])).bandwidth_assessment =
      Assessment.MODE ∧
    ∃ i, 0 ≤ i ∧ i < (exConf [exModeOf 5 8 10 1, exModeOf 5 20 30 3] []).p1_modes_count ∧
      (session_calculate exCalc
        (exConf [exModeOf 5 8 10 1, exModeOf 5 20 30 3] [])).bandwidth_estimated =
      (((exConf [exModeOf 5 8 10 1, exModeOf 5 20 30 3] []).p1_modes i).lo +
        ((exConf [exModeOf 5 8 10 1, exModeOf 5 20 30 3] []).p1_modes i).hi) / 2 := by
  have hm : (session_calculate exCalc
      (exConf [exModeOf 5 8 10 1, exModeOf 5 20 30 3] [])).bandwidth_assessment =
        Assessment.MODE := by
    rw [session_calculate_mode_iff]
    refine ⟨0, le_refl _, by simp [exConf], ?_, ?_⟩
    · rw [exCalc_adr_no_p2_modes]
      simp [exConf, exModeOf]
    · simp [exConf, exModeOf, merit_of]
  obtain ⟨i, i0, i1, _, _, _, _, i6⟩ :=
    (C5_reported_values exCalc (exConf [exModeOf 5 8 10 1, exModeOf 5 20 30 3] [])).1 hm
  exact ⟨hm, i, i0, i1, i6⟩

theorem session_calculate_adr_multi (K : CalcParams) (conf : config_s)
    (h : conf.p2_modes_count > 1) :
    session_calculate_adr K conf =
      ((conf.p2_modes (p2_merit_loop conf).merit_max_index).hi +
        (conf.p2_modes (p2_merit_loop conf).merit_max_index).lo) / 2 := by
  unfold session_calculate_adr
  have h1 : ¬ (conf.p2_modes_count = 1 ∧
      K.stat_array_std conf.p2_trains_bw conf.p2_trains_count /
          K.stat_array_interquartile_mean conf.p2_trains_bw conf.p2_trains_count <
        K.BW_COVAR_THRESHOLD ∧
      K.stat_array_interquartile_mean conf.p2_trains_bw conf.p2_trains_count /
          conf.prelim_bw_mean < K.ADR_THRESHOLD) := by
    rintro ⟨h1, _⟩
    omega
  simp only [if_neg h1, if_pos h]

/-- With the two P2 modes `[0, 2]` (merit `-1`) and `[10, 12]` (merit `-1/2`) the
`adr` used is `1`, the midpoint of the first mode, and not the midpoint of a mode of
maximal merit. -/
theorem exBimodal_adr_not_best :
    exBimodal.p2_modes_count > 1 ∧ session_calculate_adr exCalc exBimodal = 1 ∧
    ¬ ∃ i, 0 ≤ i ∧ i < exBimodal.p2_modes_count ∧
      (∀ j, 0 ≤ j → j < exBimodal.p2_modes_count →
        merit_of (exBimodal.p2_modes j) exBimodal.p2_trains_count ≤
          merit_of (exBimodal.p2_modes i) exBimodal.p2_trains_count) ∧
      session_calculate_adr exCalc exBimodal =
        ((exBimodal.p2_modes i).lo + (exBimodal.p2_modes i).hi) / 2 := by
  have hc : exBimodal.p2_modes_count = 2 := by simp [exBimodal, exConf]
  have hnp : ¬ 0 < (p2_merit_loop exBimodal).merit_max := by
    rw [(p2_merit_loop_spec exBimodal).1]
    rintro ⟨i, i0, i1, i2⟩
    rw [hc] at i1
    have hi : i = 0 ∨ i = 1 := by omega
    rcases hi with rfl | rfl
    · simp [exBimodal, exConf, exModeOf, merit_of] at i2
      linarith
    · simp [exBimodal, exConf, exModeOf, merit_of] at i2
      linarith
  have hidx := (p2_merit_loop_spec exBimodal).2.2 hnp
  have hadr : session_calculate_adr exCalc exBimodal = 1 := by
    rw [session_calculate_adr_multi exCalc exBimodal (by rw [hc]; norm_num), hidx]
    simp [exBimodal, exConf, exModeOf]
  refine ⟨by rw [hc]; norm_num, hadr, ?_⟩
  rintro ⟨i, i0, i1, hmax, heq⟩
  rw [hc] at i1
  have hi : i = 0 ∨ i = 1 := by omega
  rcases hi with rfl | rfl
  · have := hmax 1 (by norm_num) (by rw [hc]; norm_num)
    norm_num [exBimodal, exConf, exModeOf, merit_of] at this
  · rw [hadr] at heq
    simp [exBimodal, exConf, exModeOf] at heq
    linarith

/-- The `adr` of the multi-modal branch: the midpoint of a P2 mode of maximal merit
when some merit is positive, the midpoint of the first P2 mode when none is. -/
theorem session_calculate_adr_cases (K : CalcParams) (conf : config_s)
    (h : conf.p2_modes_count > 1) :
    ((∃ i, 0 ≤ i ∧ i < conf.p2_modes_count ∧
        merit_of (conf.p2_modes i) conf.p2_trains_count > 0) →
      ∃ i, 0 ≤ i ∧ i < conf.p2_modes_count ∧
        (∀ j, 0 ≤ j → j < conf.p2_modes_count →
          merit_of (conf.p2_modes j) conf.p2_trains_count ≤
            merit_of (conf.p2_modes i) conf.p2_trains_count) ∧
        session_calculate_adr K conf = ((conf.p2_modes i).lo + (conf.p2_modes i).hi) / 2) ∧
    ((¬ ∃ i, 0 ≤ i ∧ i < conf.p2_modes_count ∧
        merit_of (conf.p2_modes i) conf.p2_trains_count > 0) →
      session_calculate_adr K conf = ((conf.p2_modes 0).lo + (conf.p2_modes 0).hi) / 2) := by
  rw [session_calculate_adr_multi K conf h]
  obtain ⟨h1, h2, h3⟩ := p2_merit_loop_spec conf
  constructor
  · intro hex
    obtain ⟨a1, a2, a3⟩ := h2 (h1.mpr hex)
    exact ⟨_, a1, a2, a3, by rw [add_comm]⟩
  · intro hnex
    rw [h3 (fun hp => hnex (h1.mp hp)), add_comm]

/-- C6 (the code at the failing input): the running maximum of the P2 merit loop starts
at `merit_max = 0.0` with `merit_max_index = 0` (lines 1266-1268) and only a merit
above it moves the index, so for more than one P2 mode the `adr` is `(lo + hi) / 2` of
a mode of maximal merit only when some merit is positive; when all merits are `<= 0`
it is `(lo + hi) / 2` of the first mode, whatever the merits are, against the comment
of line 1280 (ADR based on the mode with the largest kurtosis density). With the two
P2 modes `[0, 2]` of merit `-1` and `[10, 12]` of merit `-1/2` the `adr` is `1`, the
midpoint of the first mode, while the mode of the largest merit has the midpoint
`11`. -/
theorem C6_adr_first_mode_without_positive_merit :
    (∀ (K : CalcParams) (conf : config_s), conf.p2_modes_count > 1 →
      ((∃ i, 0 ≤ i ∧ i < conf.p2_modes_count ∧
          merit_of (conf.p2_modes i) conf.p2_trains_count > 0) →
        ∃ i, 0 ≤ i ∧ i < conf.p2_modes_count ∧
          (∀ j, 0 ≤ j → j < conf.p2_modes_count →
            merit_of (conf.p2_modes j) conf.p2_trains_count ≤
              merit_of (conf.p2_modes i) conf.p2_trains_count) ∧
          session_calculate_adr K conf =
            ((conf.p2_modes i).lo + (conf.p2_modes i).hi) / 2) ∧
      ((¬ ∃ i, 0 ≤ i ∧ i < conf.p2_modes_count ∧
          merit_of (conf.p2_modes i) conf.p2_trains_count > 0) →
        session_calculate_adr K conf =
          ((conf.p2_modes 0).lo + (conf.p2_modes 0).hi) / 2)) ∧
    (exBimodal.p2_modes_count = 2 ∧
      merit_of (exBimodal.p2_modes 0) exBimodal.p2_trains_count = -1 ∧
      merit_of (exBimodal.p2_modes 1) exBimodal.p2_trains_count = -1 / 2 ∧
      session_calculate_adr exCalc exBimodal = 1 ∧
      ((exBimodal.p2_modes 0).lo + (exBimodal.p2_modes 0).hi) / 2 = 1 ∧
      ((exBimodal.p2_modes 1).lo + (exBimodal.p2_modes 1).hi) / 2 = 11 ∧
      ¬ ∃ i, 0 ≤ i ∧ i < exBimodal.p2_modes_count ∧
        (∀ j, 0 ≤ j → j < exBimodal.p2_modes_count →
          merit_of (exBimodal.p2_modes j) exBimodal.p2_trains_count ≤
            merit_of (exBimodal.p2_modes i) exBimodal.p2_trains_count) ∧
        session_calculate_adr exCalc exBimodal =
          ((exBimodal.p2_modes i).lo + (exBimodal.p2_modes i).hi) / 2) := by
  refine ⟨session_calculate_adr_cases, by simp [exBimodal, exConf], ?_, ?_,
    exBimodal_adr_not_best.2.1, ?_, ?_, exBimodal_adr_not_best.2.2⟩
  · norm_num [exBimodal, exConf, exModeOf, merit_of]
  · norm_num [exBimodal, exConf, exModeOf, merit_of]
  · norm_num [exBimodal, exConf, exModeOf]
  · norm_num [exBimodal, exConf, exModeOf]

/-! ## Claims on `receive_train` -/

theorem recv_finish_returned (length : Int) (st : RecvState) (rest : List SelectEvent) :
    ∃ st1, recv_finish length st rest =
        RecvResult.returned
          (if length_reached st.expected_packet_id length then st.train_state else 1) st1 rest ∧
      st1.expected_packet_id = st.expected_packet_id ∧ st1.timestamps = st.timestamps := by
  unfold recv_finish
  by_cases h : length_reached st.expected_packet_id length
  · rw [if_pos h, if_pos h]
    exact ⟨st, rfl, rfl, rfl⟩
  · rw [if_neg h, if_neg h]
    exact ⟨_, rfl, rfl, rfl⟩

/-- A returning run of the loop has run a prefix `pre` of the passes, one after the
other, and then the tail of `receive_train`. -/
theorem receive_loop_returned (M : Nat) (train_id : Nat) (length : Int) :
    ∀ (evs : List SelectEvent) (st : RecvState) (rc : Int) (st1 : RecvState)
      (rest : List SelectEvent),
      receive_loop M train_id length evs st = RecvResult.returned rc st1 rest →
      ∃ pre stf, evs = pre ++ rest ∧ recv_steps M train_id length pre st = some stf ∧
        rc = (if length_reached stf.expected_packet_id length then stf.train_state else 1) ∧
        st1.expected_packet_id = stf.expected_packet_id ∧ st1.timestamps = stf.timestamps := by
  intro evs
  induction evs with
  | nil =>
    intro st rc st1 rest h
    simp only [receive_loop] at h
    by_cases hp : st.processing = true
    · rw [if_pos hp] at h
      exact absurd h (by simp)
    · rw [if_neg hp] at h
      obtain ⟨st2, h2, h3, h4⟩ := recv_finish_returned length st []
      rw [h2] at h
      injection h with e1 e2 e3
      subst e1 e2 e3
      exact ⟨[], st, rfl, rfl, rfl, h3, h4⟩
  | cons ev tl ih =>
    intro st rc st1 rest h
    simp only [receive_loop] at h
    by_cases hp : st.processing = true
    · rw [if_pos hp] at h
      cases hstep : recv_step M train_id length st ev with
      | none =>
        rw [hstep] at h
        exact absurd h (by simp)
      | some st2 =>
        rw [hstep] at h
        obtain ⟨pre, stf, e1, e2, e3, e4, e5⟩ := ih st2 rc st1 rest h
        refine ⟨ev :: pre, stf, by rw [e1]; rfl, ?_, e3, e4, e5⟩
        simp only [recv_steps, hstep]
        exact e2
    · rw [if_neg hp] at h
      obtain ⟨st2, h2, h3, h4⟩ := recv_finish_returned length st (ev :: tl)
      rw [h2] at h
      injection h with e1 e2 e3
      subst e1 e2 e3
      exact ⟨[], st, rfl, rfl, rfl, h3, h4⟩

theorem recv_udp_fields (train_id : Nat) (length : Int) (st : RecvState)
    (received : Nat × Nat) (t_mark : Int) :
    (recv_udp train_id length st received t_mark).train_state =
        (recv_packet train_id st received t_mark).train_state ∧
    (recv_udp train_id length st received t_mark).expected_packet_id =
        (recv_packet train_id st received t_mark).expected_packet_id ∧
    (recv_udp train_id length st received t_mark).timestamps =
        (recv_packet train_id st received t_mark).timestamps := by
  unfold recv_udp
  split
  · split <;> exact ⟨rfl, rfl, rfl⟩
  · exact ⟨rfl, rfl, rfl⟩

theorem recv_tcp_fields (M : Nat) (length : Int) (st : RecvState) (c_code : Nat) :
    (recv_tcp M length st c_code).train_state = st.train_state ∧
    (recv_tcp M length st c_code).expected_packet_id = st.expected_packet_id ∧
    (recv_tcp M length st c_code).timestamps = st.timestamps := by
  unfold recv_tcp
  split
  · split <;> exact ⟨rfl, rfl, rfl⟩
  · exact ⟨rfl, rfl, rfl⟩

/-- Only the packet handling of a pass touches `train_state`, `expected_packet_id`
and `timestamps`. -/
theorem recv_step_fields (M : Nat) (train_id : Nat) (length : Int) (st st1 : RecvState)
    (ev : SelectEvent) (h : recv_step M train_id length st ev = some st1) :
    st1.train_state = (after_packet train_id st ev).train_state ∧
    st1.expected_packet_id = (after_packet train_id st ev).expected_packet_id ∧
    st1.timestamps = (after_packet train_id st ev).timestamps := by
  unfold recv_step at h
  split at h
  · exact absurd h (by simp)
  · injection h with h
    subst h
    have key : ∀ s : RecvState,
        (if ev.p = 0 then { s with processing := false } else s).train_state = s.train_state ∧
        (if ev.p = 0 then { s with processing := false } else s).expected_packet_id =
          s.expected_packet_id ∧
        (if ev.p = 0 then { s with processing := false } else s).timestamps = s.timestamps := by
      intro s
      split <;> exact ⟨rfl, rfl, rfl⟩
    unfold after_packet
    rcases hu : ev.udp with _ | received
    · rcases ht : ev.tcp with _ | c_code
      · exact key st
      · obtain ⟨k1, k2, k3⟩ := key (recv_tcp M length st c_code)
        obtain ⟨t1, t2, t3⟩ := recv_tcp_fields M length st c_code
        exact ⟨k1.trans t1, k2.trans t2, k3.trans t3⟩
    · obtain ⟨u1, u2, u3⟩ := recv_udp_fields train_id length st received ev.t_mark
      rcases ht : ev.tcp with _ | c_code
      · obtain ⟨k1, k2, k3⟩ := key (recv_udp train_id length st received ev.t_mark)
        exact ⟨k1.trans u1, k2.trans u2, k3.trans u3⟩
      · obtain ⟨k1, k2, k3⟩ := key (recv_tcp M length
          (recv_udp train_id length st received ev.t_mark) c_code)
        obtain ⟨t1, t2, t3⟩ := recv_tcp_fields M length
          (recv_udp train_id length st received ev.t_mark) c_code
        exact ⟨(k1.trans t1).trans u1, (k2.trans t2).trans u2, (k3.trans t3).trans u3⟩

/-- The effect of one pass on `train_state`, `expected_packet_id` and `timestamps`. -/
theorem recv_step_effect (M : Nat) (train_id : Nat) (length : Int) (st st1 : RecvState)
    (ev : SelectEvent) (h : recv_step M train_id length st ev = some st1) :
    (st1.train_state =
      if (∃ received, ev.udp = some received ∧ received.1 ≠ train_id) then 2
      else st.train_state) ∧
    ((∃ received, ev.udp = some received ∧ received.1 = train_id ∧
        received.2 = st.expected_packet_id) →
      st1.expected_packet_id = (st.expected_packet_id + 1) % 4294967296 ∧
      st1.timestamps = Function.update st.timestamps st.expected_packet_id ev.t_mark) ∧
    ((¬ ∃ received, ev.udp = some received ∧ received.1 = train_id ∧
        received.2 = st.expected_packet_id) →
      st1.expected_packet_id = st.expected_packet_id ∧ st1.timestamps = st.timestamps) := by
  obtain ⟨f1, f2, f3⟩ := recv_step_fields M train_id length st st1 ev h
  rw [f1, f2, f3]
  unfold after_packet
  rcases hu : ev.udp with _ | received
  · simp
  · simp only [Option.some.injEq, exists_eq_left']
    unfold recv_packet
    by_cases hid : train_id ≠ received.1
    · rw [if_pos hid, if_pos (show received.1 ≠ train_id from fun e => hid e.symm)]
      refine ⟨rfl, fun hh => absurd hh.1.symm hid, fun _ => ⟨rfl, rfl⟩⟩
    · rw [if_neg hid]
      have hid1 : received.1 = train_id := by
        by_contra hcon
        exact hid (fun e => hcon e.symm)
      rw [if_neg (show ¬ received.1 ≠ train_id from fun hh => hh hid1)]
      by_cases hexp : received.2 = st.expected_packet_id
      · rw [if_pos hexp]
        exact ⟨rfl, fun _ => ⟨rfl, by rw [hexp]⟩, fun hh => absurd ⟨hid1, hexp⟩ hh⟩
      · rw [if_neg hexp]
        exact ⟨rfl, fun hh => absurd hh.2 hexp, fun _ => ⟨rfl, rfl⟩⟩

theorem stale_seen_cons (train_id : Nat) (ev : SelectEvent) (tl : List SelectEvent) :
    stale_seen train_id (ev :: tl) ↔
      (∃ received, ev.udp = some received ∧ received.1 ≠ train_id) ∨ stale_seen train_id tl := by
  unfold stale_seen
  simp only [List.mem_cons, exists_eq_or_imp]

theorem recv_steps_train_state (M : Nat) (train_id : Nat) (length : Int) :
    ∀ (pre : List SelectEvent) (st stf : RecvState),
      recv_steps M train_id length pre st = some stf →
      (stale_seen train_id pre → stf.train_state = 2) ∧
      (¬ stale_seen train_id pre → stf.train_state = st.train_state) := by
  intro pre
  induction pre with
  | nil =>
    intro st stf h
    simp only [recv_steps] at h
    injection h with h
    subst h
    refine ⟨fun hs => ?_, fun _ => rfl⟩
    obtain ⟨ev, hev, _⟩ := hs
    exact absurd hev (List.not_mem_nil ev)
  | cons ev tl ih =>
    intro st stf h
    simp only [recv_steps] at h
    cases hstep : recv_step M train_id length st ev with
    | none =>
      rw [hstep] at h
      exact absurd h (by simp)
    | some st1 =>
      rw [hstep] at h
      obtain ⟨i1, i2⟩ := ih st1 stf h
      have e1 := (recv_step_effect M train_id length st st1 ev hstep).1
      rw [stale_seen_cons]
      by_cases htl : stale_seen train_id tl
      · exact ⟨fun _ => i1 htl, fun hn => absurd (Or.inr htl) hn⟩
      · by_cases hev : ∃ received, ev.udp = some received ∧ received.1 ≠ train_id
        · rw [if_pos hev] at e1
          exact ⟨fun _ => (i2 htl).trans e1, fun hn => absurd (Or.inl hev) hn⟩
        · rw [if_neg hev] at e1
          refine ⟨fun hs => ?_, fun _ => (i2 htl).trans e1⟩
          rcases hs with hs | hs
          · exact absurd hs hev
          · exact absurd hs htl

theorem recv_step_timeout (M : Nat) (train_id : Nat) (length : Int) (st : RecvState) :
    ∃ st1, recv_step M train_id length st timeout_event = some st1 ∧
      st1.processing = false :=
  ⟨_, rfl, rfl⟩

/-- Every sequence of passes without a failed `select` that ends with a timeout makes
`receive_train` return. -/
theorem receive_loop_total (M : Nat) (train_id : Nat) (length : Int) :
    ∀ (evs : List SelectEvent) (st : RecvState),
      (∀ ev ∈ evs, ¬ (ev.p = -1 ∧ ev.eintr = false)) →
      ∃ rc st1 rest,
        receive_loop M train_id length (evs ++ [timeout_event]) st =
          RecvResult.returned rc st1 rest := by
  intro evs
  induction evs with
  | nil =>
    intro st _
    simp only [List.nil_append, receive_loop]
    by_cases hp : st.processing = true
    · rw [if_pos hp]
      obtain ⟨st1, h1, h2⟩ := recv_step_timeout M train_id length st
      rw [h1]
      simp only [receive_loop]
      rw [if_neg (by rw [h2]; simp)]
      obtain ⟨st2, h3, _⟩ := recv_finish_returned length st1 []
      exact ⟨_, _, _, h3⟩
    · rw [if_neg hp]
      obtain ⟨st2, h3, _⟩ := recv_finish_returned length st [timeout_event]
      exact ⟨_, _, _, h3⟩
  | cons ev tl ih =>
    intro st hok
    simp only [List.cons_append, receive_loop]
    by_cases hp : st.processing = true
    · rw [if_pos hp]
      have hev := hok ev (List.mem_cons_self ev tl)
      cases hstep : recv_step M train_id length st ev with
      | none =>
        unfold recv_step at hstep
        rw [if_neg hev] at hstep
        exact absurd hstep (by simp)
      | some st1 =>
        exact ih st1 (fun e he => hok e (List.mem_cons_of_mem ev he))
    · rw [if_neg hp]
      obtain ⟨st2, h3, _⟩ := recv_finish_returned length st (ev :: (tl ++ [timeout_event]))
      exact ⟨_, _, _, h3⟩

theorem length_reached_iff (e : Nat) (length : Int) (h0 : 0 ≤ length)
    (h1 : length < 4294967296) : length_reached e length ↔ (e : Int) = length := by
  unfold length_reached
  rw [Int.emod_eq_of_lt h0 h1]

/-- C7 (as stated, refuted): a packet of train `7` followed by both packets of the
requested train `1` of length `2` and by `TRAIN_SENT` ends the loop with
`expected == length`, and `receive_train` returns `2`, not `0`. -/
theorem C7_counterexample :
    ∃ st rest,
      receive_train 9 1 2 (fun _ => 0)
          [packet_event 7 0 5, packet_event 1 0 10, packet_event 1 1 20, control_event 9] =
        RecvResult.returned 2 st rest ∧
      (st.expected_packet_id : Int) = 2 :=
  ⟨_, _, rfl, rfl⟩

/-- C7 (amended): for every sequence of UDP arrivals, TCP control messages and
timeouts, `receive_train` returns OK (`0`) if and only if, when its reception loop
ends, all `length` packets of the requested train have been accepted in order
(`expected == length`) and no packet with a train id other than the requested one was
received during the attempt; and every such sequence without a failed `select` that
ends with a timeout makes `receive_train` return. -/
theorem C7_ok_iff_complete_and_no_stale (M : Nat) (train_id : Nat) (length : Int)
    (timestamps : Nat → Int) (evs : List SelectEvent)
    (h0 : 0 ≤ length) (h1 : length < 4294967296) :
    (∀ rc st rest,
      receive_train M train_id length timestamps evs = RecvResult.returned rc st rest →
      ∃ pre, evs = pre ++ rest ∧
        (rc = 0 ↔ ((st.expected_packet_id : Int) = length ∧ ¬ stale_seen train_id pre))) ∧
    ((∀ ev ∈ evs, ¬ (ev.p = -1 ∧ ev.eintr = false)) →
      ∃ rc st rest,
        receive_train M train_id length timestamps (evs ++ [timeout_event]) =
          RecvResult.returned rc st rest) := by
  constructor
  · intro rc st rest h
    obtain ⟨pre, stf, e1, e2, e3, e4, _⟩ :=
      receive_loop_returned M train_id length evs _ rc st rest h
    obtain ⟨t1, t2⟩ := recv_steps_train_state M train_id length pre _ stf e2
    refine ⟨pre, e1, ?_⟩
    rw [e4, e3, ← length_reached_iff stf.expected_packet_id length h0 h1]
    by_cases hr : length_reached stf.expected_packet_id length
    · rw [if_pos hr]
      by_cases hs : stale_seen train_id pre
      · rw [t1 hs]
        exact ⟨fun h => absurd h (by norm_num), fun h => absurd hs h.2⟩
      · rw [t2 hs]
        exact ⟨fun _ => ⟨hr, hs⟩, fun _ => rfl⟩
    · rw [if_neg hr]
      exact ⟨fun h => absurd h (by norm_num), fun h => absurd h.1 hr⟩
  · intro hok
    exact receive_loop_total M train_id length evs _ hok

/-- Witness of C7 (amended): both packets of train `1`, then `TRAIN_SENT`. -/
theorem C7_ok_iff_complete_and_no_stale_witness :
    (0 : Int) ≤ 2 ∧ (2 : Int) < 4294967296 ∧
    (∀ rc st rest,
      receive_train 9 1 2 (fun _ => 0)
          [packet_event 1 0 10, packet_event 1 1 20, control_event 9] =
        RecvResult.returned rc st rest →
      ∃ pre, [packet_event 1 0 10, packet_event 1 1 20, control_event 9] = pre ++ rest ∧
        (rc = 0 ↔ ((st.expected_packet_id : Int) = 2 ∧ ¬ stale_seen 1 pre))) ∧
    ((∀ ev ∈ [packet_event 1 0 10, packet_event 1 1 20, control_event 9],
        ¬ (ev.p = -1 ∧ ev.eintr = false)) →
      ∃ rc st rest,
        receive_train 9 1 2 (fun _ => 0)
            ([packet_event 1 0 10, packet_event 1 1 20, control_event 9] ++ [timeout_event]) =
          RecvResult.returned rc st rest) :=
  ⟨by decide, by decide,
    C7_ok_iff_complete_and_no_stale 9 1 2 (fun _ => 0)
      [packet_event 1 0 10, packet_event 1 1 20, control_event 9] (by decide) (by decide)⟩

/-- C8 (as stated, refuted): a packet of train `7` followed by a timeout leaves
`expected = 0 != length = 2` with a stale packet seen, and `receive_train` returns
`1` (Incomplete), not `2` (StaleTrain). -/
theorem C8_counterexample :
    stale_seen 1 [packet_event 7 0 5, timeout_event] ∧
    ∃ st rest,
      receive_train 9 1 2 (fun _ => 0) [packet_event 7 0 5, timeout_event] =
        RecvResult.returned 1 st rest ∧
      rest = [] ∧ (st.expected_packet_id : Int) ≠ 2 :=
  ⟨⟨packet_event 7 0 5, List.mem_cons_self _ _, (7, 0), rfl, by decide⟩,
    _, _, rfl, rfl, by decide⟩

/-- C8 (amended): for every event sequence after which `expected != length`,
`receive_train` returns the failure class Incomplete (`1`), whether or not a packet
with a train id other than the requested one was seen during the attempt. -/
theorem C8_incomplete_returns_one (M : Nat) (train_id : Nat) (length : Int)
    (timestamps : Nat → Int) (evs : List SelectEvent)
    (h0 : 0 ≤ length) (h1 : length < 4294967296) :
    ∀ rc st rest,
      receive_train M train_id length timestamps evs = RecvResult.returned rc st rest →
      (st.expected_packet_id : Int) ≠ length → rc = 1 := by
  intro rc st rest h hne
  obtain ⟨pre, stf, e1, e2, e3, e4, _⟩ :=
    receive_loop_returned M train_id length evs _ rc st rest h
  rw [e4] at hne
  have hnr : ¬ length_reached stf.expected_packet_id length :=
    fun hr => hne ((length_reached_iff stf.expected_packet_id length h0 h1).mp hr)
  rw [e3, if_neg hnr]

/-- Witness of C8 (amended): a stale packet, then a timeout. -/
theorem C8_incomplete_returns_one_witness :
    (0 : Int) ≤ 2 ∧ (2 : Int) < 4294967296 ∧
    (∃ rc st rest,
      receive_train 9 1 2 (fun _ => 0) [packet_event 7 0 5, timeout_event] =
        RecvResult.returned rc st rest ∧ (st.expected_packet_id : Int) ≠ 2) ∧
    ∀ rc st rest,
      receive_train 9 1 2 (fun _ => 0) [packet_event 7 0 5, timeout_event] =
        RecvResult.returned rc st rest →
      (st.expected_packet_id : Int) ≠ 2 → rc = 1 :=
  ⟨by decide, by decide, ⟨_, _, _, rfl, by decide⟩,
    C8_incomplete_returns_one 9 1 2 (fun _ => 0) [packet_event 7 0 5, timeout_event]
      (by decide) (by decide)⟩

theorem accepted_times_length_le (train_id : Nat) :
    ∀ (pre : List SelectEvent) (k : Nat), (accepted_times train_id pre k).length ≤ pre.length := by
  intro pre
  induction pre with
  | nil => intro k; simp [accepted_times]
  | cons ev tl ih =>
    intro k
    simp only [accepted_times]
    split
    · split
      · have := ih (k + 1)
        simp only [List.length_cons]
        omega
      · have := ih k
        simp only [List.length_cons]
        omega
    · have := ih k
      simp only [List.length_cons]
      omega

theorem appended_refl (pmax : Int) (dmin : ℚ) (d b : Int → ℚ) (n : Int) :
    Appended pmax dmin d b n d b n :=
  ⟨le_refl _, fun _ _ => ⟨rfl, rfl⟩, fun _ h1 h2 => absurd h2 (not_lt.mpr h1)⟩

theorem appended_trans (pmax : Int) (dmin : ℚ) (d0 b0 d1 b1 d2 b2 : Int → ℚ) (n0 n1 n2 : Int)
    (h01 : Appended pmax dmin d0 b0 n0 d1 b1 n1) (h12 : Appended pmax dmin d1 b1 n1 d2 b2 n2) :
    Appended pmax dmin d0 b0 n0 d2 b2 n2 := by
  obtain ⟨a1, a2, a3⟩ := h01
  obtain ⟨b1', b2', b3'⟩ := h12
  refine ⟨le_trans a1 b1', ?_, ?_⟩
  · intro k hk
    obtain ⟨x1, x2⟩ := b2' k (by omega)
    obtain ⟨y1, y2⟩ := a2 k hk
    exact ⟨x1.trans y1, x2.trans y2⟩
  · intro k hk1 hk2
    by_cases hk : k < n1
    · obtain ⟨x1, x2⟩ := b2' k hk
      obtain ⟨y1, L, y2⟩ := a3 k hk1 hk
      rw [x1, x2]
      exact ⟨y1, L, y2⟩
    · exact b3' k (by omega) hk2

theorem recorded_refl (c : config_s) : Recorded c c :=
  ⟨rfl, rfl, appended_refl _ _ _ _ _, appended_refl _ _ _ _ _⟩

theorem recorded_trans (c0 c1 c2 : config_s) (h01 : Recorded c0 c1) (h12 : Recorded c1 c2) :
    Recorded c0 c2 := by
  obtain ⟨a1, a2, a3, a4⟩ := h01
  obtain ⟨b1, b2, b3, b4⟩ := h12
  rw [a1, a2] at b3 b4
  exact ⟨b1.trans a1, b2.trans a2, appended_trans _ _ _ _ _ _ _ _ _ _ _ a3 b3,
    appended_trans _ _ _ _ _ _ _ _ _ _ _ a4 b4⟩

/-- A change of the session that leaves the sample buffers, the dispersion minimum
and the maximum packet length alone records nothing. -/
theorem recorded_of_same (c c1 : config_s)
    (h1 : c1.packet_dispersion_delta_min = c.packet_dispersion_delta_min)
    (h2 : c1.train_packet_length_max = c.train_packet_length_max)
    (e1 : c1.p1_trains_delta = c.p1_trains_delta) (e2 : c1.p1_trains_bw = c.p1_trains_bw)
    (e3 : c1.p1_trains_count = c.p1_trains_count)
    (e5 : c1.p2_trains_delta = c.p2_trains_delta) (e6 : c1.p2_trains_bw = c.p2_trains_bw)
    (e7 : c1.p2_trains_count = c.p2_trains_count) : Recorded c c1 := by
  refine ⟨h1, h2, ?_, ?_⟩
  · rw [e1, e2, e3]
    exact appended_refl _ _ _ _ _
  · rw [e5, e6, e7]
    exact appended_refl _ _ _ _ _

theorem record_p1_recorded (c : config_s) (delta : ℚ) : Recorded c (record_p1 c delta) := by
  unfold record_p1
  by_cases h : delta > c.packet_dispersion_delta_min
  · rw [if_pos h]
    refine ⟨rfl, rfl, ⟨?_, ?_, ?_⟩, appended_refl _ _ _ _ _⟩
    · show c.p1_trains_count ≤ c.p1_trains_count + 1
      omega
    · intro k hk
      show Function.update c.p1_trains_delta c.p1_trains_count delta k = _ ∧
        Function.update c.p1_trains_bw c.p1_trains_count (bandwidth_of c delta) k = _
      rw [Function.update_noteq (by omega), Function.update_noteq (by omega)]
      exact ⟨rfl, rfl⟩
    · intro k hk1 hk2
      have hk : k = c.p1_trains_count := by
        have : k < c.p1_trains_count + 1 := hk2
        omega
      subst hk
      show Function.update c.p1_trains_delta c.p1_trains_count delta c.p1_trains_count > _ ∧
        ∃ L : Int, Function.update c.p1_trains_bw c.p1_trains_count (bandwidth_of c delta)
          c.p1_trains_count = _ /
            Function.update c.p1_trains_delta c.p1_trains_count delta c.p1_trains_count
      rw [Function.update_same, Function.update_same]
      exact ⟨h, c.train_length, rfl⟩
  · rw [if_neg h]
    exact recorded_of_same _ _ rfl rfl rfl rfl rfl rfl rfl rfl

theorem record_p2_recorded (c : config_s) (delta : ℚ) : Recorded c (record_p2 c delta) := by
  unfold record_p2
  by_cases h : delta > c.packet_dispersion_delta_min
  · rw [if_pos h]
    refine ⟨rfl, rfl, appended_refl _ _ _ _ _, ⟨?_, ?_, ?_⟩⟩
    · show c.p2_trains_count ≤ c.p2_trains_count + 1
      omega
    · intro k hk
      show Function.update c.p2_trains_delta c.p2_trains_count delta k = _ ∧
        Function.update c.p2_trains_bw c.p2_trains_count (bandwidth_of c delta) k = _
      rw [Function.update_noteq (by omega), Function.update_noteq (by omega)]
      exact ⟨rfl, rfl⟩
    · intro k hk1 hk2
      have hk : k = c.p2_trains_count := by
        have : k < c.p2_trains_count + 1 := hk2
        omega
      subst hk
      show Function.update c.p2_trains_delta c.p2_trains_count delta c.p2_trains_count > _ ∧
        ∃ L : Int, Function.update c.p2_trains_bw c.p2_trains_count (bandwidth_of c delta)
          c.p2_trains_count = _ /
            Function.update c.p2_trains_delta c.p2_trains_count delta c.p2_trains_count
      rw [Function.update_same, Function.update_same]
      exact ⟨h, c.train_length, rfl⟩
  · rw [if_neg h]
    exact recorded_of_same _ _ rfl rfl rfl rfl rfl rfl rfl rfl

theorem record_p1_frame (c : config_s) (delta : ℚ) :
    (record_p1 c delta).packet_dispersion_delta_min = c.packet_dispersion_delta_min ∧
    (record_p1 c delta).train_packet_length_max = c.train_packet_length_max ∧
    (record_p1 c delta).train_length = c.train_length ∧
    (record_p1 c delta).train_length_max = c.train_length_max := by
  unfold record_p1
  split <;> exact ⟨rfl, rfl, rfl, rfl⟩

theorem discovery_body_recorded (K : SamplerParams) (s : Discovery) (o : Outcome) :
    Recorded s.conf (discovery_body K s o).conf := by
  cases o with
  | none =>
    simp only [discovery_body]
    split
    · exact recorded_refl _
    · split
      · exact recorded_of_same _ _ rfl rfl rfl rfl rfl rfl rfl rfl
      · exact recorded_refl _
  | some delta =>
    simp only [discovery_body]
    exact recorded_trans _ _ _ (record_p1_recorded s.conf delta)
      (recorded_of_same _ _ rfl rfl rfl rfl rfl rfl rfl rfl)

theorem discovery_loop_recorded (K : SamplerParams) :
    ∀ (outcomes : List Outcome) (s : Discovery),
      Recorded s.conf (discovery_loop K outcomes s).1.conf := by
  intro outcomes
  induction outcomes with
  | nil =>
    intro s
    simp only [discovery_loop]
    split <;> exact recorded_refl _
  | cons o rest ih =>
    intro s
    simp only [discovery_loop]
    split
    · exact recorded_trans _ _ _ (discovery_body_recorded K s o) (ih _)
    · exact recorded_refl _

theorem prelim_body_recorded (s : Sampler) (o : Outcome) :
    Recorded s.conf (prelim_body s o).conf := by
  cases o with
  | none => exact recorded_refl _
  | some delta => exact record_p1_recorded s.conf delta

theorem prelim_inner_recorded (K : SamplerParams) :
    ∀ (outcomes : List Outcome) (s : Sampler),
      Recorded s.conf (prelim_inner K outcomes s).1.conf := by
  intro outcomes
  induction outcomes with
  | nil =>
    intro s
    simp only [prelim_inner]
    split <;> exact recorded_refl _
  | cons o rest ih =>
    intro s
    simp only [prelim_inner]
    split
    · exact recorded_trans _ _ _ (prelim_body_recorded s o) (ih _)
    · exact recorded_refl _

theorem prelim_outer_recorded (K : SamplerParams) :
    ∀ (n : Nat) (outcomes : List Outcome) (s : Sampler),
      Recorded s.conf (prelim_outer K n outcomes s).1.conf := by
  intro n
  induction n with
  | zero =>
    intro outcomes s
    exact recorded_refl _
  | succ n ih =>
    intro outcomes s
    simp only [prelim_outer]
    split
    · have hin := prelim_inner_recorded K outcomes { s with count := 0, count_valid := 0 }
      rcases hr : prelim_inner K outcomes { s with count := 0, count_valid := 0 } with ⟨s1, r⟩
      rw [hr] at hin
      cases r with
      | none => exact hin
      | some rest =>
        exact recorded_trans _ _ _ hin (recorded_trans _ _ _
          (recorded_of_same _ _ rfl rfl rfl rfl rfl rfl rfl rfl) (ih rest _))
    · exact recorded_refl _

theorem p1_body_recorded (s : Sampler) (o : Outcome) :
    Recorded s.conf (p1_body s o).conf := by
  cases o with
  | none => exact recorded_refl _
  | some delta => exact record_p1_recorded s.conf delta

theorem p1_inner_recorded (size size_max : Int) :
    ∀ (outcomes : List Outcome) (s : Sampler),
      Recorded s.conf (p1_inner size size_max outcomes s).1.conf := by
  intro outcomes
  induction outcomes with
  | nil =>
    intro s
    simp only [p1_inner]
    split <;> exact recorded_refl _
  | cons o rest ih =>
    intro s
    simp only [p1_inner]
    split
    · exact recorded_trans _ _ _ (p1_body_recorded s o) (ih _)
    · exact recorded_refl _

theorem p1_clip_recorded (c : config_s) : Recorded c (p1_clip c) := by
  unfold p1_clip
  split
  · exact recorded_of_same _ _ rfl rfl rfl rfl rfl rfl rfl rfl
  · exact recorded_refl _

theorem p1_for_recorded (K : SamplerParams) (step size size_max : Int) :
    ∀ (n : Nat) (outcomes : List Outcome) (s : Sampler),
      Recorded s.conf (p1_for K step size size_max n outcomes s).1.conf := by
  intro n
  induction n with
  | zero =>
    intro outcomes s
    exact recorded_refl _
  | succ n ih =>
    intro outcomes s
    simp only [p1_for]
    have hin := p1_inner_recorded size size_max outcomes { s with count := 0, count_valid := 0 }
    rcases hr : p1_inner size size_max outcomes { s with count := 0, count_valid := 0 }
      with ⟨s1, r⟩
    rw [hr] at hin
    cases r with
    | none => exact hin
    | some rest =>
      simp only
      split
      · split
        · exact hin
        · exact recorded_trans _ _ _ hin (recorded_trans _ _ _ (p1_clip_recorded _) (ih rest _))
      · refine recorded_trans _ _ _ hin (recorded_trans _ _ _ ?_ (ih rest _))
        exact recorded_trans _ _ _
          (recorded_of_same s1.conf
            { s1.conf with train_packet_length := s1.conf.train_packet_length + step }
            rfl rfl rfl rfl rfl rfl rfl rfl)
          (p1_clip_recorded _)

theorem p2_body_recorded (s : Sampler) (o : Outcome) :
    Recorded s.conf (p2_body s o).conf := by
  cases o with
  | none => exact recorded_refl _
  | some delta => exact record_p2_recorded s.conf delta

theorem p2_loop_recorded :
    ∀ (outcomes : List Outcome) (s : Sampler),
      Recorded s.conf (p2_loop outcomes s).1.conf := by
  intro outcomes
  induction outcomes with
  | nil =>
    intro s
    simp only [p2_loop]
    split <;> exact recorded_refl _
  | cons o rest ih =>
    intro s
    simp only [p2_loop]
    split
    · exact recorded_trans _ _ _ (p2_body_recorded s o) (ih _)
    · exact recorded_refl _

/-- C10: a received train is recorded in `p1_samples` (discovery, preliminary and
phase-1 samplers) or `p2_samples` (phase-2 sampler) exactly when its
`delta > packet_dispersion_delta_min`, with
`bandwidth = (train_packet_length_max * 8 * train_length) / delta` for the length
of that train and the session maximum packet length, appended at index `count`;
a received train with `delta <= packet_dispersion_delta_min` leaves the buffers and
their counts as they are and increments the discard counter by one; a failed train
changes neither; hence every sample the four sampler loops append has
`delta > packet_dispersion_delta_min` and a bandwidth of that form. -/
theorem C10_samples_recorded (K : SamplerParams) (conf : config_s) (outcomes : List Outcome)
    (s : Sampler) (d : Discovery) (delta : ℚ) :
    -- recording in the phase-1 buffers
    ((delta > conf.packet_dispersion_delta_min →
        (record_p1 conf delta).p1_trains_count = conf.p1_trains_count + 1 ∧
        (record_p1 conf delta).p1_trains_delta conf.p1_trains_count = delta ∧
        (record_p1 conf delta).p1_trains_bw conf.p1_trains_count =
          ((conf.train_packet_length_max * 8 * conf.train_length : Int) : ℚ) / delta ∧
        (∀ k, k ≠ conf.p1_trains_count →
          (record_p1 conf delta).p1_trains_delta k = conf.p1_trains_delta k ∧
          (record_p1 conf delta).p1_trains_bw k = conf.p1_trains_bw k) ∧
        (record_p1 conf delta).p1_trains_count_discarded = conf.p1_trains_count_discarded) ∧
      (delta ≤ conf.packet_dispersion_delta_min →
        (record_p1 conf delta).p1_trains_count = conf.p1_trains_count ∧
        (record_p1 conf delta).p1_trains_delta = conf.p1_trains_delta ∧
        (record_p1 conf delta).p1_trains_bw = conf.p1_trains_bw ∧
        (record_p1 conf delta).p1_trains_count_discarded =
          conf.p1_trains_count_discarded + 1)) ∧
    -- recording in the phase-2 buffers
    ((delta > conf.packet_dispersion_delta_min →
        (record_p2 conf delta).p2_trains_count = conf.p2_trains_count + 1 ∧
        (record_p2 conf delta).p2_trains_delta conf.p2_trains_count = delta ∧
        (record_p2 conf delta).p2_trains_bw conf.p2_trains_count =
          ((conf.train_packet_length_max * 8 * conf.train_length : Int) : ℚ) / delta ∧
        (∀ k, k ≠ conf.p2_trains_count →
          (record_p2 conf delta).p2_trains_delta k = conf.p2_trains_delta k ∧
          (record_p2 conf delta).p2_trains_bw k = conf.p2_trains_bw k) ∧
        (record_p2 conf delta).p2_trains_count_discarded = conf.p2_trains_count_discarded) ∧
      (delta ≤ conf.packet_dispersion_delta_min →
        (record_p2 conf delta).p2_trains_count = conf.p2_trains_count ∧
        (record_p2 conf delta).p2_trains_delta = conf.p2_trains_delta ∧
        (record_p2 conf delta).p2_trains_bw = conf.p2_trains_bw ∧
        (record_p2 conf delta).p2_trains_count_discarded =
          conf.p2_trains_count_discarded + 1)) ∧
    -- what one train attempt does to the buffers in each sampler
    (sample_fields (discovery_body K d (some delta)).conf =
        sample_fields (record_p1 d.conf delta) ∧
      sample_fields (discovery_body K d none).conf = sample_fields d.conf ∧
      sample_fields (prelim_body s (some delta)).conf = sample_fields (record_p1 s.conf delta) ∧
      sample_fields (prelim_body s none).conf = sample_fields s.conf ∧
      sample_fields (p1_body s (some delta)).conf = sample_fields (record_p1 s.conf delta) ∧
      sample_fields (p1_body s none).conf = sample_fields s.conf ∧
      sample_fields (p2_body s (some delta)).conf = sample_fields (record_p2 s.conf delta) ∧
      sample_fields (p2_body s none).conf = sample_fields s.conf) ∧
    -- the four sampler loops
    (Recorded conf (discovery_loop K outcomes (discovery_init K conf)).1.conf ∧
      Recorded conf (prelim_sampling K conf outcomes).1.conf ∧
      (∀ r, p1_sampling K conf outcomes = some r → Recorded conf r.1.conf) ∧
      Recorded conf (p2_sampling conf outcomes).1.conf) := by
  refine ⟨⟨?_, ?_⟩, ⟨?_, ?_⟩, ⟨rfl, ?_, rfl, rfl, rfl, rfl, rfl, rfl⟩, ⟨?_, ?_, ?_, ?_⟩⟩
  · intro h
    unfold record_p1
    rw [if_pos h]
    refine ⟨rfl, ?_, ?_, ?_, rfl⟩
    · show Function.update conf.p1_trains_delta conf.p1_trains_count delta _ = delta
      rw [Function.update_same]
    · show Function.update conf.p1_trains_bw conf.p1_trains_count _ _ = _
      rw [Function.update_same]
      rfl
    · intro k hk
      show Function.update conf.p1_trains_delta conf.p1_trains_count delta k = _ ∧
        Function.update conf.p1_trains_bw conf.p1_trains_count _ k = _
      rw [Function.update_noteq hk, Function.update_noteq hk]
      exact ⟨rfl, rfl⟩
  · intro h
    unfold record_p1
    rw [if_neg (not_lt.mpr h)]
    exact ⟨rfl, rfl, rfl, rfl⟩
  · intro h
    unfold record_p2
    rw [if_pos h]
    refine ⟨rfl, ?_, ?_, ?_, rfl⟩
    · show Function.update conf.p2_trains_delta conf.p2_trains_count delta _ = delta
      rw [Function.update_same]
    · show Function.update conf.p2_trains_bw conf.p2_trains_count _ _ = _
      rw [Function.update_same]
      rfl
    · intro k hk
      show Function.update conf.p2_trains_delta conf.p2_trains_count delta k = _ ∧
        Function.update conf.p2_trains_bw conf.p2_trains_count _ k = _
      rw [Function.update_noteq hk, Function.update_noteq hk]
      exact ⟨rfl, rfl⟩
  · intro h
    unfold record_p2
    rw [if_neg (not_lt.mpr h)]
    exact ⟨rfl, rfl, rfl, rfl⟩
  · simp only [discovery_body]
    split
    · rfl
    · split <;> rfl
  · exact recorded_trans _ _ _ (recorded_of_same conf (discovery_init K conf).conf
      rfl rfl rfl rfl rfl rfl rfl rfl) (discovery_loop_recorded K outcomes _)
  · unfold prelim_sampling
    exact recorded_trans _ _ _
      (recorded_of_same conf
        { conf with
          train_length := K.TRAIN_LENGTH_MIN
          train_packet_length := conf.train_packet_length_max }
        rfl rfl rfl rfl rfl rfl rfl rfl)
      (prelim_outer_recorded K _ outcomes _)
  · intro r hr
    unfold p1_sampling at hr
    simp only at hr
    split at hr
    · exact absurd hr (by simp)
    · injection hr with hr
      rw [← hr]
      exact recorded_trans _ _ _
        (recorded_of_same conf
          { conf with
            train_length := K.TRAIN_LENGTH_MIN
            train_packet_length := conf.train_packet_length_min }
          rfl rfl rfl rfl rfl rfl rfl rfl)
        (p1_for_recorded K _ _ _ _ outcomes _)
  · unfold p2_sampling
    exact recorded_trans _ _ _
      (recorded_of_same conf
        { conf with
          train_length := conf.train_length_max
          train_packet_length := conf.train_packet_length_max }
        rfl rfl rfl rfl rfl rfl rfl rfl)
      (p2_loop_recorded outcomes _)

/-! ## Claims on the train-length discovery -/

theorem discovery_body_length_ge (K : SamplerParams) (s : Discovery) (o : Outcome)
    (h : K.TRAIN_LENGTH_MIN ≤ s.conf.train_length) :
    K.TRAIN_LENGTH_MIN ≤ (discovery_body K s o).conf.train_length := by
  cases o with
  | none =>
    simp only [discovery_body]
    split
    · exact h
    · split
      · show K.TRAIN_LENGTH_MIN ≤ s.conf.train_length -
          (if s.conf.train_length - 1 < K.TRAIN_LENGTH_MIN then 0 else 1)
        split <;> omega
      · exact h
  | some delta =>
    simp only [discovery_body]
    show K.TRAIN_LENGTH_MIN ≤ s.conf.train_length + 1
    omega

theorem discovery_loop_length_ge (K : SamplerParams) :
    ∀ (outcomes : List Outcome) (s : Discovery),
      K.TRAIN_LENGTH_MIN ≤ s.conf.train_length →
      K.TRAIN_LENGTH_MIN ≤ (discovery_loop K outcomes s).1.conf.train_length := by
  intro outcomes
  induction outcomes with
  | nil =>
    intro s h
    simp only [discovery_loop]
    split <;> exact h
  | cons o rest ih =>
    intro s h
    simp only [discovery_loop]
    split
    · exact ih _ (discovery_body_length_ge K s o h)
    · exact h

/-- The discovery loop is left as soon as `path_overload` is set. -/
theorem discovery_loop_overload (K : SamplerParams) (rest : List Outcome) (s : Discovery)
    (h : s.path_overload = 1) : discovery_loop K rest s = (s, true) := by
  have hc : ¬ (s.conf.train_length ≤ K.TRAIN_LENGTH_MAX ∧ s.path_overload = 0) := by
    rw [h]
    rintro ⟨_, h0⟩
    exact absurd h0 (by norm_num)
  cases rest with
  | nil => simp only [discovery_loop, if_neg hc]
  | cons o tl => simp only [discovery_loop, if_neg hc]

/-- The effect of a failed train on the discovery state, by the value of the fail
counter of the current length after its increment. -/
theorem discovery_body_failed (K : SamplerParams) (s : Discovery) :
    (discovery_body K s none).train_fails s.conf.train_length =
      s.train_fails s.conf.train_length + 1 ∧
    (discovery_body K s none).train_id = s.train_id ∧
    (s.train_fails s.conf.train_length + 1 > 4 →
      (discovery_body K s none).path_overload = 1 ∧
      (discovery_body K s none).conf.train_length = s.conf.train_length) ∧
    (s.train_fails s.conf.train_length + 1 > 1 → s.train_fails s.conf.train_length + 1 ≤ 4 →
      (discovery_body K s none).path_overload = s.path_overload ∧
      (discovery_body K s none).conf.train_length =
        (if s.conf.train_length ≤ K.TRAIN_LENGTH_MIN then s.conf.train_length
         else s.conf.train_length - 1)) ∧
    (s.train_fails s.conf.train_length + 1 ≤ 1 →
      (discovery_body K s none).path_overload = s.path_overload ∧
      (discovery_body K s none).conf.train_length = s.conf.train_length) := by
  have hu : Function.update s.train_fails s.conf.train_length
      (s.train_fails s.conf.train_length + 1) s.conf.train_length =
      s.train_fails s.conf.train_length + 1 := Function.update_same _ _ _
  simp only [discovery_body, hu]
  by_cases h4 : s.train_fails s.conf.train_length + 1 > 4
  · rw [if_pos h4]
    refine ⟨hu, rfl, fun _ => ⟨rfl, rfl⟩, fun _ h => absurd h4 (by omega),
      fun h => absurd h4 (by omega)⟩
  · rw [if_neg h4]
    by_cases h1 : s.train_fails s.conf.train_length + 1 > 1
    · rw [if_pos h1]
      refine ⟨hu, rfl, fun h => absurd h h4, fun _ _ => ⟨rfl, ?_⟩, fun h => absurd h1 (by omega)⟩
      show s.conf.train_length -
          (if s.conf.train_length - 1 < K.TRAIN_LENGTH_MIN then 0 else 1) = _
      by_cases hm : s.conf.train_length ≤ K.TRAIN_LENGTH_MIN
      · rw [if_pos (by omega), if_pos hm]
        omega
      · rw [if_neg (by omega), if_neg hm]
    · rw [if_neg h1]
      exact ⟨hu, rfl, fun h => absurd h h4, fun h => absurd h h1, fun _ => ⟨rfl, rfl⟩⟩

theorem toInt_le_iff (q : ℚ) (n : Int) (hq : 0 ≤ q) : n ≤ toInt q ↔ (n : ℚ) ≤ q := by
  unfold toInt
  rw [if_pos hq]
  exact Int.le_floor

theorem record_p1_counts (c : config_s) (delta : ℚ) :
    (delta > c.packet_dispersion_delta_min →
      (record_p1 c delta).p1_trains_count = c.p1_trains_count + 1 ∧
      (record_p1 c delta).p1_trains_count_discarded = c.p1_trains_count_discarded) ∧
    (¬ delta > c.packet_dispersion_delta_min →
      (record_p1 c delta).p1_trains_count = c.p1_trains_count ∧
      (record_p1 c delta).p1_trains_count_discarded = c.p1_trains_count_discarded + 1) := by
  unfold record_p1
  constructor
  · intro h
    rw [if_pos h]
    exact ⟨rfl, rfl⟩
  · intro h
    rw [if_neg h]
    exact ⟨rfl, rfl⟩

/-- The discovery loop counts in `train_count` the trains it received, each of which
is either recorded or discarded. -/
theorem discovery_body_counts (K : SamplerParams) (s : Discovery) (o : Outcome)
    (h : 0 ≤ s.conf.p1_trains_count ∧ 0 ≤ s.conf.p1_trains_count_discarded ∧
      s.train_count = s.conf.p1_trains_count + s.conf.p1_trains_count_discarded) :
    0 ≤ (discovery_body K s o).conf.p1_trains_count ∧
    0 ≤ (discovery_body K s o).conf.p1_trains_count_discarded ∧
    (discovery_body K s o).train_count =
      (discovery_body K s o).conf.p1_trains_count +
        (discovery_body K s o).conf.p1_trains_count_discarded := by
  obtain ⟨h1, h2, h3⟩ := h
  cases o with
  | none =>
    simp only [discovery_body]
    split
    · exact ⟨h1, h2, h3⟩
    · split
      · exact ⟨h1, h2, h3⟩
      · exact ⟨h1, h2, h3⟩
  | some delta =>
    simp only [discovery_body]
    show 0 ≤ (record_p1 s.conf delta).p1_trains_count ∧
      0 ≤ (record_p1 s.conf delta).p1_trains_count_discarded ∧
      s.train_count + 1 = (record_p1 s.conf delta).p1_trains_count +
        (record_p1 s.conf delta).p1_trains_count_discarded
    obtain ⟨r1, r2⟩ := record_p1_counts s.conf delta
    by_cases hd : delta > s.conf.packet_dispersion_delta_min
    · rw [(r1 hd).1, (r1 hd).2]
      omega
    · rw [(r2 hd).1, (r2 hd).2]
      omega

theorem discovery_loop_counts (K : SamplerParams) :
    ∀ (outcomes : List Outcome) (s : Discovery),
      (0 ≤ s.conf.p1_trains_count ∧ 0 ≤ s.conf.p1_trains_count_discarded ∧
        s.train_count = s.conf.p1_trains_count + s.conf.p1_trains_count_discarded) →
      0 ≤ (discovery_loop K outcomes s).1.conf.p1_trains_count ∧
      0 ≤ (discovery_loop K outcomes s).1.conf.p1_trains_count_discarded ∧
      (discovery_loop K outcomes s).1.train_count =
        (discovery_loop K outcomes s).1.conf.p1_trains_count +
          (discovery_loop K outcomes s).1.conf.p1_trains_count_discarded := by
  intro outcomes
  induction outcomes with
  | nil =>
    intro s h
    simp only [discovery_loop]
    split <;> exact h
  | cons o rest ih =>
    intro s h
    simp only [discovery_loop]
    split
    · exact ih _ (discovery_body_counts K s o h)
    · exact h

/-- The three ways `session_rtt_sync` ends after the discovery loop, by the tests of
lines 845 and 855. -/
theorem discovery_finish_cases (K : SamplerParams) (s : Discovery) :
    (s.conf.p1_trains_count = 0 →
      ∃ c, discovery_finish K s = SyncResult.ended 0 c ∧
        c.bandwidth_estimated = -1 ∧ c.bin_width = -1) ∧
    (s.conf.p1_trains_count ≠ 0 →
      s.conf.p1_trains_count ≤ toInt ((s.train_count : ℚ) * (2 / 5)) →
      ∃ c, discovery_finish K s = SyncResult.ended 0 c ∧
        c.bandwidth_estimated = 1000 ∧ c.bin_width = 0) ∧
    (s.conf.p1_trains_count ≠ 0 →
      ¬ s.conf.p1_trains_count ≤ toInt ((s.train_count : ℚ) * (2 / 5)) →
      ∃ c, discovery_finish K s = SyncResult.proceeds c) := by
  unfold discovery_finish
  refine ⟨fun h0 => ?_, fun h0 h1 => ?_, fun h0 h1 => ?_⟩
  · simp only
    rw [if_pos h0]
    exact ⟨_, rfl, rfl, rfl⟩
  · simp only
    rw [if_neg h0, if_pos h1]
    exact ⟨_, rfl, rfl, rfl⟩
  · simp only
    rw [if_neg h0, if_neg h1]
    exact ⟨_, rfl⟩

theorem exDiscovery_run :
    (discovery_loop exSampler [none, some 10, some (1 / 2)]
        (discovery_init exSampler exSession)).2 = true ∧
    (discovery_loop exSampler [none, some 10, some (1 / 2)]
        (discovery_init exSampler exSession)).1.conf.p1_trains_count = 1 ∧
    (discovery_loop exSampler [none, some 10, some (1 / 2)]
        (discovery_init exSampler exSession)).1.train_count = 2 ∧
    discovery_attempts exSampler [none, some 10, some (1 / 2)]
        (discovery_init exSampler exSession) = 3 := by
  refine ⟨?_, ?_, ?_, ?_⟩
  · norm_num [discovery_loop, discovery_body, discovery_init, exSampler, exSession, exConf,
      record_p1, Function.update_apply]
  · norm_num [discovery_loop, discovery_body, discovery_init, exSampler, exSession, exConf,
      record_p1, Function.update_apply]
  · norm_num [discovery_loop, discovery_body, discovery_init, exSampler, exSession, exConf,
      record_p1, Function.update_apply]
  · norm_num [discovery_attempts, discovery_body, discovery_init, exSampler, exSession, exConf,
      record_p1, Function.update_apply]

/-- C12 (as stated, refuted): a discovery of three attempts (one failed train, one
recorded train, one discarded train) has one valid sample, which is at most 40% of
its three attempts, and yet proceeds to PRELIM. -/
theorem C12_counterexample :
    discovery_attempts exSampler [none, some 10, some (1 / 2)]
        (discovery_init exSampler exSession) = 3 ∧
    (discovery_loop exSampler [none, some 10, some (1 / 2)]
        (discovery_init exSampler exSession)).2 = true ∧
    (discovery_loop exSampler [none, some 10, some (1 / 2)]
        (discovery_init exSampler exSession)).1.conf.p1_trains_count = 1 ∧
    ((1 : Int) : ℚ) ≤ (2 / 5) * ((3 : Nat) : ℚ) ∧
    ∃ c, discovery_finish exSampler
      (discovery_loop exSampler [none, some 10, some (1 / 2)]
        (discovery_init exSampler exSession)).1 = SyncResult.proceeds c := by
  obtain ⟨r1, r2, r3, r4⟩ := exDiscovery_run
  refine ⟨r4, r1, r2, by norm_num, ?_⟩
  apply (discovery_finish_cases exSampler _).2.2
  · rw [r2]
    norm_num
  · rw [r2, r3, toInt_le_iff _ _ (by norm_num)]
    norm_num

/-- C12 (amended): after train-length discovery, started with empty sample buffers,
the session is classified by its counts: if no valid sample was recorded it ends
with exit code `0`, `estimated = -1.0` and `bin_width = -1.0`; otherwise, if the
number of valid samples is at most 40% of the trains received during discovery
(`train_count`, the recorded plus the discarded ones; failed attempts are not
counted), it ends with exit code `0`, `estimated = 1000.0` and `bin_width = 0.0`;
otherwise it proceeds to PRELIM. -/
theorem C12_classified_by_received (K : SamplerParams) (conf : config_s)
    (outcomes : List Outcome) (s : Discovery)
    (h1 : conf.p1_trains_count = 0) (h2 : conf.p1_trains_count_discarded = 0)
    (hs : s = (discovery_loop K outcomes (discovery_init K conf)).1) :
    s.train_count = s.conf.p1_trains_count + s.conf.p1_trains_count_discarded ∧
    (s.conf.p1_trains_count = 0 →
      ∃ c, discovery_finish K s = SyncResult.ended 0 c ∧
        c.bandwidth_estimated = -1 ∧ c.bin_width = -1) ∧
    (s.conf.p1_trains_count ≠ 0 →
      (s.conf.p1_trains_count : ℚ) ≤
        (2 / 5) * ((s.conf.p1_trains_count + s.conf.p1_trains_count_discarded : Int) : ℚ) →
      ∃ c, discovery_finish K s = SyncResult.ended 0 c ∧
        c.bandwidth_estimated = 1000 ∧ c.bin_width = 0) ∧
    (s.conf.p1_trains_count ≠ 0 →
      ¬ (s.conf.p1_trains_count : ℚ) ≤
        (2 / 5) * ((s.conf.p1_trains_count + s.conf.p1_trains_count_discarded : Int) : ℚ) →
      ∃ c, discovery_finish K s = SyncResult.proceeds c) := by
  have hinit : 0 ≤ (discovery_init K conf).conf.p1_trains_count ∧
      0 ≤ (discovery_init K conf).conf.p1_trains_count_discarded ∧
      (discovery_init K conf).train_count =
        (discovery_init K conf).conf.p1_trains_count +
          (discovery_init K conf).conf.p1_trains_count_discarded := by
    show 0 ≤ conf.p1_trains_count ∧ 0 ≤ conf.p1_trains_count_discarded ∧
      (0 : Int) = conf.p1_trains_count + conf.p1_trains_count_discarded
    rw [h1, h2]
    exact ⟨le_refl _, le_refl _, rfl⟩
  obtain ⟨c1, c2, c3⟩ := discovery_loop_counts K outcomes _ hinit
  rw [← hs] at c1 c2 c3
  obtain ⟨f1, f2, f3⟩ := discovery_finish_cases K s
  have hq : (0 : ℚ) ≤ (s.train_count : ℚ) * (2 / 5) := by
    have : (0 : ℚ) ≤ (s.train_count : ℚ) := by
      rw [c3]
      exact_mod_cast (by omega : (0 : Int) ≤ s.conf.p1_trains_count +
        s.conf.p1_trains_count_discarded)
    positivity
  have hiff := toInt_le_iff ((s.train_count : ℚ) * (2 / 5)) s.conf.p1_trains_count hq
  rw [c3, mul_comm] at hiff
  rw [c3] at f2 f3
  refine ⟨c3, f1, fun h0 hle => f2 h0 (by rw [mul_comm]; exact hiff.mpr hle),
    fun h0 hnle => f3 h0 (fun hle => hnle (hiff.mp (by rw [mul_comm] at hle; exact hle)))⟩

/-- Witness of C12 (amended): one failed, one recorded and one discarded train. -/
theorem C12_classified_by_received_witness :
    exSession.p1_trains_count = 0 ∧ exSession.p1_trains_count_discarded = 0 ∧
    (discovery_loop exSampler [none, some 10, some (1 / 2)]
        (discovery_init exSampler exSession)).1.conf.p1_trains_count ≠ 0 ∧
    ((discovery_loop exSampler [none, some 10, some (1 / 2)]
        (discovery_init exSampler exSession)).1.conf.p1_trains_count ≠ 0 →
      ¬ ((discovery_loop exSampler [none, some 10, some (1 / 2)]
          (discovery_init exSampler exSession)).1.conf.p1_trains_count : ℚ) ≤
        (2 / 5) * (((discovery_loop exSampler [none, some 10, some (1 / 2)]
            (discovery_init exSampler exSession)).1.conf.p1_trains_count +
          (discovery_loop exSampler [none, some 10, some (1 / 2)]
            (discovery_init exSampler exSession)).1.conf.p1_trains_count_discarded : Int) : ℚ) →
      ∃ c, discovery_finish exSampler
        (discovery_loop exSampler [none, some 10, some (1 / 2)]
          (discovery_init exSampler exSession)).1 = SyncResult.proceeds c) :=
  ⟨rfl, rfl, by rw [exDiscovery_run.2.1]; norm_num,
    (C12_classified_by_received exSampler exSession [none, some 10, some (1 / 2)] _
      rfl rfl rfl).2.2.2⟩

/-! ## Claims on the calibration -/

/-- The RTT loop is left with its condition false: the iteration bound of `rtt_run`
does not cut it short. -/
theorem rtt_loop_exit (K : CalibParams) (ctl_value : Int → Nat) (rtt_delta : Int → ℚ) :
    ∀ (n : Nat) (s : RttState), K.RTT_COUNT_MAX ≤ s.count + n →
      ¬ ((rtt_loop K ctl_value rtt_delta n s).valid_count < K.RTT_VALID_COUNT ∧
          (rtt_loop K ctl_value rtt_delta n s).count < K.RTT_COUNT_MAX) := by
  intro n
  induction n with
  | zero =>
    intro s h
    simp only [rtt_loop]
    rintro ⟨_, h2⟩
    simp at h
    omega
  | succ n ih =>
    intro s h
    simp only [rtt_loop]
    by_cases hc : s.valid_count < K.RTT_VALID_COUNT ∧ s.count < K.RTT_COUNT_MAX
    · rw [if_pos hc]
      apply ih
      have : (rtt_body ctl_value rtt_delta s).count = s.count + 1 := by
        unfold rtt_body
        split <;> rfl
      rw [this]
      push_cast at h
      omega
    · rw [if_neg hc]
      exact hc

theorem late_replies_valid_iff (K : CalibParams) (c : Int)
    (h1 : 0 < K.RTT_VALID_COUNT) (h2 : K.RTT_VALID_COUNT < K.RTT_COUNT_MAX)
    (h3 : K.RTT_COUNT_MAX ≤ 16777215) (hc0 : 0 ≤ c) (hc1 : c < K.RTT_COUNT_MAX) :
    (c > 0 ∧ (late_replies K c : Int) = (16777215 - c) % 4294967296) ↔
      K.RTT_COUNT_MAX - K.RTT_VALID_COUNT ≤ c := by
  have hmod : (16777215 - c) % 4294967296 = 16777215 - c :=
    Int.emod_eq_of_lt (by omega) (by omega)
  rw [hmod]
  unfold late_replies
  by_cases hl : K.RTT_COUNT_MAX - K.RTT_VALID_COUNT ≤ c
  · rw [if_pos hl]
    constructor
    · intro _; exact hl
    · intro _
      exact ⟨by omega, by omega⟩
  · rw [if_neg hl]
    constructor
    · rintro ⟨_, h⟩
      omega
    · intro h; exact absurd h hl

/-- With the replies `late_replies` the RTT loop collects its `RTT_VALID_COUNT`-th
valid reply in its last iteration. -/
theorem rtt_loop_late (K : CalibParams) (rtt_delta : Int → ℚ)
    (h1 : 0 < K.RTT_VALID_COUNT) (h2 : K.RTT_VALID_COUNT < K.RTT_COUNT_MAX)
    (h3 : K.RTT_COUNT_MAX ≤ 16777215) :
    ∀ (n : Nat) (s : RttState), s.count + n = K.RTT_COUNT_MAX → 0 ≤ s.count →
      ((s.count ≤ K.RTT_COUNT_MAX - K.RTT_VALID_COUNT ∧ s.valid_count = 0) ∨
        (K.RTT_COUNT_MAX - K.RTT_VALID_COUNT ≤ s.count ∧
          s.valid_count = s.count - (K.RTT_COUNT_MAX - K.RTT_VALID_COUNT))) →
      (rtt_loop K (late_replies K) rtt_delta n s).valid_count = K.RTT_VALID_COUNT ∧
      (rtt_loop K (late_replies K) rtt_delta n s).count = K.RTT_COUNT_MAX := by
  intro n
  induction n with
  | zero =>
    intro s hn h0 hinv
    simp only [rtt_loop]
    simp at hn
    omega
  | succ n ih =>
    intro s hn h0 hinv
    push_cast at hn
    simp only [rtt_loop]
    have hc : s.valid_count < K.RTT_VALID_COUNT ∧ s.count < K.RTT_COUNT_MAX := by omega
    rw [if_pos hc]
    have hiff := late_replies_valid_iff K s.count h1 h2 h3 h0 hc.2
    by_cases hv : K.RTT_COUNT_MAX - K.RTT_VALID_COUNT ≤ s.count
    · have hb : rtt_body (late_replies K) rtt_delta s =
          { valid_count := s.valid_count + 1
            count := s.count + 1
            rtt_total_time := s.rtt_total_time + rtt_delta s.count } := by
        unfold rtt_body
        rw [if_pos (hiff.mpr hv)]
      rw [hb]
      apply ih
      · show s.count + 1 + (n : Int) = _
        omega
      · show 0 ≤ s.count + 1
        omega
      · right
        show K.RTT_COUNT_MAX - K.RTT_VALID_COUNT ≤ s.count + 1 ∧
          s.valid_count + 1 = s.count + 1 - (K.RTT_COUNT_MAX - K.RTT_VALID_COUNT)
        omega
    · have hb : rtt_body (late_replies K) rtt_delta s = { s with count := s.count + 1 } := by
        unfold rtt_body
        rw [if_neg (fun h => hv (hiff.mp h))]
      rw [hb]
      apply ih
      · show s.count + 1 + (n : Int) = _
        omega
      · show 0 ≤ s.count + 1
        omega
      · left
        show s.count + 1 ≤ K.RTT_COUNT_MAX - K.RTT_VALID_COUNT ∧ s.valid_count = 0
        omega

/-- C13 (the code at the failing input): whatever the constants are, as long as
`0 < RTT_VALID_COUNT < RTT_COUNT_MAX <= 0xffffff`, a daemon whose last
`RTT_VALID_COUNT` replies within the `RTT_COUNT_MAX` iterations are valid lets the
loop collect `RTT_VALID_COUNT` valid replies, and the measurement still reports
failure, because the loop is left with `count == RTT_COUNT_MAX`. -/
theorem C13_fails_with_enough_valid_replies (K : CalibParams) (train_packet_length_max : Int)
    (rtt_delta : Int → ℚ) (echo_n : Int → Int) (echo_delta : Int → ℚ)
    (h1 : 0 < K.RTT_VALID_COUNT) (h2 : K.RTT_VALID_COUNT < K.RTT_COUNT_MAX)
    (h3 : K.RTT_COUNT_MAX ≤ 16777215) :
    (rtt_run K (late_replies K) rtt_delta).valid_count = K.RTT_VALID_COUNT ∧
    (rtt_run K (late_replies K) rtt_delta).count = K.RTT_COUNT_MAX ∧
    session_rtt_sync_calibration K train_packet_length_max (late_replies K) rtt_delta
      echo_n echo_delta = CalibResult.rtt_failed := by
  obtain ⟨r1, r2⟩ := rtt_loop_late K rtt_delta h1 h2 h3 K.RTT_COUNT_MAX.toNat ⟨0, 0, 0⟩
    (by show (0 : Int) + _ = _; omega) (le_refl _)
    (Or.inl ⟨by show (0 : Int) ≤ _; omega, rfl⟩)
  have r3 : (rtt_run K (late_replies K) rtt_delta).count = K.RTT_COUNT_MAX := r2
  refine ⟨r1, r2, ?_⟩
  unfold session_rtt_sync_calibration
  rw [if_pos r3]

/-- Witness of C13 with `RTT_VALID_COUNT = 2` and `RTT_COUNT_MAX = 6`. -/
theorem C13_fails_with_enough_valid_replies_witness :
    0 < exCalib.RTT_VALID_COUNT ∧ exCalib.RTT_VALID_COUNT < exCalib.RTT_COUNT_MAX ∧
    exCalib.RTT_COUNT_MAX ≤ 16777215 ∧
    (rtt_run exCalib (late_replies exCalib) (fun _ => 100)).valid_count =
      exCalib.RTT_VALID_COUNT ∧
    (rtt_run exCalib (late_replies exCalib) (fun _ => 100)).count = exCalib.RTT_COUNT_MAX ∧
    session_rtt_sync_calibration exCalib 1500 (late_replies exCalib) (fun _ => 100)
      (fun _ => 1500) (fun _ => 50) = CalibResult.rtt_failed :=
  ⟨by decide, by decide, by decide,
    C13_fails_with_enough_valid_replies exCalib 1500 (fun _ => 100) (fun _ => 1500)
      (fun _ => 50) (by decide) (by decide) (by decide)⟩

/-- The latency step of the calibration fails exactly when the RTT loop was left with
`count == LATENCY_COUNT_MAX` (and not `RTT_COUNT_MAX`), whatever the echoes were. -/
theorem calibration_latency_failed_iff (K : CalibParams) (train_packet_length_max : Int)
    (ctl_value : Int → Nat) (rtt_delta : Int → ℚ) (echo_n : Int → Int)
    (echo_delta : Int → ℚ) :
    session_rtt_sync_calibration K train_packet_length_max ctl_value rtt_delta echo_n
        echo_delta = CalibResult.latency_failed ↔
      (rtt_run K ctl_value rtt_delta).count ≠ K.RTT_COUNT_MAX ∧
      (rtt_run K ctl_value rtt_delta).count = K.LATENCY_COUNT_MAX := by
  unfold session_rtt_sync_calibration
  by_cases h1 : (rtt_run K ctl_value rtt_delta).count = K.RTT_COUNT_MAX
  · rw [if_pos h1]
    constructor
    · intro h; exact absurd h (by simp)
    · intro h; exact absurd h1 h.1
  · rw [if_neg h1]
    by_cases h2 : (rtt_run K ctl_value rtt_delta).count = K.LATENCY_COUNT_MAX
    · rw [if_pos h2]
      exact ⟨fun _ => ⟨h1, h2⟩, fun _ => rfl⟩
    · rw [if_neg h2]
      constructor
      · intro h; exact absurd h (by simp)
      · intro h; exact absurd h.2 h2

theorem calibration_calibrated (K : CalibParams) (train_packet_length_max : Int)
    (ctl_value : Int → Nat) (rtt_delta : Int → ℚ) (echo_n : Int → Int)
    (echo_delta : Int → ℚ)
    (h1 : (rtt_run K ctl_value rtt_delta).count ≠ K.RTT_COUNT_MAX)
    (h2 : (rtt_run K ctl_value rtt_delta).count ≠ K.LATENCY_COUNT_MAX) :
    ∃ a b c, session_rtt_sync_calibration K train_packet_length_max ctl_value rtt_delta
      echo_n echo_delta = CalibResult.calibrated a b c := by
  unfold session_rtt_sync_calibration
  rw [if_neg h1, if_neg h2]
  exact ⟨_, _, _, rfl⟩

/-- C14 (the code at the failing inputs): the latency step fails exactly when the
RTT loop took `LATENCY_COUNT_MAX` iterations, whatever the echoes were. With two valid
samples required within four exchanges: four exchanges that all return a short packet
give no valid sample, yet the calibration succeeds after an RTT loop of three
iterations; and echoes that give the two valid samples in three exchanges end in
failure after an RTT loop of four iterations, and in success after one of three. -/
theorem C14_latency_outcome_follows_rtt_count (K : CalibParams)
    (train_packet_length_max : Int) (ctl_value : Int → Nat) (rtt_delta : Int → ℚ)
    (echo_n : Int → Int) (echo_delta : Int → ℚ) :
    (session_rtt_sync_calibration K train_packet_length_max ctl_value rtt_delta echo_n
        echo_delta = CalibResult.latency_failed ↔
      (rtt_run K ctl_value rtt_delta).count ≠ K.RTT_COUNT_MAX ∧
      (rtt_run K ctl_value rtt_delta).count = K.LATENCY_COUNT_MAX) ∧
    ((latency_run exCalib 1500 (fun _ => 0) (fun _ => 50)).latency_count =
        exCalib.LATENCY_COUNT_MAX ∧
      (latency_run exCalib 1500 (fun _ => 0) (fun _ => 50)).latency_count_valid = 0 ∧
      (rtt_run exCalib good_replies (fun _ => 100)).count = 3 ∧
      ∃ a b c, session_rtt_sync_calibration exCalib 1500 good_replies (fun _ => 100)
        (fun _ => 0) (fun _ => 50) = CalibResult.calibrated a b c) ∧
    ((latency_run exCalib 1500 (fun _ => 1500) (fun _ => 50)).latency_count_valid =
        exCalib.LATENCY_VALID_COUNT ∧
      (latency_run exCalib 1500 (fun _ => 1500) (fun _ => 50)).latency_count <
        exCalib.LATENCY_COUNT_MAX ∧
      (rtt_run exCalib exRepliesOneBad (fun _ => 100)).count = 4 ∧
      session_rtt_sync_calibration exCalib 1500 exRepliesOneBad (fun _ => 100)
        (fun _ => 1500) (fun _ => 50) = CalibResult.latency_failed ∧
      ∃ a b c, session_rtt_sync_calibration exCalib 1500 good_replies (fun _ => 100)
        (fun _ => 1500) (fun _ => 50) = CalibResult.calibrated a b c) := by
  have hg : (rtt_run exCalib good_replies (fun _ => 100)).count = 3 := by decide
  have hb : (rtt_run exCalib exRepliesOneBad (fun _ => 100)).count = 4 := by decide
  refine ⟨calibration_latency_failed_iff K train_packet_length_max ctl_value rtt_delta
    echo_n echo_delta, ⟨by decide, by decide, hg, ?_⟩, ⟨by decide, by decide, hb, ?_, ?_⟩⟩
  · exact calibration_calibrated exCalib 1500 good_replies _ _ _
      (by rw [hg]; decide) (by rw [hg]; decide)
  · rw [calibration_latency_failed_iff, hb]
    decide
  · exact calibration_calibrated exCalib 1500 good_replies _ _ _
      (by rw [hg]; decide) (by rw [hg]; decide)

/-! ## Further claims on the modal analyzer -/

/-- The value of `adr` after the uni-modal branch (line 1259). -/
theorem session_calculate_adr_unimodal (K : CalcParams) (conf : config_s)
    (h : conf.p2_modes_count = 1 ∧
      K.stat_array_std conf.p2_trains_bw conf.p2_trains_count /
          K.stat_array_interquartile_mean conf.p2_trains_bw conf.p2_trains_count <
        K.BW_COVAR_THRESHOLD ∧
      K.stat_array_interquartile_mean conf.p2_trains_bw conf.p2_trains_count /
          conf.prelim_bw_mean < K.ADR_THRESHOLD) :
    session_calculate_adr K conf = ((conf.p2_modes 0).hi + (conf.p2_modes 1).lo) / 2 := by
  unfold session_calculate_adr
  simp only [if_pos h]

/-- C16 (the code at the failing input): in the uni-modal branch `adr` becomes
`(p2_modes[0].hi + p2_modes[1].lo) / 2`, with the entry `p2_modes[1]` that lies beyond
the single mode; for the single P2 mode `[8, 12]` and a zero entry behind it the code
takes `adr = 6`, whereas `(lo + hi) / 2` of the mode is `10`. -/
theorem C16_unimodal_reads_second_mode (K : CalcParams) (conf : config_s) :
    ((conf.p2_modes_count = 1 ∧
        K.stat_array_std conf.p2_trains_bw conf.p2_trains_count /
            K.stat_array_interquartile_mean conf.p2_trains_bw conf.p2_trains_count <
          K.BW_COVAR_THRESHOLD ∧
        K.stat_array_interquartile_mean conf.p2_trains_bw conf.p2_trains_count /
            conf.prelim_bw_mean < K.ADR_THRESHOLD) →
      session_calculate_adr K conf = ((conf.p2_modes 0).hi + (conf.p2_modes 1).lo) / 2) ∧
    (exUnimodal.p2_modes_count = 1 ∧
      exCalcUni.stat_array_std exUnimodal.p2_trains_bw exUnimodal.p2_trains_count /
          exCalcUni.stat_array_interquartile_mean exUnimodal.p2_trains_bw
            exUnimodal.p2_trains_count < exCalcUni.BW_COVAR_THRESHOLD ∧
      exCalcUni.stat_array_interquartile_mean exUnimodal.p2_trains_bw
          exUnimodal.p2_trains_count / exUnimodal.prelim_bw_mean <
        exCalcUni.ADR_THRESHOLD) ∧
    session_calculate_adr exCalcUni exUnimodal = 6 ∧
    ((exUnimodal.p2_modes 0).lo + (exUnimodal.p2_modes 0).hi) / 2 = 10 := by
  have hc : exUnimodal.p2_modes_count = 1 ∧
      exCalcUni.stat_array_std exUnimodal.p2_trains_bw exUnimodal.p2_trains_count /
          exCalcUni.stat_array_interquartile_mean exUnimodal.p2_trains_bw
            exUnimodal.p2_trains_count < exCalcUni.BW_COVAR_THRESHOLD ∧
      exCalcUni.stat_array_interquartile_mean exUnimodal.p2_trains_bw
          exUnimodal.p2_trains_count / exUnimodal.prelim_bw_mean <
        exCalcUni.ADR_THRESHOLD := by
    refine ⟨by simp [exUnimodal, exConf], ?_, ?_⟩
    · norm_num [exCalcUni]
    · norm_num [exCalcUni, exUnimodal]
  refine ⟨session_calculate_adr_unimodal K conf, hc, ?_, ?_⟩
  · rw [session_calculate_adr_unimodal exCalcUni exUnimodal hc]
    norm_num [exUnimodal, exConf, exModeOf, exMode]
  · norm_num [exUnimodal, exConf, exModeOf]

theorem session_calculate_not_lbound (K : CalcParams) (conf : config_s) :
    (session_calculate K conf).bandwidth_assessment = Assessment.MODE ∨
    (session_calculate K conf).bandwidth_assessment = Assessment.NOMODE := by
  by_cases hp : 0 < (p1_merit_loop conf (session_calculate_adr K conf)).merit_max
  · left
    rw [session_calculate_mode K conf hp]
  · right
    rw [session_calculate_nomode K conf hp]

/-- C17 (the code on every session state): `session_calculate` reports `MODE` or
`NOMODE` and never `LBOUND`, the condition of line 1285 being the literal `1`; this
holds in particular for the session a phase-1 sampler leaves behind, whether it
completed its sweep or abandoned it. -/
theorem C17_never_lbound (K : CalcParams) (S : SamplerParams) (conf : config_s)
    (outcomes : List Outcome) :
    (session_calculate K conf).bandwidth_assessment ≠ Assessment.LBOUND ∧
    (∀ r, p1_sampling S conf outcomes = some r →
      (session_calculate K r.1.conf).bandwidth_assessment ≠ Assessment.LBOUND) ∧
    (session_calculate exCalc (exConf [] [])).bandwidth_assessment = Assessment.NOMODE := by
  have key : ∀ c : config_s,
      (session_calculate K c).bandwidth_assessment ≠ Assessment.LBOUND := by
    intro c
    rcases session_calculate_not_lbound K c with h | h <;> rw [h] <;> simp
  refine ⟨key conf, fun r _ => key r.1.conf, ?_⟩
  rcases session_calculate_not_lbound exCalc (exConf [] []) with h | h
  · rw [session_calculate_mode_iff] at h
    obtain ⟨i, i0, i1, _⟩ := h
    simp [exConf] at i1
    omega
  · exact h

/-! ## Claims on `session_end` -/

theorem fsm_state_set_eq (fsm_state state : FsmState) :
    fsm_state_set fsm_state state = state := by
  unfold fsm_state_set
  split
  · assumption
  · rfl

/-- C18 (as stated, refuted): in offline mode a call `session_end(1)` in the state
`P2_CALC` (phase 2 of the CSV file is empty) takes the FSM to `END` without passing
through `CLOSE`; so does a call in the state `INIT` in network mode. -/
theorem C18_counterexample :
    (1 : Int) ≠ 0 ∧
    (session_end FsmState.P2_CALC false 1).1 = [FsmState.END] ∧
    FsmState.CLOSE ∉ (session_end FsmState.P2_CALC false 1).1 ∧
    (session_end FsmState.INIT true 1).1 = [FsmState.END] := by
  decide

/-- C18 (amended): a call of `session_end`, whatever its exit code, takes the FSM
through `CLOSE` and then to `END` when the FSM is not in `INIT` and the session runs
in network mode; in the state `INIT` or in offline mode it takes the FSM to `END`
directly, without `CLOSE`. -/
theorem C18_close_only_in_started_network_session (fsm_state : FsmState) (mode_net : Bool)
    (exit_code : Int) :
    (fsm_state ≠ FsmState.INIT ∧ mode_net = true →
      (session_end fsm_state mode_net exit_code).1 = [FsmState.CLOSE, FsmState.END]) ∧
    (¬ (fsm_state ≠ FsmState.INIT ∧ mode_net = true) →
      (session_end fsm_state mode_net exit_code).1 = [FsmState.END]) ∧
    (session_end fsm_state mode_net exit_code).2 = exit_code := by
  unfold session_end
  refine ⟨fun h => ?_, fun h => ?_, ?_⟩
  · rw [if_pos h]
    simp only [fsm_state_set_eq]
  · rw [if_neg h]
    simp only [fsm_state_set_eq]
  · split <;> rfl

/-! ## Claims on the train identifiers -/

theorem exSession_ids :
    session_ids exSampler exSession [some 10, some 10] [some 10] = [1, 2, 1] := by
  norm_num [session_ids, discovery_ids, discovery_loop, discovery_body, discovery_init,
    discovery_finish, length_scan, prelim_ids, prelim_outer_ids, prelim_inner,
    prelim_inner_ids, prelim_body, exSampler, exSession, exConf, record_p1,
    Function.update_apply, toInt]

theorem discovery_body_train_id (K : SamplerParams) (s : Discovery) (o : Outcome) :
    s.train_id ≤ (discovery_body K s o).train_id := by
  unfold discovery_body
  cases o with
  | none =>
    simp only
    split_ifs <;> exact le_refl _
  | some delta =>
    simp only
    omega

theorem prelim_body_train_id (s : Sampler) (o : Outcome) :
    s.train_id ≤ (prelim_body s o).train_id := by
  unfold prelim_body
  cases o with
  | none => exact le_refl _
  | some delta =>
    simp only
    omega

theorem p1_body_train_id (s : Sampler) (o : Outcome) :
    s.train_id ≤ (p1_body s o).train_id := by
  unfold p1_body
  cases o with
  | none => exact le_refl _
  | some delta =>
    simp only
    omega

theorem p2_body_train_id (s : Sampler) (o : Outcome) :
    s.train_id ≤ (p2_body s o).train_id := by
  unfold p2_body
  cases o with
  | none => exact le_refl _
  | some delta =>
    simp only
    omega

theorem nonDecreasing_cons (a b : Int) (l : List Int) (hab : a ≤ b)
    (h : NonDecreasing l) (hl : ∀ x ∈ l, b ≤ x) : NonDecreasing (a :: l) := by
  unfold NonDecreasing at *
  rw [List.pairwise_cons]
  exact ⟨fun x hx => le_trans hab (hl x hx), h⟩

theorem discovery_ids_spec (K : SamplerParams) : ∀ (outcomes : List Outcome) (s : Discovery),
    NonDecreasing (discovery_ids K outcomes s) ∧
    (∀ x ∈ discovery_ids K outcomes s, s.train_id ≤ x) ∧
    (∀ x, (discovery_ids K outcomes s).head? = some x → x = s.train_id) := by
  intro outcomes
  induction outcomes with
  | nil =>
    intro s
    simp [discovery_ids, NonDecreasing]
  | cons o rest ih =>
    intro s
    unfold discovery_ids
    split
    · obtain ⟨i1, i2, _⟩ := ih (discovery_body K s o)
      refine ⟨nonDecreasing_cons _ _ _ (discovery_body_train_id K s o) i1 i2, ?_, ?_⟩
      · intro x hx
        rcases List.mem_cons.mp hx with h | h
        · exact le_of_eq h.symm
        · exact le_trans (discovery_body_train_id K s o) (i2 x h)
      · intro x hx
        simpa using hx.symm
    · simp [NonDecreasing]

theorem p2_loop_ids_spec : ∀ (outcomes : List Outcome) (s : Sampler),
    NonDecreasing (p2_loop_ids outcomes s) ∧
    (∀ x ∈ p2_loop_ids outcomes s, s.train_id ≤ x) ∧
    (∀ x, (p2_loop_ids outcomes s).head? = some x → x = s.train_id) := by
  intro outcomes
  induction outcomes with
  | nil =>
    intro s
    simp [p2_loop_ids, NonDecreasing]
  | cons o rest ih =>
    intro s
    unfold p2_loop_ids
    split
    · obtain ⟨i1, i2, _⟩ := ih (p2_body s o)
      refine ⟨nonDecreasing_cons _ _ _ (p2_body_train_id s o) i1 i2, ?_, ?_⟩
      · intro x hx
        rcases List.mem_cons.mp hx with h | h
        · exact le_of_eq h.symm
        · exact le_trans (p2_body_train_id s o) (i2 x h)
      · intro x hx
        simpa using hx.symm
    · simp [NonDecreasing]

theorem prelim_inner_ids_spec (K : SamplerParams) : ∀ (outcomes : List Outcome) (s : Sampler),
    NonDecreasing (prelim_inner_ids K outcomes s) ∧
    (∀ x ∈ prelim_inner_ids K outcomes s,
      s.train_id ≤ x ∧ x ≤ (prelim_inner K outcomes s).1.train_id) ∧
    (∀ x, (prelim_inner_ids K outcomes s).head? = some x → x = s.train_id) ∧
    s.train_id ≤ (prelim_inner K outcomes s).1.train_id ∧
    (prelim_inner_ids K outcomes s = [] → (prelim_inner K outcomes s).1 = s) := by
  intro outcomes
  induction outcomes with
  | nil =>
    intro s
    unfold prelim_inner
    split <;> simp [prelim_inner_ids, NonDecreasing]
  | cons o rest ih =>
    intro s
    unfold prelim_inner_ids prelim_inner
    split
    · obtain ⟨i1, i2, _, i4, _⟩ := ih (prelim_body s o)
      have hb := prelim_body_train_id s o
      refine ⟨nonDecreasing_cons _ _ _ hb i1 (fun x hx => (i2 x hx).1), ?_, ?_, ?_, ?_⟩
      · intro x hx
        rcases List.mem_cons.mp hx with h | h
        · rw [h]
          exact ⟨le_refl _, le_trans hb i4⟩
        · exact ⟨le_trans hb (i2 x h).1, (i2 x h).2⟩
      · intro x hx
        simpa using hx.symm
      · exact le_trans hb i4
      · intro h
        exact absurd h (List.cons_ne_nil _ _)
    · simp [NonDecreasing]

theorem p1_inner_ids_spec (size size_max : Int) : ∀ (outcomes : List Outcome) (s : Sampler),
    NonDecreasing (p1_inner_ids size size_max outcomes s) ∧
    (∀ x ∈ p1_inner_ids size size_max outcomes s,
      s.train_id ≤ x ∧ x ≤ (p1_inner size size_max outcomes s).1.train_id) ∧
    (∀ x, (p1_inner_ids size size_max outcomes s).head? = some x → x = s.train_id) ∧
    s.train_id ≤ (p1_inner size size_max outcomes s).1.train_id ∧
    (p1_inner_ids size size_max outcomes s = [] →
      (p1_inner size size_max outcomes s).1 = s) := by
  intro outcomes
  induction outcomes with
  | nil =>
    intro s
    unfold p1_inner
    split <;> simp [p1_inner_ids, NonDecreasing]
  | cons o rest ih =>
    intro s
    unfold p1_inner_ids p1_inner
    split
    · obtain ⟨i1, i2, _, i4, _⟩ := ih (p1_body s o)
      have hb := p1_body_train_id s o
      refine ⟨nonDecreasing_cons _ _ _ hb i1 (fun x hx => (i2 x hx).1), ?_, ?_, ?_, ?_⟩
      · intro x hx
        rcases List.mem_cons.mp hx with h | h
        · rw [h]
          exact ⟨le_refl _, le_trans hb i4⟩
        · exact ⟨le_trans hb (i2 x h).1, (i2 x h).2⟩
      · intro x hx
        simpa using hx.symm
      · exact le_trans hb i4
      · intro h
        exact absurd h (List.cons_ne_nil _ _)
    · simp [NonDecreasing]

/-- Appending a run that starts no lower than the first run ends. -/
theorem nonDecreasing_append (l1 l2 : List Int) (m : Int) (h1 : NonDecreasing l1)
    (h2 : NonDecreasing l2) (u : ∀ x ∈ l1, x ≤ m) (v : ∀ x ∈ l2, m ≤ x) :
    NonDecreasing (l1 ++ l2) := by
  unfold NonDecreasing at *
  rw [List.pairwise_append]
  exact ⟨h1, h2, fun a ha b hb => le_trans (u a ha) (v b hb)⟩

theorem head_append_spec (l1 l2 : List Int) (t : Int)
    (h1 : ∀ x, l1.head? = some x → x = t) (h2 : l1 = [] → ∀ x, l2.head? = some x → x = t) :
    ∀ x, (l1 ++ l2).head? = some x → x = t := by
  intro x hx
  cases l1 with
  | nil => exact h2 rfl x (by simpa using hx)
  | cons a l => exact h1 x (by simpa using hx)

theorem prelim_outer_ids_spec (K : SamplerParams) :
    ∀ (n : Nat) (outcomes : List Outcome) (s : Sampler),
    NonDecreasing (prelim_outer_ids K n outcomes s) ∧
    (∀ x ∈ prelim_outer_ids K n outcomes s, s.train_id ≤ x) ∧
    (∀ x, (prelim_outer_ids K n outcomes s).head? = some x → x = s.train_id) := by
  intro n
  induction n with
  | zero =>
    intro outcomes s
    simp [prelim_outer_ids, NonDecreasing]
  | succ n ih =>
    intro outcomes s
    unfold prelim_outer_ids
    split
    · obtain ⟨j1, j2, j3, j4, j5⟩ :=
        prelim_inner_ids_spec K outcomes { s with count := 0, count_valid := 0 }
      split
      · exact ⟨j1, fun x hx => (j2 x hx).1, j3⟩
      · rename_i s1 rest heq
        have e1 : (prelim_inner K outcomes { s with count := 0, count_valid := 0 }).1 = s1 := by
          rw [heq]
        rw [e1] at j2 j4 j5
        obtain ⟨i1, i2, i3⟩ := ih rest
          { s1 with conf := { s1.conf with train_length := s1.conf.train_length + 1 } }
        refine ⟨nonDecreasing_append _ _ s1.train_id j1 i1 (fun x hx => (j2 x hx).2) i2, ?_, ?_⟩
        · intro x hx
          rcases List.mem_append.mp hx with h | h
          · exact (j2 x h).1
          · exact le_trans j4 (i2 x h)
        · refine head_append_spec _ _ _ j3 ?_
          intro he x hx
          have := i3 x hx
          rw [this, j5 he]
    · simp [NonDecreasing]

theorem p1_for_ids_spec (K : SamplerParams) (step size size_max : Int) :
    ∀ (n : Nat) (outcomes : List Outcome) (s : Sampler),
    NonDecreasing (p1_for_ids K step size size_max n outcomes s) ∧
    (∀ x ∈ p1_for_ids K step size size_max n outcomes s, s.train_id ≤ x) ∧
    (∀ x, (p1_for_ids K step size size_max n outcomes s).head? = some x →
      x = s.train_id) := by
  intro n
  induction n with
  | zero =>
    intro outcomes s
    simp [p1_for_ids, NonDecreasing]
  | succ n ih =>
    intro outcomes s
    unfold p1_for_ids
    obtain ⟨j1, j2, j3, j4, j5⟩ :=
      p1_inner_ids_spec size size_max outcomes { s with count := 0, count_valid := 0 }
    split
    · exact ⟨j1, fun x hx => (j2 x hx).1, j3⟩
    · rename_i s1 rest heq
      have e1 : (p1_inner size size_max outcomes { s with count := 0, count_valid := 0 }).1
          = s1 := by rw [heq]
      rw [e1] at j2 j4 j5
      have key : ∀ l2 : List Int, NonDecreasing l2 → (∀ x ∈ l2, s1.train_id ≤ x) →
          (∀ x, l2.head? = some x → x = s1.train_id) →
          NonDecreasing
            (p1_inner_ids size size_max outcomes { s with count := 0, count_valid := 0 } ++ l2) ∧
          (∀ x ∈ p1_inner_ids size size_max outcomes { s with count := 0, count_valid := 0 }
            ++ l2, s.train_id ≤ x) ∧
          (∀ x, (p1_inner_ids size size_max outcomes { s with count := 0, count_valid := 0 }
            ++ l2).head? = some x → x = s.train_id) := by
        intro l2 i1 i2 i3
        refine ⟨nonDecreasing_append _ _ s1.train_id j1 i1 (fun x hx => (j2 x hx).2) i2, ?_, ?_⟩
        · intro x hx
          rcases List.mem_append.mp hx with h | h
          · exact (j2 x h).1
          · exact le_trans j4 (i2 x h)
        · refine head_append_spec _ _ _ j3 ?_
          intro he x hx
          have := i3 x hx
          rw [this, j5 he]
      split
      · split
        · exact key [] (by simp [NonDecreasing]) (by simp) (by simp)
        · obtain ⟨i1, i2, i3⟩ := ih rest { s1 with conf := p1_clip s1.conf }
          exact key _ i1 i2 i3
      · obtain ⟨i1, i2, i3⟩ := ih rest
          { s1 with conf := p1_clip { s1.conf with
              train_packet_length := s1.conf.train_packet_length + step } }
        exact key _ i1 i2 i3

/-- C19 (as stated, refuted): a discovery of two received trains uses the identifiers
`1` and `2` and returns in the state `PRELIM`; the first attempt of `session_prelim`
then uses the identifier `1` again, smaller than the `2` used before it. -/
theorem C19_counterexample :
    session_ids exSampler exSession [some 10, some 10] [some 10] = [1, 2, 1] ∧
    ¬ NonDecreasing (session_ids exSampler exSession [some 10, some 10] [some 10]) := by
  have h : session_ids exSampler exSession [some 10, some 10] [some 10] = [1, 2, 1] :=
    exSession_ids
  refine ⟨h, ?_⟩
  rw [h]
  unfold NonDecreasing
  decide

/-- C19 (amended): within each phase (discovery, preliminary, phase 1, phase 2) the
`train_id` values used for successive train attempts never decrease, and the first
attempt of each phase uses `train_id = 1`: every sampler starts its own counter
again. -/
theorem C19_nondecreasing_within_each_phase (K : SamplerParams) (conf : config_s)
    (outcomes : List Outcome) :
    (NonDecreasing (discovery_ids K outcomes (discovery_init K conf)) ∧
      ∀ x, (discovery_ids K outcomes (discovery_init K conf)).head? = some x → x = 1) ∧
    (NonDecreasing (prelim_ids K conf outcomes) ∧
      ∀ x, (prelim_ids K conf outcomes).head? = some x → x = 1) ∧
    (∀ ids, p1_ids K conf outcomes = some ids →
      NonDecreasing ids ∧ ∀ x, ids.head? = some x → x = 1) ∧
    (NonDecreasing (p2_ids conf outcomes) ∧
      ∀ x, (p2_ids conf outcomes).head? = some x → x = 1) := by
  refine ⟨?_, ?_, ?_, ?_⟩
  · obtain ⟨a, _, c⟩ := discovery_ids_spec K outcomes (discovery_init K conf)
    exact ⟨a, c⟩
  · unfold prelim_ids
    obtain ⟨a, _, c⟩ := prelim_outer_ids_spec K
      (conf.train_length_max - K.TRAIN_LENGTH_MIN + 1).toNat outcomes
      { conf := { conf with
          train_length := K.TRAIN_LENGTH_MIN
          train_packet_length := conf.train_packet_length_max }
        train_id := 1
        count := 0
        count_valid := 0 }
    exact ⟨a, c⟩
  · intro ids h
    unfold p1_ids at h
    simp only at h
    split at h
    · exact absurd h (by simp)
    · have h2 := Option.some.inj h
      rw [← h2]
      obtain ⟨a, _, c⟩ := p1_for_ids_spec K _ _ _ K.TRAIN_PACKET_LENGTH_SIZES.toNat outcomes
        { conf := { conf with
            train_length := K.TRAIN_LENGTH_MIN
            train_packet_length := conf.train_packet_length_min }
          train_id := 1
          count := 0
          count_valid := 0 }
      exact ⟨a, c⟩
  · unfold p2_ids
    obtain ⟨a, _, c⟩ := p2_loop_ids_spec outcomes
      { conf := { conf with
          train_length := conf.train_length_max
          train_packet_length := conf.train_packet_length_max }
        train_id := 1
        count := 0
        count_valid := 0 }
    exact ⟨a, c⟩

/-! ## Claims on the sample buffers -/

theorem csv_store_other (row : CsvRow) (i k : Int) (a : (Int → ℚ) × (Int → ℚ))
    (h : k ≠ i) : (csv_store row i a).1 k = a.1 k ∧ (csv_store row i a).2 k = a.2 k := by
  unfold csv_store
  rcases row with _ | ⟨b, _ | d⟩
  · exact ⟨rfl, rfl⟩
  · exact ⟨Function.update_noteq h _ _, rfl⟩
  · exact ⟨Function.update_noteq h _ _, Function.update_noteq h _ _⟩

/-- The reading loop stores the row `k` at the index `k`, whatever `k` is. -/
theorem csv_rows_stored (rows : Nat → CsvRow) (a : (Int → ℚ) × (Int → ℚ)) (k : Nat)
    (b d : ℚ) (hr : rows k = some (b, some d)) :
    ∀ n : Nat, k < n →
      (csv_rows rows a n).1 (k : Int) = b ∧ (csv_rows rows a n).2 (k : Int) = d := by
  intro n
  induction n with
  | zero => intro h; omega
  | succ n ih =>
    intro h
    unfold csv_rows
    by_cases hk : k = n
    · subst hk
      rw [hr]
      unfold csv_store
      simp
    · have hlt : k < n := by omega
      have hne : (k : Int) ≠ (n : Int) := by omega
      obtain ⟨o1, o2⟩ := csv_store_other (rows n) (n : Int) (k : Int) (csv_rows rows a n) hne
      rw [o1, o2]
      exact ih hlt

theorem session_csv_read_p1 (p1 p2 : CsvSection) (conf : config_s) (c : Int)
    (hc : p1.count = some c) :
    (session_csv_read p1 p2 conf).p1_trains_count = c ∧
    (session_csv_read p1 p2 conf).p1_trains_bw =
      (csv_rows p1.rows (conf.p1_trains_bw, conf.p1_trains_delta) c.toNat).1 ∧
    (session_csv_read p1 p2 conf).p1_trains_delta =
      (csv_rows p1.rows (conf.p1_trains_bw, conf.p1_trains_delta) c.toNat).2 := by
  unfold session_csv_read
  rw [hc]
  simp only
  split <;> exact ⟨rfl, rfl, rfl⟩

theorem record_p1_stored (conf : config_s) (delta : ℚ)
    (h : delta > conf.packet_dispersion_delta_min) :
    (record_p1 conf delta).p1_trains_delta conf.p1_trains_count = delta ∧
    (record_p1 conf delta).p1_trains_bw conf.p1_trains_count = bandwidth_of conf delta ∧
    (record_p1 conf delta).p1_trains_count = conf.p1_trains_count + 1 := by
  unfold record_p1
  rw [if_pos h]
  simp

theorem record_p2_stored (conf : config_s) (delta : ℚ)
    (h : delta > conf.packet_dispersion_delta_min) :
    (record_p2 conf delta).p2_trains_delta conf.p2_trains_count = delta ∧
    (record_p2 conf delta).p2_trains_bw conf.p2_trains_count = bandwidth_of conf delta ∧
    (record_p2 conf delta).p2_trains_count = conf.p2_trains_count + 1 := by
  unfold record_p2
  rw [if_pos h]
  simp

/-- C20 (refuted by the code): nothing guards the sample buffers of 4096 entries.
A CSV file whose phase-1 count is `4097` has its last row stored at index `4096`,
and each sampler, given a received train whose dispersion exceeds the minimum while
the buffer already holds `4096` samples, stores the sample at index `4096` and
counts `4097`. -/
theorem C20_sample_stored_at_index_4096 :
    (∀ (p1 p2 : CsvSection) (conf : config_s) (b d : ℚ),
      p1.count = some 4097 → p1.rows 4096 = some (b, some d) →
      (session_csv_read p1 p2 conf).p1_trains_bw 4096 = b ∧
      (session_csv_read p1 p2 conf).p1_trains_delta 4096 = d ∧
      (session_csv_read p1 p2 conf).p1_trains_count = 4097) ∧
    (∀ (K : SamplerParams) (s : Discovery) (delta : ℚ),
      s.conf.p1_trains_count = 4096 → delta > s.conf.packet_dispersion_delta_min →
      (discovery_body K s (some delta)).conf.p1_trains_delta 4096 = delta ∧
      (discovery_body K s (some delta)).conf.p1_trains_count = 4097) ∧
    (∀ (s : Sampler) (delta : ℚ),
      s.conf.p1_trains_count = 4096 → delta > s.conf.packet_dispersion_delta_min →
      (prelim_body s (some delta)).conf.p1_trains_delta 4096 = delta ∧
      (prelim_body s (some delta)).conf.p1_trains_count = 4097 ∧
      (p1_body s (some delta)).conf.p1_trains_delta 4096 = delta ∧
      (p1_body s (some delta)).conf.p1_trains_count = 4097) ∧
    (∀ (s : Sampler) (delta : ℚ),
      s.conf.p2_trains_count = 4096 → delta > s.conf.packet_dispersion_delta_min →
      (p2_body s (some delta)).conf.p2_trains_delta 4096 = delta ∧
      (p2_body s (some delta)).conf.p2_trains_count = 4097) := by
  refine ⟨?_, ?_, ?_, ?_⟩
  · intro p1 p2 conf b d hc hr
    obtain ⟨e1, e2, e3⟩ := session_csv_read_p1 p1 p2 conf 4097 hc
    obtain ⟨s1, s2⟩ := csv_rows_stored p1.rows (conf.p1_trains_bw, conf.p1_trains_delta)
      4096 b d hr (4097 : Int).toNat (by decide)
    rw [e1, e2, e3]
    exact ⟨s1, s2, rfl⟩
  · intro K s delta hc hd
    obtain ⟨r1, _, r3⟩ := record_p1_stored s.conf delta hd
    rw [hc] at r1 r3
    exact ⟨r1, r3⟩
  · intro s delta hc hd
    obtain ⟨r1, _, r3⟩ := record_p1_stored s.conf delta hd
    rw [hc] at r1 r3
    exact ⟨r1, r3, r1, r3⟩
  · intro s delta hc hd
    obtain ⟨r1, _, r3⟩ := record_p2_stored s.conf delta hd
    rw [hc] at r1 r3
    exact ⟨r1, r3⟩

/-- C20, at a sample input: reading a CSV file whose phase 1 announces `4097` rows
`i,i` stores `4096` at index `4096` of both phase-1 buffers. -/
theorem C20_sample_stored_at_index_4096_witness :
    exCsvLong.count = some 4097 ∧ exCsvLong.rows 4096 = some ((4096 : ℚ), some (4096 : ℚ)) ∧
    (session_csv_read exCsvLong exCsvNone exSession).p1_trains_bw 4096 = 4096 ∧
    (session_csv_read exCsvLong exCsvNone exSession).p1_trains_delta 4096 = 4096 ∧
    (session_csv_read exCsvLong exCsvNone exSession).p1_trains_count = 4097 :=
  ⟨rfl, by simp [exCsvLong],
    C20_sample_stored_at_index_4096.1 exCsvLong exCsvNone exSession 4096 4096 rfl
      (by simp [exCsvLong])⟩

/-! ## Claims on the offline bin width and the phase-1 target -/

theorem session_csv_read_bin_width (p1 p2 : CsvSection) (conf : config_s) :
    (session_csv_read p1 p2 conf).bin_width = conf.bin_width ∧
    (session_csv_read p1 p2 conf).prelim_bw_mean = conf.prelim_bw_mean := by
  unfold session_csv_read
  cases p1.count <;> cases p2.count <;> exact ⟨rfl, rfl⟩

theorem p1_calculate_bin_width_eq (conf : config_s) :
    (p1_calculate_bin_width conf).bin_width =
      (if conf.prelim_bw_mean < 1 then conf.prelim_bw_mean * (1 / 4)
        else conf.prelim_bw_mean * (1 / 8)) := by
  unfold p1_calculate_bin_width
  split <;> rfl

/-- The bin width of an offline run is derived from the interquartile mean of the
phase-1 samples of the file, whatever the argument of `-b` is. -/
theorem offline_bin_width_eq (K : CalcParams) (S : SamplerParams) (L : PacketParams)
    (width : ℚ) (file : Option (CsvSection × CsvSection)) (conf : config_s) (w1 w2 : ℚ)
    (h : offline_bin_width K S L width file conf = some (w1, w2)) :
    ∃ p1 p2, file = some (p1, p2) ∧ w1 = w2 ∧
      w1 = (if K.stat_array_interquartile_mean
              (session_csv_read p1 p2 (session_init S L FsmState.INIT
                { conf with bin_width := width }).1).p1_trains_bw
              (session_csv_read p1 p2 (session_init S L FsmState.INIT
                { conf with bin_width := width }).1).p1_trains_count < 1
            then K.stat_array_interquartile_mean
              (session_csv_read p1 p2 (session_init S L FsmState.INIT
                { conf with bin_width := width }).1).p1_trains_bw
              (session_csv_read p1 p2 (session_init S L FsmState.INIT
                { conf with bin_width := width }).1).p1_trains_count * (1 / 4)
            else K.stat_array_interquartile_mean
              (session_csv_read p1 p2 (session_init S L FsmState.INIT
                { conf with bin_width := width }).1).p1_trains_bw
              (session_csv_read p1 p2 (session_init S L FsmState.INIT
                { conf with bin_width := width }).1).p1_trains_count * (1 / 8)) := by
  unfold offline_bin_width parse_cmdline_b at h
  simp only at h
  split at h
  · exact absurd h (by simp)
  · rename_i conf1 hc
    split at hc
    · exact absurd hc (by simp)
    · have e1 : conf1 = { conf with bin_width := width } := (Option.some.inj hc).symm
      subst e1
      split at h
      · exact absurd h (by simp)
      · split at h
        · exact absurd h (by simp)
        · split at h
          · exact absurd h (by simp)
          · split at h
            · exact absurd h (by simp)
            · rename_i h3 _ _
              cases file with
              | none => exact absurd (show (1 : Int) ≠ 0 by decide) h3
              | some f =>
                obtain ⟨p1, p2⟩ := f
                have h4 := Option.some.inj h
                refine ⟨p1, p2, rfl, ?_, ?_⟩
                · rw [← (Prod.mk.inj h4).1, ← (Prod.mk.inj h4).2]
                · rw [← (Prod.mk.inj h4).1, p1_calculate_bin_width_eq]
                  rfl

theorem session_init_forgets (S : SamplerParams) (L : PacketParams) (conf : config_s)
    (width : ℚ) :
    session_init S L FsmState.INIT { conf with bin_width := width } =
      session_init S L FsmState.INIT conf := by
  simp [session_init]

theorem exOffline_run (width : ℚ) (hw : width ≠ 0) :
    offline_bin_width exCalcUni exSampler exPacket width (some (exCsvShort, exCsvShort))
      exSession = some (5 / 4, 5 / 4) := by
  norm_num [offline_bin_width, parse_cmdline_b, hw, session_init, session_p1_offline,
    session_p2_offline, session_csv_read, p1_calculate_bin_width, fsm_state_set, exCsvShort,
    exCalcUni]

/-- C21 (the code at the failing input): in an offline run the bin width passed to
`calculate_mode` by both phases does not depend on the argument of `-b`; it is
`prelim_bw_mean * 0.25` or `prelim_bw_mean * 0.125` of the interquartile mean of the
phase-1 samples read from the file. With `-b 5` and a file whose interquartile mean is
`10` both phases use the bin width `1.25`. -/
theorem C21_bin_width_not_from_option_b (K : CalcParams) (S : SamplerParams)
    (L : PacketParams) (file : Option (CsvSection × CsvSection)) (conf : config_s)
    (width width2 : ℚ) :
    (width ≠ 0 → width2 ≠ 0 →
      offline_bin_width K S L width file conf = offline_bin_width K S L width2 file conf) ∧
    offline_bin_width exCalcUni exSampler exPacket 5 (some (exCsvShort, exCsvShort))
      exSession = some (5 / 4, 5 / 4) ∧
    (5 : ℚ) ≠ 5 / 4 := by
  refine ⟨fun hw hw2 => ?_, exOffline_run 5 (by norm_num), by norm_num⟩
  unfold offline_bin_width parse_cmdline_b
  simp only [if_neg hw, if_neg hw2, session_init_forgets]

theorem toInt_eq_zero (x : ℚ) (h1 : -1 < x) (h2 : x < 1) : toInt x = 0 := by
  unfold toInt
  split
  · rename_i h0
    rw [Int.floor_eq_iff]
    exact ⟨by simpa using h0, by simpa using h2⟩
  · rename_i h0
    rw [Int.ceil_eq_iff]
    constructor
    · simpa using h1
    · have : x < 0 := not_le.mp h0
      simpa using this.le

theorem p1_sampling_target (K : SamplerParams) (conf : config_s) (outcomes : List Outcome) :
    (p1_train_count_size K conf = none → p1_sampling K conf outcomes = none) ∧
    (∀ size, p1_train_count_size K conf = some size →
      p1_train_count_size_max K conf = some (size + K.P1_TRAIN_DISCARD_COUNT_MAX) ∧
      p1_sampling K conf outcomes =
        some (p1_for K (p1_packet_length_step K conf) size
          (size + K.P1_TRAIN_DISCARD_COUNT_MAX) K.TRAIN_PACKET_LENGTH_SIZES.toNat outcomes
          { conf := { conf with
              train_length := K.TRAIN_LENGTH_MIN
              train_packet_length := conf.train_packet_length_min }
            train_id := 1
            count := 0
            count_valid := 0 })) := by
  unfold p1_train_count_size_max p1_train_count_size p1_sampling p1_packet_length_step
  simp only
  constructor
  · intro h
    split at h
    · rename_i h0
      simp only [if_pos h0]
    · exact absurd h (by simp)
  · intro size h
    split at h
    · exact absurd h (by simp)
    · rename_i h0
      have := Option.some.inj h
      subst this
      simp only [if_neg h0]
      exact ⟨trivial, trivial⟩

theorem p1_train_count_size_narrow (K : SamplerParams) (conf : config_s)
    (hs : 0 < K.TRAIN_PACKET_LENGTH_SIZES)
    (h1 : -K.TRAIN_PACKET_LENGTH_SIZES <
      conf.p1_train_packet_length_max - conf.p1_train_packet_length_min)
    (h2 : conf.p1_train_packet_length_max - conf.p1_train_packet_length_min <
      K.TRAIN_PACKET_LENGTH_SIZES) :
    p1_train_count_size K conf = none := by
  have hq : (0 : ℚ) < (K.TRAIN_PACKET_LENGTH_SIZES : ℚ) := by exact_mod_cast hs
  have e : p1_packet_length_step K conf = 0 := by
    unfold p1_packet_length_step
    apply toInt_eq_zero
    · rw [lt_div_iff₀ hq]
      have : (-(K.TRAIN_PACKET_LENGTH_SIZES : ℚ)) <
          ((conf.p1_train_packet_length_max - conf.p1_train_packet_length_min : Int) : ℚ) := by
        exact_mod_cast h1
      linarith
    · rw [div_lt_iff₀ hq]
      have : ((conf.p1_train_packet_length_max - conf.p1_train_packet_length_min : Int) : ℚ) <
          (K.TRAIN_PACKET_LENGTH_SIZES : ℚ) := by
        exact_mod_cast h2
      linarith
  unfold p1_train_count_size
  rw [if_pos e]

theorem exTarget :
    p1_packet_length_step exSampler exSession = 750 ∧
    p1_train_count_size exSampler exSession = some 1 := by
  have e : p1_packet_length_step exSampler exSession = 750 := by
    norm_num [p1_packet_length_step, exSampler, exSession, exConf, toInt]
  refine ⟨e, ?_⟩
  unfold p1_train_count_size
  rw [e]
  decide

/-- C22 (the code at the failing inputs): the per-size target of phase 1 is
`1000 / p1_packet_length_step`, the quotient by the step in bytes between two packet
sizes, not by the number of sizes. It is undefined (a division by zero) whenever the
packet-length range is narrower than `TRAIN_PACKET_LENGTH_SIZES`; and with two sizes
over the range `0..1500` the step is `750` and the target `1`, not `1000 / 2 = 500`. -/
theorem C22_target_is_quotient_by_step (K : SamplerParams) (conf : config_s)
    (outcomes : List Outcome) :
    (0 < K.TRAIN_PACKET_LENGTH_SIZES →
      -K.TRAIN_PACKET_LENGTH_SIZES <
        conf.p1_train_packet_length_max - conf.p1_train_packet_length_min →
      conf.p1_train_packet_length_max - conf.p1_train_packet_length_min <
        K.TRAIN_PACKET_LENGTH_SIZES →
      p1_train_count_size K conf = none ∧ p1_sampling K conf outcomes = none) ∧
    (∀ size, p1_train_count_size K conf = some size →
      size = Int.tdiv 1000 (p1_packet_length_step K conf) ∧
      p1_train_count_size_max K conf = some (size + K.P1_TRAIN_DISCARD_COUNT_MAX)) ∧
    (p1_train_count_size exSampler exNarrow = none ∧
      p1_sampling exSampler exNarrow outcomes = none) ∧
    (p1_packet_length_step exSampler exSession = 750 ∧
      p1_train_count_size exSampler exSession = some 1 ∧
      Int.tdiv 1000 exSampler.TRAIN_PACKET_LENGTH_SIZES = 500) := by
  have hn : p1_train_count_size exSampler exNarrow = none :=
    p1_train_count_size_narrow exSampler exNarrow (by decide) (by decide) (by decide)
  refine ⟨fun hs h1 h2 => ?_, fun size h => ?_, ⟨hn, ?_⟩, exTarget.1, exTarget.2, by decide⟩
  · have e := p1_train_count_size_narrow K conf hs h1 h2
    exact ⟨e, (p1_sampling_target K conf outcomes).1 e⟩
  · refine ⟨?_, ((p1_sampling_target K conf outcomes).2 size h).1⟩
    unfold p1_train_count_size at h
    split at h
    · exact absurd h (by simp)
    · exact (Option.some.inj h).symm
  · exact (p1_sampling_target exSampler exNarrow outcomes).1 hn

/-! ## Claims on the indices written by the receiver -/

theorem recv_step_in_order (M train_id : Nat) (length : Int) (st : RecvState) (t : Int)
    (hs : st.train_sent = false) (he : st.expected_packet_id + 1 < 4294967296) :
    recv_step M train_id length st (packet_event train_id st.expected_packet_id t) =
      some { st with
        expected_packet_id := st.expected_packet_id + 1
        timestamps := Function.update st.timestamps st.expected_packet_id t } := by
  have hm : (st.expected_packet_id + 1) % 4294967296 = st.expected_packet_id + 1 :=
    Nat.mod_eq_of_lt he
  simp [recv_step, packet_event, recv_udp, recv_packet, hs, hm]

theorem receive_in_order (M train_id : Nat) (length : Int) (t : Nat → Int) :
    ∀ (n start : Nat) (st : RecvState), st.processing = true → st.train_sent = false →
      st.expected_packet_id = start → start + n < 4294967296 →
      receive_writes M train_id length (in_order_packets train_id t start n) st =
        List.range' start n ∧
      ∃ st1, receive_loop M train_id length (in_order_packets train_id t start n) st =
          RecvResult.waiting st1 ∧
        st1.expected_packet_id = start + n ∧
        (∀ k, start ≤ k → k < start + n → st1.timestamps k = t k) ∧
        (∀ k, k < start → st1.timestamps k = st.timestamps k) := by
  intro n
  induction n with
  | zero =>
    intro start st hp _ he _
    refine ⟨rfl, st, ?_, he, fun k h1 h2 => by omega, fun _ _ => rfl⟩
    simp [in_order_packets, receive_loop, hp]
  | succ n ih =>
    intro start st hp hs he hb
    have hstep := recv_step_in_order M train_id length st (t start) hs (by omega)
    rw [he] at hstep
    obtain ⟨i1, st1, i2, i3, i4, i5⟩ := ih (start + 1)
      { st with
        expected_packet_id := start + 1
        timestamps := Function.update st.timestamps start (t start) } hp hs rfl (by omega)
    constructor
    · simp only [in_order_packets, receive_writes]
      rw [if_pos hp, hstep]
      simp only
      rw [i1]
      simp [packet_event, he, List.range'_succ]
    · refine ⟨st1, ?_, by omega, ?_, ?_⟩
      · simp only [in_order_packets, receive_loop]
        rw [if_pos hp, hstep]
        exact i2
      · intro k h1 h2
        by_cases hk : k = start
        · subst hk
          rw [i5 k (by omega)]
          simp
        · exact i4 k (by omega) (by omega)
      · intro k hk
        rw [i5 k (by omega)]
        exact Function.update_noteq (by omega) _ _

/-- C27 (the code at the failing input): a daemon that sends the packets
`0 .. length` of the requested train in order before `TRAIN_SENT` is seen has all of
them accepted: the receiver writes `timestamps[0 .. length]`, the last write at the
index `length` itself, and `expected` becomes `length + 1`. -/
theorem C27_write_at_index_length (M train_id : Nat) (length : Nat) (t : Nat → Int)
    (timestamps : Nat → Int) (h : length + 1 < 4294967296) :
    receive_writes M train_id (length : Int) (in_order_packets train_id t 0 (length + 1))
        ⟨0, true, false, 0, timestamps⟩ = List.range (length + 1) ∧
    length ∈ receive_writes M train_id (length : Int)
        (in_order_packets train_id t 0 (length + 1)) ⟨0, true, false, 0, timestamps⟩ ∧
    ∃ st, receive_train M train_id (length : Int) timestamps
          (in_order_packets train_id t 0 (length + 1)) = RecvResult.waiting st ∧
      st.expected_packet_id = length + 1 ∧ (length : Int) < (st.expected_packet_id : Int) ∧
      st.timestamps length = t length := by
  obtain ⟨i1, st1, i2, i3, i4, _⟩ := receive_in_order M train_id (length : Int) t
    (length + 1) 0 ⟨0, true, false, 0, timestamps⟩ rfl rfl rfl (by omega)
  have e : List.range' 0 (length + 1) = List.range (length + 1) :=
    (List.range_eq_range' (n := length + 1)).symm
  rw [e] at i1
  refine ⟨i1, ?_, st1, i2, by omega, by omega, i4 length (by omega) (by omega)⟩
  rw [i1]
  exact List.mem_range.mpr (by omega)

/-- Witness of C27 with `length = 3`, the size `TRAIN_LENGTH_MAX` of the callers' array
`timestamps` under the sample constants: the packets `0, 1, 2, 3` lead to a write at
`timestamps[3]`. -/
theorem C27_write_at_index_length_witness :
    (3 : Nat) + 1 < 4294967296 ∧ ((3 : Nat) : Int) = exSampler.TRAIN_LENGTH_MAX ∧
    receive_writes 9 1 ((3 : Nat) : Int) (in_order_packets 1 (fun k => 10 * k) 0 (3 + 1))
        ⟨0, true, false, 0, fun _ => 0⟩ = List.range (3 + 1) ∧
    3 ∈ receive_writes 9 1 ((3 : Nat) : Int) (in_order_packets 1 (fun k => 10 * k) 0 (3 + 1))
        ⟨0, true, false, 0, fun _ => 0⟩ ∧
    ∃ st, receive_train 9 1 ((3 : Nat) : Int) (fun _ => 0)
          (in_order_packets 1 (fun k => 10 * k) 0 (3 + 1)) = RecvResult.waiting st ∧
      st.expected_packet_id = 3 + 1 ∧ ((3 : Nat) : Int) < (st.expected_packet_id : Int) ∧
      st.timestamps 3 = (fun k : Nat => (10 * k : Int)) 3 :=
  ⟨by decide, by decide,
    C27_write_at_index_length 9 1 3 (fun k => 10 * k) (fun _ => 0) (by decide)⟩

/-! ## Claims on a bin width that is not positive -/

/-- With `bin_width <= 0` every sample absorbs the bin width: rounding is monotone, so
`array[i] + bin_width` does not round to a `double` above `array[i]`. -/
theorem allAbsorbed_nonpos (a : Int → ℚ) (v : Int → Bool) (elements : Int) (bw : ℚ)
    (hbw : bw ≤ 0) : AllAbsorbed a v elements bw :=
  fun i _ _ _ => not_lt.mpr (dadd_nonpos (a i) bw hbw)

/-- With `bin_width <= 0` the central search finds no window: `count` stays `0` and
the indices stay `0`. -/
theorem central_bin_nonpos (a : Int → ℚ) (v : Int → Bool) (elements : Int) (bw : ℚ)
    (hbw : bw ≤ 0) : central_bin a v elements bw = ⟨0, 0, 0⟩ :=
  central_bin_absorbed a v elements bw (allAbsorbed_nonpos a v elements bw hbw)

/-- With `bin_width <= 0` and a noise threshold that is not negative, a call of
`calculate_mode` that sees a valid entry returns `0` with a central count of `0` and
clears the validity entry `0` only. -/
theorem calculate_mode_nonpos (P : ModeParams) (a : Int → ℚ) (v : Int → Bool)
    (elements : Int) (bw : ℚ) (mode : mode_s) (hbw : bw ≤ 0)
    (hn : 0 ≤ P.BIN_COUNT_NOISE_THRESHOLD) (hv : valid_total v elements ≠ 0) :
    ∃ r, calculate_mode P a v elements bw mode = some r ∧ r.rc = 0 ∧ r.mode.count = 0 ∧
      r.array_valid = mark_classified v 0 0 :=
  calculate_mode_empty P a v elements bw mode (central_bin_nonpos a v elements bw hbw) hn hv

theorem extract_modes_nonpos (P : ModeParams) (a : Int → ℚ) (elements : Int) (bw : ℚ)
    (hbw : bw ≤ 0) (hn : 0 ≤ P.BIN_COUNT_NOISE_THRESHOLD)
    (n : Nat) (v : Int → Bool) (mode : mode_s) (modes : List mode_s)
    (hk : ∃ k, 1 ≤ k ∧ k < elements ∧ v k = true) :
    extract_modes P a elements bw n v mode modes = none :=
  extract_modes_absorbed P a elements bw hn n v mode modes
    (allAbsorbed_nonpos a v elements bw hbw) hk

/-- C28: when `bin_width <= 0` (and the noise threshold of `common.h` is not negative),
a call of `calculate_mode` that finds a valid entry reports a central count of `0`,
returns `0` and changes no validity entry other than index `0`, leaving the bitmap
unchanged when index `0` was cleared before; consequently, if an index `>= 1` is
valid, the extraction loop of `session_p1_calculate` / `session_p2_calculate` is not
left within any number of calls: it never receives `-1`. -/
theorem C28_nonpositive_bin_width_never_ends (P : ModeParams) (a : Int → ℚ)
    (v : Int → Bool) (elements : Int) (bw : ℚ) (mode : mode_s) (hbw : bw ≤ 0)
    (hn : 0 ≤ P.BIN_COUNT_NOISE_THRESHOLD) (hv : valid_total v elements ≠ 0) :
    (∃ r, calculate_mode P a v elements bw mode = some r ∧ r.rc = 0 ∧ r.mode.count = 0 ∧
      (∀ k, k ≠ 0 → r.array_valid k = v k) ∧ (v 0 = false → r.array_valid = v)) ∧
    ((∃ k, 1 ≤ k ∧ k < elements ∧ v k = true) →
      ∀ (n : Nat) (modes : List mode_s),
        extract_modes P a elements bw n v mode modes = none) := by
  constructor
  · obtain ⟨r, hr, r1, r2, r3⟩ := calculate_mode_nonpos P a v elements bw mode hbw hn hv
    refine ⟨r, hr, r1, r2, ?_, ?_⟩
    · intro k hk
      rw [r3]
      exact (mark_classified_zero v).1 k hk
    · intro h0
      rw [r3]
      exact (mark_classified_zero v).2 h0
  · intro hk n modes
    exact extract_modes_nonpos P a elements bw hbw hn n v mode modes hk

/-- Witness of C28 on the array `0, 1` with every entry valid and `bin_width = 0`. -/
theorem C28_nonpositive_bin_width_never_ends_witness :
    (0 : ℚ) ≤ 0 ∧ 0 ≤ exParams.BIN_COUNT_NOISE_THRESHOLD ∧ valid_total exValid 2 ≠ 0 ∧
    (∃ k : Int, 1 ≤ k ∧ k < 2 ∧ exValid k = true) ∧
    (∃ r, calculate_mode exParams exArray exValid 2 0 exMode = some r ∧ r.rc = 0 ∧
      r.mode.count = 0 ∧
      (∀ k, k ≠ 0 → r.array_valid k = exValid k) ∧ (exValid 0 = false → r.array_valid = exValid)) ∧
    ((∃ k : Int, 1 ≤ k ∧ k < 2 ∧ exValid k = true) →
      ∀ (n : Nat) (modes : List mode_s),
        extract_modes exParams exArray 2 0 n exValid exMode modes = none) :=
  ⟨le_refl _, by decide, exValid_total_ne 2 (by decide), ⟨1, by decide, by decide, rfl⟩,
    C28_nonpositive_bin_width_never_ends exParams exArray exValid 2 0 exMode (le_refl _)
      (by decide) (exValid_total_ne 2 (by decide))⟩

/-! ## Claims on the fail counters -/

theorem discovery_fail_indices_climb (K : SamplerParams) (delta : ℚ) :
    ∀ (n : Nat) (s : Discovery), s.path_overload = 0 →
      s.conf.train_length + n ≤ K.TRAIN_LENGTH_MAX →
      discovery_fail_indices K (List.replicate n (some delta) ++ [none]) s =
        [s.conf.train_length + n] := by
  intro n
  induction n with
  | zero =>
    intro s h0 h1
    have hc : s.conf.train_length ≤ K.TRAIN_LENGTH_MAX ∧ s.path_overload = 0 :=
      ⟨by simpa using h1, h0⟩
    simp [discovery_fail_indices, hc]
  | succ n ih =>
    intro s h0 h1
    have hc : s.conf.train_length ≤ K.TRAIN_LENGTH_MAX ∧ s.path_overload = 0 :=
      ⟨by push_cast at h1; omega, h0⟩
    have e := ih (discovery_body K s (some delta)) h0
      (by show s.conf.train_length + 1 + (n : Int) ≤ _; push_cast at h1; omega)
    have e2 : (discovery_body K s (some delta)).conf.train_length = s.conf.train_length + 1 :=
      rfl
    rw [e2] at e
    simp only [List.replicate_succ, List.cons_append, discovery_fail_indices, if_pos hc,
      List.nil_append]
    refine Eq.trans e ?_
    push_cast
    congr 1
    omega

theorem length_scan_reads_end (K : SamplerParams) (train_fails : Int → Int)
    (hf : ∀ k, train_fails k < 3) :
    ∀ (n : Nat) (train_length : Int), train_length + n = K.TRAIN_LENGTH_MAX + 1 →
      K.TRAIN_LENGTH_MAX + 1 ∈ length_scan_reads K train_fails n train_length := by
  intro n
  induction n with
  | zero =>
    intro L h
    simp only [length_scan_reads, List.mem_singleton]
    simpa using h.symm
  | succ n ih =>
    intro L h
    unfold length_scan_reads
    rw [if_pos ⟨hf L, by push_cast at h; omega⟩]
    exact List.mem_cons_of_mem _ (ih (L + 1) (by push_cast at h; omega))

/-- C26 (the code at the failing inputs): with `TRAIN_LENGTH_MIN <= TRAIN_LENGTH_MAX`,
a discovery whose attempts succeed up to the length `TRAIN_LENGTH_MAX` and then fail
once accesses `train_fails[TRAIN_LENGTH_MAX]`; and whenever every fail counter is
below `3`, the scan that follows reads `train_fails[TRAIN_LENGTH_MAX + 1]`. Both
indices lie beyond the `TRAIN_LENGTH_MAX` entries of the array. -/
theorem C26_fail_counter_index_out_of_range (K : SamplerParams) (conf : config_s)
    (delta : ℚ) (train_fails : Int → Int)
    (h : K.TRAIN_LENGTH_MIN ≤ K.TRAIN_LENGTH_MAX) (hf : ∀ k, train_fails k < 3) :
    discovery_fail_indices K
        (List.replicate (K.TRAIN_LENGTH_MAX - K.TRAIN_LENGTH_MIN).toNat (some delta) ++ [none])
        (discovery_init K conf) = [K.TRAIN_LENGTH_MAX] ∧
    ¬ (K.TRAIN_LENGTH_MAX ≤ K.TRAIN_LENGTH_MAX - 1) ∧
    K.TRAIN_LENGTH_MAX + 1 ∈ length_scan_reads K train_fails
        (K.TRAIN_LENGTH_MAX - K.TRAIN_LENGTH_MIN).toNat (K.TRAIN_LENGTH_MIN + 1) := by
  refine ⟨?_, by omega, ?_⟩
  · have e := discovery_fail_indices_climb K delta
      (K.TRAIN_LENGTH_MAX - K.TRAIN_LENGTH_MIN).toNat (discovery_init K conf) rfl
      (by show K.TRAIN_LENGTH_MIN + _ ≤ _; rw [Int.toNat_of_nonneg (by omega)]; omega)
    rw [e]
    show [K.TRAIN_LENGTH_MIN + _] = _
    rw [Int.toNat_of_nonneg (by omega)]
    congr 1
    omega
  · apply length_scan_reads_end K train_fails hf
    rw [Int.toNat_of_nonneg (by omega)]
    omega

/-- Witness of C26 with train lengths `2..3`: after one received train the failed
attempt at length `3` accesses `train_fails[3]` of an array of three entries, and the
scan over counters that are all `0` reads `train_fails[4]`. -/
theorem C26_fail_counter_index_out_of_range_witness :
    exSampler.TRAIN_LENGTH_MIN ≤ exSampler.TRAIN_LENGTH_MAX ∧
    (∀ k : Int, (fun _ : Int => (0 : Int)) k < 3) ∧
    discovery_fail_indices exSampler
        (List.replicate (exSampler.TRAIN_LENGTH_MAX - exSampler.TRAIN_LENGTH_MIN).toNat
          (some 10) ++ [none])
        (discovery_init exSampler exSession) = [exSampler.TRAIN_LENGTH_MAX] ∧
    ¬ (exSampler.TRAIN_LENGTH_MAX ≤ exSampler.TRAIN_LENGTH_MAX - 1) ∧
    exSampler.TRAIN_LENGTH_MAX + 1 ∈ length_scan_reads exSampler (fun _ => 0)
        (exSampler.TRAIN_LENGTH_MAX - exSampler.TRAIN_LENGTH_MIN).toNat
        (exSampler.TRAIN_LENGTH_MIN + 1) :=
  ⟨by decide, fun _ => (by decide : (0 : Int) < 3),
    C26_fail_counter_index_out_of_range exSampler exSession 10 (fun _ => 0) (by decide)
      (fun _ => (by decide : (0 : Int) < 3))⟩

/-! ## Claims on the two expansions -/

theorem exFar_left_state :
    left_expand exTolerant exFar 10 3 (bell_init exTolerant exFar ⟨2, 1, 2⟩) =
      some
        { mode := ⟨2, 100, 105, 2, 100, 105, 0⟩, bell_index_lo := 1, bell_index_hi := 2,
            bin_count := 1, bin_count_tolerance := 0, bin_index_lo := 1, bin_index_hi := 1,
            lbin := ⟨0, 1, 1⟩, rbin := ⟨0, 0, 0⟩ } := by
  norm_num [left_expand, left_find, left_scan, left_inner, left_absorb, bell_init,
    exTolerant, exFar, toInt, dsub, fl64_zero, fl64_ofNat]

theorem exFar_right_find :
    right_find exFar 4 10
        (bell_reset ⟨2, 1, 2⟩
          { mode := ⟨2, 100, 105, 2, 100, 105, 0⟩, bell_index_lo := 1, bell_index_hi := 2,
            bin_count := 1, bin_count_tolerance := 0, bin_index_lo := 1, bin_index_hi := 1,
            lbin := ⟨0, 1, 1⟩, rbin := ⟨0, 0, 0⟩ }) = ⟨2, 2, 3⟩ := by
  norm_num [right_find, right_scan, right_inner, bell_reset, exFar, dadd, fl64_zero,
    fl64_ofNat]

theorem exFar_left :
    (left_expand exTolerant exFar 10 3 (bell_init exTolerant exFar ⟨2, 1, 2⟩)).map
        (fun s => (s.bin_count_tolerance, s.bell_index_lo, s.mode.count)) =
      some (0, 1, 2) := by
  rw [exFar_left_state]
  rfl

theorem exFar_right_state :
    right_expand exTolerant exFar 4 10 5
        (bell_reset ⟨2, 1, 2⟩
          { mode := ⟨2, 100, 105, 2, 100, 105, 0⟩, bell_index_lo := 1, bell_index_hi := 2,
            bin_count := 1, bin_count_tolerance := 0, bin_index_lo := 1, bin_index_hi := 1,
            lbin := ⟨0, 1, 1⟩, rbin := ⟨0, 0, 0⟩ }) =
      some
        { mode := ⟨2, 100, 105, 2, 100, 105, 0⟩
          bell_index_lo := 1
          bell_index_hi := 2
          bin_count := 2
          bin_count_tolerance := 0
          bin_index_lo := 1
          bin_index_hi := 2
          lbin := ⟨0, 1, 1⟩
          rbin := ⟨2, 2, 3⟩ } := by
  rw [right_expand, exFar_right_find]
  norm_num [bell_reset]

theorem exFar_call :
    (calculate_mode exTolerant exFar exValid 4 10 exMode).map
        (fun r => (r.rc, r.mode_index_lo, r.mode_index_hi, r.bell_index_lo, r.bell_index_hi)) =
      some (1, 1, 2, 1, 2) := by
  rw [calculate_mode_stages exTolerant exFar exValid 4 10 exMode _ _ _
    (exValid_total_ne 4 (by norm_num)) exFar_central exFar_left_state exFar_right_state]
  norm_num [exTolerant]

theorem exNear_central : central_bin exNear exValid 3 10 = ⟨2, 0, 1⟩ := by
  have e0 : central_step exNear exValid 3 10 ⟨0, 0, 0⟩ 0 = ⟨2, 0, 1⟩ := by
    norm_num [central_step, central_scan, exNear, exValid, dadd, fl64_ofNat]
  have e1 : central_step exNear exValid 3 10 ⟨2, 0, 1⟩ 1 = ⟨2, 0, 1⟩ := by
    norm_num [central_step, central_scan, exNear, exValid, dadd, fl64_ofNat]
  have e2 : central_step exNear exValid 3 10 ⟨2, 0, 1⟩ 2 = ⟨2, 0, 1⟩ := by
    norm_num [central_step, central_scan, exNear, exValid, dadd, fl64_ofNat]
  rw [(central_bin_steps exNear exValid 10).2.1, e0, e1, e2]

theorem exNear_left :
    left_expand exTolerant exNear 10 2 (bell_init exTolerant exNear ⟨2, 0, 1⟩) =
      some
        { mode := ⟨2, 100, 105, 2, 100, 105, 0⟩
          bell_index_lo := 0
          bell_index_hi := 1
          bin_count := 2
          bin_count_tolerance := 1
          bin_index_lo := 0
          bin_index_hi := 1
          lbin := ⟨0, 0, 0⟩
          rbin := ⟨0, 0, 0⟩ } := by
  norm_num [left_expand, left_find, bell_init, exTolerant, exNear, toInt]

theorem exNear_right :
    right_expand exTolerant exNear 3 10 4
        (bell_reset ⟨2, 0, 1⟩
          { mode := ⟨2, 100, 105, 2, 100, 105, 0⟩
            bell_index_lo := 0
            bell_index_hi := 1
            bin_count := 2
            bin_count_tolerance := 1
            bin_index_lo := 0
            bin_index_hi := 1
            lbin := ⟨0, 0, 0⟩
            rbin := ⟨0, 0, 0⟩ }) =
      some
        { mode := ⟨2, 100, 105, 3, 100, 112, 0⟩
          bell_index_lo := 0
          bell_index_hi := 2
          bin_count := 1
          bin_count_tolerance := 0
          bin_index_lo := 2
          bin_index_hi := 2
          lbin := ⟨0, 0, 0⟩
          rbin := ⟨0, 2, 2⟩ } := by
  norm_num [right_expand, right_find, right_scan, right_inner, right_absorb, bell_reset,
    exTolerant, exNear, toInt, dadd, fl64_ofNat]

theorem exNear_call :
    (calculate_mode exTolerant exNear exValid 3 10 exMode).map
        (fun r => (r.rc, r.mode_index_lo, r.mode_index_hi, r.bell_index_lo, r.bell_index_hi)) =
      some (1, 0, 1, 0, 2) := by
  rw [calculate_mode_stages exTolerant exNear exValid 3 10 exMode _ _ _
    (exValid_total_ne 3 (by norm_num)) exNear_central exNear_left exNear_right]
  norm_num [exTolerant]

theorem exFar_right :
    (left_expand exTolerant exFar 10 3 (bell_init exTolerant exFar ⟨2, 1, 2⟩)).map
        (fun s => (right_find exFar 4 10 (bell_reset ⟨2, 1, 2⟩ s)).count) = some 2 := by
  rw [exFar_left_state, Option.map_some', exFar_right_find]

theorem right_expand_first (P : ModeParams) (a : Int → ℚ) (elements : Int) (bw : ℚ)
    (c : Central) (s1 : Bell) (n : Nat) :
    right_expand P a elements bw (n + 1) (bell_reset c s1) =
      if 0 < (right_find a elements bw (bell_reset c s1)).count ∧
          (right_find a elements bw (bell_reset c s1)).count <
            s1.mode.count + s1.bin_count_tolerance then
        right_expand P a elements bw n
          (right_absorb P a (bell_reset c s1) (right_find a elements bw (bell_reset c s1)))
      else some { bell_reset c s1 with rbin := right_find a elements bw (bell_reset c s1) } := by
  have e1 : (bell_reset c s1).bin_count = s1.mode.count := rfl
  have e2 : (bell_reset c s1).bin_count_tolerance = s1.bin_count_tolerance := rfl
  rw [right_expand, e1, e2]
  by_cases h1 : (right_find a elements bw (bell_reset c s1)).count > 0
  · by_cases h2 : (right_find a elements bw (bell_reset c s1)).count <
        s1.mode.count + s1.bin_count_tolerance
    · rw [if_pos h1, if_pos h2, if_pos ⟨h1, h2⟩]
    · rw [if_pos h1, if_neg h2, if_neg (fun h => h2 h.2)]
      rfl
  · rw [if_neg h1, if_neg (fun h => h1 h.1)]
    rfl

/-- C24 (the code at the failing input): the first step of the right expansion tests
the right window against `central_count + bin_count_tolerance` with the tolerance the
left expansion left behind, `bin_count_tolerance` not being reset at lines 1892-1895.
On the array `0, 100, 105, 112` with `bin_width = 10` and `BIN_COUNT_TOLERANCE = 1/2`
the central bin is `[1..2]` with count `2` and tolerance `1`; the left expansion ends
with the tolerance `0`; the right window has count `2 < 2 + 1`, yet it is not absorbed
and the bell ends at index `2`. Without the sample `0` to the left (array
`100, 105, 112`) the same right window is absorbed. -/
theorem C24_right_tolerance_left_over (P : ModeParams) (a : Int → ℚ) (elements : Int)
    (bw : ℚ) (c : Central) (s1 : Bell) (n : Nat) :
    (right_expand P a elements bw (n + 1) (bell_reset c s1) =
      if 0 < (right_find a elements bw (bell_reset c s1)).count ∧
          (right_find a elements bw (bell_reset c s1)).count <
            s1.mode.count + s1.bin_count_tolerance then
        right_expand P a elements bw n
          (right_absorb P a (bell_reset c s1) (right_find a elements bw (bell_reset c s1)))
      else some { bell_reset c s1 with rbin := right_find a elements bw (bell_reset c s1) }) ∧
    central_bin exFar exValid 4 10 = ⟨2, 1, 2⟩ ∧
    toInt (exTolerant.BIN_COUNT_TOLERANCE * ((2 : Int) : ℚ)) = 1 ∧
    (left_expand exTolerant exFar 10 3 (bell_init exTolerant exFar ⟨2, 1, 2⟩)).map
        (fun s => (s.bin_count_tolerance, s.bell_index_lo, s.mode.count)) = some (0, 1, 2) ∧
    (left_expand exTolerant exFar 10 3 (bell_init exTolerant exFar ⟨2, 1, 2⟩)).map
        (fun s => (right_find exFar 4 10 (bell_reset ⟨2, 1, 2⟩ s)).count) = some 2 ∧
    (calculate_mode exTolerant exFar exValid 4 10 exMode).map
        (fun r => (r.rc, r.mode_index_lo, r.mode_index_hi, r.bell_index_lo, r.bell_index_hi)) =
      some (1, 1, 2, 1, 2) ∧
    (calculate_mode exTolerant exNear exValid 3 10 exMode).map
        (fun r => (r.rc, r.mode_index_lo, r.mode_index_hi, r.bell_index_lo, r.bell_index_hi)) =
      some (1, 0, 1, 0, 2) := by
  refine ⟨right_expand_first P a elements bw c s1 n, exFar_central, ?_, exFar_left,
    exFar_right, exFar_call, exNear_call⟩
  norm_num [exTolerant, toInt]

theorem exTie_sorted : SortedUpTo exTie 4 := by
  intro i j h0 hij _
  unfold exTie
  by_cases hi : i = 0
  · rw [if_pos hi]
    split <;> norm_num
  · rw [if_neg hi, if_neg (by omega)]

theorem exClose_sorted : SortedUpTo exClose 3 := by
  intro i j h0 hij _
  unfold exClose
  by_cases hi : i = 0
  · rw [if_pos hi]
    split_ifs <;> norm_num
  · rw [if_neg hi, if_neg (by omega : ¬ j = 0)]
    by_cases h1 : i = 1
    · rw [if_pos h1]
      split_ifs <;> norm_num
    · rw [if_neg h1, if_neg (by omega)]

/-- Roundings to `double` at multiples of `1/4`, which are `double`s. -/
theorem fl64_quarters :
    fl64 (1 / 4) = 1 / 4 ∧ fl64 (1 / 2) = 1 / 2 ∧ fl64 (5 / 4) = 5 / 4 ∧
    fl64 (3 / 2) = 3 / 2 ∧ fl64 (-(3 / 4)) = -(3 / 4) ∧ fl64 (-(1 / 2)) = -(1 / 2) := by
  refine ⟨?_, ?_, ?_, ?_, ?_, ?_⟩
  · exact fl64_repr _ 1 (-2) (by norm_num) (by norm_num) (by norm_num)
  · exact fl64_repr _ 1 (-1) (by norm_num) (by norm_num) (by norm_num)
  · exact fl64_repr _ 5 (-2) (by norm_num) (by norm_num) (by norm_num)
  · exact fl64_repr _ 3 (-1) (by norm_num) (by norm_num) (by norm_num)
  · exact fl64_repr _ (-3) (-2) (by norm_num) (by norm_num) (by norm_num)
  · exact fl64_repr _ (-1) (-1) (by norm_num) (by norm_num) (by norm_num)

theorem exTie_central : central_bin exTie exValid 4 1 = ⟨3, 1, 3⟩ := by
  have e0 : central_step exTie exValid 4 1 ⟨0, 0, 0⟩ 0 = ⟨1, 0, 0⟩ := by
    norm_num [central_step, central_scan, exTie, exValid, dadd, fl64_zero, fl64_one,
      fl64_ofNat]
  have e1 : central_step exTie exValid 4 1 ⟨1, 0, 0⟩ 1 = ⟨3, 1, 3⟩ := by
    norm_num [central_step, central_scan, exTie, exValid, dadd, fl64_zero, fl64_one,
      fl64_ofNat]
  have e2 : central_step exTie exValid 4 1 ⟨3, 1, 3⟩ 2 = ⟨3, 1, 3⟩ := by
    norm_num [central_step, central_scan, exTie, exValid, dadd, fl64_zero, fl64_one,
      fl64_ofNat]
  have e3 : central_step exTie exValid 4 1 ⟨3, 1, 3⟩ 3 = ⟨3, 1, 3⟩ := by
    norm_num [central_step, central_scan, exTie, exValid, dadd, fl64_zero, fl64_one,
      fl64_ofNat]
  rw [(central_bin_steps exTie exValid 1).2.2, e0, e1, e2, e3]

theorem exTie_left :
    left_find exTie 1 (bell_init exParams exTie ⟨3, 1, 3⟩) = ⟨2, 1, 2⟩ := by
  norm_num [left_find, left_scan, left_inner, bell_init, exTie, dsub, fl64_zero, fl64_one]

theorem exClose_central : central_bin exClose exValidTail 3 1 = ⟨2, 1, 2⟩ := by
  have e0 : central_step exClose exValidTail 3 1 ⟨0, 0, 0⟩ 0 = ⟨0, 0, 0⟩ := by
    norm_num [central_step, exValidTail]
  have e1 : central_step exClose exValidTail 3 1 ⟨0, 0, 0⟩ 1 = ⟨2, 1, 2⟩ := by
    norm_num [central_step, central_scan, exClose, exValidTail, dadd, fl64_one,
      fl64_quarters.1, fl64_quarters.2.1, fl64_quarters.2.2.1, fl64_quarters.2.2.2.1]
  have e2 : central_step exClose exValidTail 3 1 ⟨2, 1, 2⟩ 2 = ⟨2, 1, 2⟩ := by
    norm_num [central_step, central_scan, exClose, exValidTail, dadd, fl64_one,
      fl64_quarters.1, fl64_quarters.2.1, fl64_quarters.2.2.1, fl64_quarters.2.2.2.1]
  rw [(central_bin_steps exClose exValidTail 1).2.1, e0, e1, e2]

theorem exClose_left :
    left_find exClose 1 (bell_init exParams exClose ⟨2, 1, 2⟩) = ⟨1, 1, 1⟩ := by
  norm_num [left_find, left_scan, left_inner, bell_init, exClose, dsub, fl64_one,
    fl64_quarters.1, fl64_quarters.2.1, fl64_quarters.2.2.2.2.1, fl64_quarters.2.2.2.2.2]

/-- C23 (the code at the failing inputs): the inner loop of the left search runs
`for (j=i; j>0; j--)` and never looks at index `0`, so the window it chooses starts at
an index `>= 1`. On the sorted array `0, 1, 1, 1` with `bin_width = 1` the central bin
is `[1..3]` and the left step chooses `[1..2]` with count `2`, although `[0..2]`, with
its right endpoint in `[bin_index_lo, bin_index_hi - 1]` and
`array[2] - array[0] <= bin_width`, has count `3`. On `0, 1/4, 1/2` with index `0`
classified before, the step chooses `[1..1]` with count `1` although `[0..1]` spans
`1/4` and has count `2`. -/
theorem C23_left_window_skips_index_zero :
    (∀ (a : Int → ℚ) (elements : Int) (bw : ℚ) (s : Bell),
      SortedUpTo a elements → s.bin_index_hi < elements →
      (s.bin_index_lo < s.bin_index_hi → a s.bin_index_hi - bw < a s.bin_index_lo) →
      0 < (left_find a bw s).count → 1 ≤ (left_find a bw s).index_lo) ∧
    (SortedUpTo exTie 4 ∧ central_bin exTie exValid 4 1 = ⟨3, 1, 3⟩ ∧
      left_find exTie 1 (bell_init exParams exTie ⟨3, 1, 3⟩) = ⟨2, 1, 2⟩ ∧
      IsLeftWindowLe exTie 1 1 3 0 2 ∧ (2 : Int) < 2 - 0 + 1) ∧
    (SortedUpTo exClose 3 ∧ central_bin exClose exValidTail 3 1 = ⟨2, 1, 2⟩ ∧
      left_find exClose 1 (bell_init exParams exClose ⟨2, 1, 2⟩) = ⟨1, 1, 1⟩ ∧
      IsLeftWindowLe exClose 1 1 2 0 1 ∧ exClose 1 - exClose 0 < 1 ∧
      (1 : Int) < 1 - 0 + 1) := by
  refine ⟨fun a _ bw s _ _ _ hpos =>
      (left_find_range a bw s hpos).2.1,
    ⟨exTie_sorted, exTie_central, exTie_left, ?_, by decide⟩,
    ⟨exClose_sorted, exClose_central, exClose_left, ?_, ?_, by decide⟩⟩
  · unfold IsLeftWindowLe
    norm_num [exTie]
  · unfold IsLeftWindowLe
    norm_num [exClose]
  · norm_num [exClose]

/-! ## Termination of the train-length discovery -/

theorem fails_slack_update (K : SamplerParams) (train_fails : Int → Int) (L : Int)
    (h1 : K.TRAIN_LENGTH_MIN ≤ L) (h2 : L ≤ K.TRAIN_LENGTH_MAX) :
    fails_slack K (Function.update train_fails L (train_fails L + 1)) =
      fails_slack K train_fails - 1 := by
  unfold fails_slack
  have hm : L ∈ Finset.Icc K.TRAIN_LENGTH_MIN K.TRAIN_LENGTH_MAX := Finset.mem_Icc.mpr ⟨h1, h2⟩
  have e : (fun x => 5 - Function.update train_fails L (train_fails L + 1) x) =
      Function.update (fun x => 5 - train_fails x) L (5 - (train_fails L + 1)) := by
    funext x
    by_cases hx : x = L
    · subst hx
      simp
    · simp [Function.update_noteq hx]
  rw [e, Finset.sum_update_of_mem hm, Finset.sum_eq_sum_diff_singleton_add hm
    (fun x => 5 - train_fails x)]
  ring

theorem fails_slack_nonneg (K : SamplerParams) (train_fails : Int → Int)
    (h : ∀ x, train_fails x ≤ 5) : 0 ≤ fails_slack K train_fails := by
  unfold fails_slack
  apply Finset.sum_nonneg
  intro x _
  have := h x
  omega

theorem fails_slack_ge (K : SamplerParams) (train_fails : Int → Int)
    (h : ∀ x, train_fails x ≤ 4) : (length_count K : Int) ≤ fails_slack K train_fails := by
  unfold fails_slack length_count
  have hc : ((Finset.Icc K.TRAIN_LENGTH_MIN K.TRAIN_LENGTH_MAX).card : Int) =
      ((K.TRAIN_LENGTH_MAX + 1 - K.TRAIN_LENGTH_MIN).toNat : Int) := by
    rw [Int.card_Icc]
  rw [← hc]
  have : ∑ _x ∈ Finset.Icc K.TRAIN_LENGTH_MIN K.TRAIN_LENGTH_MAX, (1 : Int) ≤
      ∑ x ∈ Finset.Icc K.TRAIN_LENGTH_MIN K.TRAIN_LENGTH_MAX, (5 - train_fails x) := by
    apply Finset.sum_le_sum
    intro x _
    have := h x
    omega
  simpa using this

theorem fails_slack_init (K : SamplerParams) :
    fails_slack K (fun _ => 0) = 5 * (length_count K : Int) := by
  unfold fails_slack length_count
  simp [Int.card_Icc, mul_comm]

/-- The effect of one pass of the discovery loop on the measure and the invariant. -/
theorem discovery_body_measure (K : SamplerParams) (s : Discovery) (o : Outcome)
    (hi : DiscoveryInv K s) (h1 : s.conf.train_length ≤ K.TRAIN_LENGTH_MAX)
    (h0 : s.path_overload = 0) :
    DiscoveryInv K (discovery_body K s o) ∧
    2 * fails_slack K (discovery_body K s o).train_fails +
        (K.TRAIN_LENGTH_MAX + 1 - (discovery_body K s o).conf.train_length) + 1 ≤
      2 * fails_slack K s.train_fails + (K.TRAIN_LENGTH_MAX + 1 - s.conf.train_length) ∧
    fails_slack K (discovery_body K s o).train_fails +
        (match o with
          | none => 1
          | some _ => 0) = fails_slack K s.train_fails ∧
    ((discovery_body K s o).path_overload = 0 ∨
      ((discovery_body K s o).path_overload = 1 ∧ o = none)) := by
  obtain ⟨i1, i2, i3⟩ := hi
  have i4 := i3 h0
  cases o with
  | some delta =>
    have e1 : (discovery_body K s (some delta)).train_fails = s.train_fails := rfl
    have e2 : (discovery_body K s (some delta)).conf.train_length = s.conf.train_length + 1 :=
      rfl
    have e3 : (discovery_body K s (some delta)).path_overload = s.path_overload := rfl
    rw [e1, e2, e3]
    refine ⟨⟨by omega, i2, i3⟩, by omega, by simp, Or.inl h0⟩
  | none =>
    have hu := fails_slack_update K s.train_fails s.conf.train_length i1 h1
    have hf : ∀ x, Function.update s.train_fails s.conf.train_length
        (s.train_fails s.conf.train_length + 1) x ≤ 5 := by
      intro x
      by_cases hx : x = s.conf.train_length
      · subst hx
        rw [Function.update_same]
        have := i4 s.conf.train_length
        omega
      · rw [Function.update_noteq hx]
        exact i2 x
    have hsame : Function.update s.train_fails s.conf.train_length
        (s.train_fails s.conf.train_length + 1) s.conf.train_length =
        s.train_fails s.conf.train_length + 1 := Function.update_same _ _ _
    simp only [discovery_body, hsame]
    by_cases c1 : s.train_fails s.conf.train_length + 1 > 4
    · rw [if_pos c1]
      refine ⟨⟨i1, hf, fun h => absurd h (by show ¬ ((1 : Int) = 0); decide)⟩, ?_, ?_,
        by simp⟩
      · show 2 * fails_slack K (Function.update s.train_fails s.conf.train_length
          (s.train_fails s.conf.train_length + 1)) +
          (K.TRAIN_LENGTH_MAX + 1 - s.conf.train_length) + 1 ≤ _
        rw [hu]
        omega
      · show fails_slack K (Function.update s.train_fails s.conf.train_length
          (s.train_fails s.conf.train_length + 1)) + 1 = _
        rw [hu]
        omega
    · rw [if_neg c1]
      have hf4 : ∀ x, Function.update s.train_fails s.conf.train_length
          (s.train_fails s.conf.train_length + 1) x ≤ 4 := by
        intro x
        by_cases hx : x = s.conf.train_length
        · subst hx
          rw [Function.update_same]
          omega
        · rw [Function.update_noteq hx]
          exact i4 x
      by_cases c2 : s.train_fails s.conf.train_length + 1 > 1
      · rw [if_pos c2]
        refine ⟨⟨?_, hf, fun _ => hf4⟩, ?_, ?_, Or.inl h0⟩
        · show K.TRAIN_LENGTH_MIN ≤ s.conf.train_length -
            (if s.conf.train_length - 1 < K.TRAIN_LENGTH_MIN then 0 else 1)
          split <;> omega
        · show 2 * fails_slack K (Function.update s.train_fails s.conf.train_length
            (s.train_fails s.conf.train_length + 1)) +
            (K.TRAIN_LENGTH_MAX + 1 - (s.conf.train_length -
              (if s.conf.train_length - 1 < K.TRAIN_LENGTH_MIN then 0 else 1))) + 1 ≤ _
          rw [hu]
          split <;> omega
        · show fails_slack K (Function.update s.train_fails s.conf.train_length
            (s.train_fails s.conf.train_length + 1)) + 1 = _
          rw [hu]
          omega
      · rw [if_neg c2]
        refine ⟨⟨i1, hf, fun _ => hf4⟩, ?_, ?_, Or.inl h0⟩
        · show 2 * fails_slack K (Function.update s.train_fails s.conf.train_length
            (s.train_fails s.conf.train_length + 1)) +
            (K.TRAIN_LENGTH_MAX + 1 - s.conf.train_length) + 1 ≤ _
          rw [hu]
          omega
        · show fails_slack K (Function.update s.train_fails s.conf.train_length
            (s.train_fails s.conf.train_length + 1)) + 1 = _
          rw [hu]
          omega

/-- The discovery loop keeps its invariant, and a loop that is left is left with
`path_overload` set or with a length above `TRAIN_LENGTH_MAX`. -/
theorem discovery_loop_inv (K : SamplerParams) :
    ∀ (outcomes : List Outcome) (s : Discovery), DiscoveryInv K s →
      DiscoveryInv K (discovery_loop K outcomes s).1 ∧
      ((discovery_loop K outcomes s).2 = true →
        (discovery_loop K outcomes s).1.path_overload ≠ 0 ∨
        (discovery_loop K outcomes s).1.conf.train_length > K.TRAIN_LENGTH_MAX) := by
  intro outcomes
  induction outcomes with
  | nil =>
    intro s hi
    simp only [discovery_loop]
    split
    · exact ⟨hi, fun h => absurd h (by simp)⟩
    · rename_i hc
      refine ⟨hi, fun _ => ?_⟩
      by_cases h0 : s.path_overload = 0
      · right
        show s.conf.train_length > K.TRAIN_LENGTH_MAX
        by_contra hle
        exact hc ⟨by omega, h0⟩
      · left
        exact h0
  | cons o rest ih =>
    intro s hi
    simp only [discovery_loop]
    split
    · rename_i hc
      exact ih _ (discovery_body_measure K s o hi hc.1 hc.2).1
    · rename_i hc
      refine ⟨hi, fun _ => ?_⟩
      by_cases h0 : s.path_overload = 0
      · right
        show s.conf.train_length > K.TRAIN_LENGTH_MAX
        by_contra hle
        exact hc ⟨by omega, h0⟩
      · left
        exact h0

/-- The discovery loop is left within as many attempts as its measure says. -/
theorem discovery_loop_ends (K : SamplerParams) :
    ∀ (outcomes : List Outcome) (s : Discovery), DiscoveryInv K s →
      2 * fails_slack K s.train_fails + (K.TRAIN_LENGTH_MAX + 1 - s.conf.train_length) ≤
        (outcomes.length : Int) →
      (discovery_loop K outcomes s).2 = true := by
  intro outcomes
  induction outcomes with
  | nil =>
    intro s hi hm
    simp only [discovery_loop]
    split
    · rename_i hc
      have := fails_slack_nonneg K s.train_fails hi.2.1
      simp only [List.length_nil, Nat.cast_zero] at hm
      omega
    · rfl
  | cons o rest ih =>
    intro s hi hm
    simp only [discovery_loop]
    split
    · rename_i hc
      obtain ⟨b1, b2, _, _⟩ := discovery_body_measure K s o hi hc.1 hc.2
      apply ih _ b1
      simp only [List.length_cons, Nat.cast_add, Nat.cast_one] at hm
      omega
    · rfl

/-- The failed attempts of the discovery loop are paid for by the measure, which
keeps one unit less than the number of lengths. -/
theorem discovery_failed_le (K : SamplerParams) :
    ∀ (outcomes : List Outcome) (s : Discovery), DiscoveryInv K s → s.path_overload = 0 →
      (discovery_failed K outcomes s : Int) + (length_count K : Int) ≤
        fails_slack K s.train_fails + 1 := by
  intro outcomes
  induction outcomes with
  | nil =>
    intro s hi h0
    have := fails_slack_ge K s.train_fails (hi.2.2 h0)
    simp only [discovery_failed, Nat.cast_zero]
    omega
  | cons o rest ih =>
    intro s hi h0
    have hge := fails_slack_ge K s.train_fails (hi.2.2 h0)
    simp only [discovery_failed]
    split
    · rename_i hc
      obtain ⟨b1, _, b3, b4⟩ := discovery_body_measure K s o hi hc.1 hc.2
      rcases b4 with b4 | ⟨b4, b5⟩
      · have := ih _ b1 b4
        cases o with
        | none =>
          simp only at b3
          push_cast
          omega
        | some delta =>
          simp only at b3
          push_cast
          omega
      · subst b5
        have hstop : discovery_failed K rest (discovery_body K s none) = 0 := by
          have hc2 : ¬ ((discovery_body K s none).conf.train_length ≤ K.TRAIN_LENGTH_MAX ∧
              (discovery_body K s none).path_overload = 0) := by
            rw [b4]
            rintro ⟨_, h⟩
            exact absurd h (by decide)
          cases rest with
          | nil => rfl
          | cons o2 tl => simp only [discovery_failed, if_neg hc2]
        rw [hstop]
        push_cast
        omega
    · simp only [Nat.cast_zero]
      omega

theorem discovery_init_inv (K : SamplerParams) (conf : config_s) :
    DiscoveryInv K (discovery_init K conf) :=
  ⟨le_refl _, fun _ => by show (0 : Int) ≤ 5; decide, fun _ _ => by show (0 : Int) ≤ 4; decide⟩

/-! ## The discovery loop and the bounds of `train_fails` -/

/-- A pass of the checked body that stays inside the array is the pass of
`discovery_body`; a failed attempt stays inside the array exactly when
`0 <= train_length < TRAIN_LENGTH_MAX`. -/
theorem discovery_body_checked_cases (K : SamplerParams) (s : Discovery) :
    (∀ delta, discovery_body_checked K s (some delta) =
      some (discovery_body K s (some delta))) ∧
    (0 ≤ s.conf.train_length ∧ s.conf.train_length < K.TRAIN_LENGTH_MAX →
      discovery_body_checked K s none = some (discovery_body K s none)) ∧
    (¬ (0 ≤ s.conf.train_length ∧ s.conf.train_length < K.TRAIN_LENGTH_MAX) →
      discovery_body_checked K s none = none) ∧
    (∀ o s1, discovery_body_checked K s o = some s1 → s1 = discovery_body K s o) := by
  refine ⟨fun _ => rfl, fun h => ?_, fun h => ?_, ?_⟩
  · simp only [discovery_body_checked, if_pos h]
  · simp only [discovery_body_checked, if_neg h]
  · intro o s1 h
    cases o with
    | none =>
      simp only [discovery_body_checked] at h
      split at h
      · exact (Option.some.inj h).symm
      · exact absurd h (by simp)
    | some delta => exact (Option.some.inj h).symm

/-- A run of the checked loop that stays inside the array is the run of
`discovery_loop`. -/
theorem discovery_loop_checked_some (K : SamplerParams) :
    ∀ (outcomes : List Outcome) (s : Discovery) (r : Discovery × Bool),
      discovery_loop_checked K outcomes s = some r → r = discovery_loop K outcomes s := by
  intro outcomes
  induction outcomes with
  | nil =>
    intro s r h
    simp only [discovery_loop_checked] at h
    simp only [discovery_loop]
    split at h <;> rename_i hc
    · rw [if_pos hc]; exact (Option.some.inj h).symm
    · rw [if_neg hc]; exact (Option.some.inj h).symm
  | cons o rest ih =>
    intro s r h
    simp only [discovery_loop_checked] at h
    simp only [discovery_loop]
    by_cases hc : s.conf.train_length ≤ K.TRAIN_LENGTH_MAX ∧ s.path_overload = 0
    · rw [if_pos hc] at h
      rw [if_pos hc]
      cases hb : discovery_body_checked K s o with
      | none =>
        rw [hb] at h
        exact absurd h (by simp)
      | some s1 =>
        rw [hb] at h
        have e := (discovery_body_checked_cases K s).2.2.2 o s1 hb
        rw [← e]
        exact ih s1 r h
    · rw [if_neg hc] at h
      rw [if_neg hc]
      exact (Option.some.inj h).symm

/-- The checked loop stays inside the array exactly when every index at which the loop
accesses `train_fails` lies in `0 .. TRAIN_LENGTH_MAX - 1`. -/
theorem discovery_loop_checked_iff (K : SamplerParams) :
    ∀ (outcomes : List Outcome) (s : Discovery),
      (discovery_loop_checked K outcomes s = some (discovery_loop K outcomes s) ↔
        ∀ i, i ∈ discovery_fail_indices K outcomes s → 0 ≤ i ∧ i < K.TRAIN_LENGTH_MAX) ∧
      (discovery_loop_checked K outcomes s = none ↔
        ∃ i, i ∈ discovery_fail_indices K outcomes s ∧ ¬ (0 ≤ i ∧ i < K.TRAIN_LENGTH_MAX)) := by
  intro outcomes
  induction outcomes with
  | nil =>
    intro s
    simp only [discovery_loop_checked, discovery_loop, discovery_fail_indices]
    constructor
    · constructor
      · intro _ i hi
        simp at hi
      · intro _
        split <;> rfl
    · constructor
      · intro h
        split at h <;> simp at h
      · rintro ⟨i, hi, _⟩
        simp at hi
  | cons o rest ih =>
    intro s
    simp only [discovery_loop_checked, discovery_loop, discovery_fail_indices]
    by_cases hc : s.conf.train_length ≤ K.TRAIN_LENGTH_MAX ∧ s.path_overload = 0
    · simp only [if_pos hc]
      cases o with
      | some delta =>
        rw [(discovery_body_checked_cases K s).1 delta]
        simpa using ih (discovery_body K s (some delta))
      | none =>
        by_cases hb : 0 ≤ s.conf.train_length ∧ s.conf.train_length < K.TRAIN_LENGTH_MAX
        · rw [(discovery_body_checked_cases K s).2.1 hb]
          obtain ⟨i1, i2⟩ := ih (discovery_body K s none)
          constructor
          · rw [i1]
            constructor
            · intro h i hi
              simp only [List.singleton_append, List.mem_cons] at hi
              rcases hi with rfl | hi
              · exact hb
              · exact h i hi
            · intro h i hi
              exact h i (by simp [hi])
          · rw [i2]
            constructor
            · rintro ⟨i, hi, hn⟩
              exact ⟨i, by simp [hi], hn⟩
            · rintro ⟨i, hi, hn⟩
              simp only [List.singleton_append, List.mem_cons] at hi
              rcases hi with rfl | hi
              · exact absurd hb hn
              · exact ⟨i, hi, hn⟩
        · rw [(discovery_body_checked_cases K s).2.2.1 hb]
          constructor
          · constructor
            · intro h
              exact absurd h (by simp)
            · intro h
              exact absurd (h s.conf.train_length (by simp)) hb
          · constructor
            · intro _
              exact ⟨s.conf.train_length, by simp, hb⟩
            · intro _
              rfl
    · simp only [if_neg hc]
      constructor
      · constructor
        · intro _ i hi
          simp at hi
        · intro _
          trivial
      · constructor
        · intro h
          exact absurd h (by simp)
        · rintro ⟨i, hi, _⟩
          simp at hi

theorem first_outcomes_succ (f : Nat → Outcome) (m : Nat) :
    first_outcomes f (m + 1) = f 0 :: first_outcomes (fun i => f (i + 1)) m := by
  unfold first_outcomes
  rw [List.range_succ_eq_map, List.map_cons, List.map_map]
  rfl

/-- A discovery whose attempts succeed up to the length `TRAIN_LENGTH_MAX` and then
fail once leaves the array `train_fails`. -/
theorem discovery_checked_climb (K : SamplerParams) :
    ∀ (n m : Nat) (f : Nat → Outcome) (s : Discovery), s.path_overload = 0 →
      s.conf.train_length + n = K.TRAIN_LENGTH_MAX → (∀ i, i < n → f i ≠ none) →
      f n = none → n < m → discovery_loop_checked K (first_outcomes f m) s = none := by
  intro n
  induction n with
  | zero =>
    intro m f s h0 h1 _ hf hm
    obtain ⟨m1, rfl⟩ : ∃ m1, m = m1 + 1 := ⟨m - 1, by omega⟩
    have hc : s.conf.train_length ≤ K.TRAIN_LENGTH_MAX ∧ s.path_overload = 0 :=
      ⟨by simp at h1; omega, h0⟩
    rw [first_outcomes_succ, hf]
    simp only [discovery_loop_checked, if_pos hc]
    rw [(discovery_body_checked_cases K s).2.2.1 (by simp at h1; omega)]
  | succ n ih =>
    intro m f s h0 h1 hs hf hm
    obtain ⟨m1, rfl⟩ : ∃ m1, m = m1 + 1 := ⟨m - 1, by omega⟩
    have hc : s.conf.train_length ≤ K.TRAIN_LENGTH_MAX ∧ s.path_overload = 0 :=
      ⟨by push_cast at h1; omega, h0⟩
    rw [first_outcomes_succ]
    cases h : f 0 with
    | none => exact absurd h (hs 0 (by omega))
    | some delta =>
      simp only [discovery_loop_checked, if_pos hc, (discovery_body_checked_cases K s).1 delta]
      apply ih m1 (fun i => f (i + 1)) (discovery_body K s (some delta)) h0
      · show s.conf.train_length + 1 + (n : Int) = _
        push_cast at h1
        omega
      · intro i hi
        exact hs (i + 1) (by omega)
      · exact hf
      · omega

theorem discovery_loop_checked_overload (K : SamplerParams) (rest : List Outcome)
    (s : Discovery) (h : s.path_overload = 1) :
    discovery_loop_checked K rest s = some (s, true) := by
  have hc : ¬ (s.conf.train_length ≤ K.TRAIN_LENGTH_MAX ∧ s.path_overload = 0) := by
    rw [h]
    rintro ⟨_, h0⟩
    exact absurd h0 (by norm_num)
  cases rest with
  | nil => simp only [discovery_loop_checked, if_neg hc]
  | cons o tl => simp only [discovery_loop_checked, if_neg hc]

theorem discovery_attempts_le (K : SamplerParams) :
    ∀ (l : List Outcome) (s : Discovery), discovery_attempts K l s ≤ l.length := by
  intro l
  induction l with
  | nil => intro s; simp [discovery_attempts]
  | cons o rest ih =>
    intro s
    simp only [discovery_attempts, List.length_cons]
    split
    · have := ih (discovery_body K s o)
      omega
    · omega

/-- With the fail counters taken as a total map, the discovery loop is left within
`discovery_bound` attempts on every infinite sequence of outcomes, with
`path_overload` set or with `train_length > TRAIN_LENGTH_MAX`, after at most `4`
failed attempts per train length plus one. -/
theorem discovery_run_ends (K : SamplerParams) (conf : config_s) (f : Nat → Outcome) :
    (discovery_loop K (first_outcomes f (discovery_bound K)) (discovery_init K conf)).2 = true ∧
    ((discovery_loop K (first_outcomes f (discovery_bound K))
        (discovery_init K conf)).1.path_overload ≠ 0 ∨
      (discovery_loop K (first_outcomes f (discovery_bound K))
        (discovery_init K conf)).1.conf.train_length > K.TRAIN_LENGTH_MAX) ∧
    discovery_attempts K (first_outcomes f (discovery_bound K)) (discovery_init K conf) ≤
      discovery_bound K ∧
    discovery_failed K (first_outcomes f (discovery_bound K)) (discovery_init K conf) ≤
      4 * length_count K + 1 := by
  have hi := discovery_init_inv K conf
  have hs : fails_slack K (discovery_init K conf).train_fails = 5 * (length_count K : Int) :=
    fails_slack_init K
  have hlen : (first_outcomes f (discovery_bound K)).length = discovery_bound K := by
    simp [first_outcomes]
  have hend : (discovery_loop K (first_outcomes f (discovery_bound K))
      (discovery_init K conf)).2 = true := by
    apply discovery_loop_ends K _ _ hi
    rw [hs, hlen]
    have e : (discovery_init K conf).conf.train_length = K.TRAIN_LENGTH_MIN := rfl
    rw [e]
    unfold discovery_bound length_count
    push_cast
    omega
  obtain ⟨_, j2⟩ := discovery_loop_inv K (first_outcomes f (discovery_bound K))
    (discovery_init K conf) hi
  have hf := discovery_failed_le K (first_outcomes f (discovery_bound K))
    (discovery_init K conf) hi rfl
  rw [hs] at hf
  have ha := discovery_attempts_le K (first_outcomes f (discovery_bound K))
    (discovery_init K conf)
  rw [hlen] at ha
  exact ⟨hend, j2 hend, ha, by omega⟩

theorem exOutcomesFail_indices :
    discovery_fail_indices exSampler (first_outcomes exOutcomesFail (discovery_bound exSampler))
      (discovery_init exSampler exSession) = [2, 2, 2, 2, 2] := by
  decide

/-- C11 (the code at the failing input): the array `int train_fails[TRAIN_LENGTH_MAX]`
(line 771) has no entry for the length `TRAIN_LENGTH_MAX`, at which the loop (line 783,
`conf.train_length <= TRAIN_LENGTH_MAX`) still sends trains. While the failed attempts
stay inside the array, `train_length` never drops below `TRAIN_LENGTH_MIN`, a failure
that raises the fail counter of the current length above `4` sets `path_overload` and
ends the loop, one that leaves it in `2..4` decreases `train_length` by one unless it
is `TRAIN_LENGTH_MIN` already, the first failure at a length retries the same length
with the same `train_id`, and a received train advances `train_id` and `train_length`
by one. A failure at the length `TRAIN_LENGTH_MAX` (reached after
`TRAIN_LENGTH_MAX - TRAIN_LENGTH_MIN` received trains) increments and tests
`train_fails[TRAIN_LENGTH_MAX]`, outside the array: the counter of the current length
does not exist and what the attempt does to `path_overload` and `train_length` is
undefined. With lengths `2..3`: one received train, then a failure at length `3`. -/
theorem C11_discovery_policy_inside_array :
    (∀ (K : SamplerParams) (conf : config_s) (outcomes : List Outcome)
        (r : Discovery × Bool),
      discovery_loop_checked K outcomes (discovery_init K conf) = some r →
      K.TRAIN_LENGTH_MIN ≤ r.1.conf.train_length) ∧
    (∀ (K : SamplerParams) (s s1 : Discovery) (rest : List Outcome),
      discovery_body_checked K s none = some s1 →
      (0 ≤ s.conf.train_length ∧ s.conf.train_length < K.TRAIN_LENGTH_MAX) ∧
      (K.TRAIN_LENGTH_MIN ≤ s.conf.train_length →
        K.TRAIN_LENGTH_MIN ≤ s1.conf.train_length) ∧
      s1.train_fails s.conf.train_length = s.train_fails s.conf.train_length + 1 ∧
      (s.train_fails s.conf.train_length + 1 > 4 →
        s1.path_overload = 1 ∧ discovery_loop_checked K rest s1 = some (s1, true)) ∧
      (s.train_fails s.conf.train_length + 1 > 1 →
        s.train_fails s.conf.train_length + 1 ≤ 4 →
        s1.path_overload = s.path_overload ∧ s1.train_id = s.train_id ∧
        s1.conf.train_length =
          (if s.conf.train_length ≤ K.TRAIN_LENGTH_MIN then s.conf.train_length
           else s.conf.train_length - 1)) ∧
      (s.train_fails s.conf.train_length + 1 ≤ 1 →
        s1.path_overload = s.path_overload ∧ s1.train_id = s.train_id ∧
        s1.conf.train_length = s.conf.train_length)) ∧
    (∀ (K : SamplerParams) (s : Discovery) (delta : ℚ),
      ∃ s1, discovery_body_checked K s (some delta) = some s1 ∧
        s1.train_id = s.train_id + 1 ∧ s1.conf.train_length = s.conf.train_length + 1) ∧
    (∀ (K : SamplerParams) (s : Discovery) (rest : List Outcome),
      s.conf.train_length = K.TRAIN_LENGTH_MAX → s.path_overload = 0 →
      discovery_body_checked K s none = none ∧
      discovery_loop_checked K (none :: rest) s = none) ∧
    (∀ (K : SamplerParams) (conf : config_s) (f : Nat → Outcome),
      K.TRAIN_LENGTH_MIN ≤ K.TRAIN_LENGTH_MAX →
      (∀ i, i < (K.TRAIN_LENGTH_MAX - K.TRAIN_LENGTH_MIN).toNat → f i ≠ none) →
      f (K.TRAIN_LENGTH_MAX - K.TRAIN_LENGTH_MIN).toNat = none →
      ∀ m, (K.TRAIN_LENGTH_MAX - K.TRAIN_LENGTH_MIN).toNat < m →
        discovery_loop_checked K (first_outcomes f m) (discovery_init K conf) = none) ∧
    (exSampler.TRAIN_LENGTH_MIN = 2 ∧ exSampler.TRAIN_LENGTH_MAX = 3 ∧
      discovery_fail_indices exSampler [some 10, none] (discovery_init exSampler exSession) =
        [3] ∧
      discovery_loop_checked exSampler [some 10, none] (discovery_init exSampler exSession) =
        none) := by
  refine ⟨?_, ?_, ?_, ?_, ?_, rfl, rfl, ?_, ?_⟩
  · intro K conf outcomes r h
    rw [discovery_loop_checked_some K outcomes _ r h]
    exact discovery_loop_length_ge K outcomes _ (le_refl _)
  · intro K s s1 rest h
    have hb : 0 ≤ s.conf.train_length ∧ s.conf.train_length < K.TRAIN_LENGTH_MAX := by
      by_contra hcon
      rw [(discovery_body_checked_cases K s).2.2.1 hcon] at h
      exact absurd h (by simp)
    have e := (discovery_body_checked_cases K s).2.2.2 none s1 h
    obtain ⟨f1, f2, f3, f4, f5⟩ := discovery_body_failed K s
    rw [e]
    refine ⟨hb, discovery_body_length_ge K s none, f1, ?_, ?_, ?_⟩
    · intro h4
      exact ⟨(f3 h4).1, discovery_loop_checked_overload K rest _ (f3 h4).1⟩
    · intro h1 h4
      exact ⟨(f4 h1 h4).1, f2, (f4 h1 h4).2⟩
    · intro h1
      exact ⟨(f5 h1).1, f2, (f5 h1).2⟩
  · intro K s delta
    exact ⟨_, rfl, rfl, rfl⟩
  · intro K s rest h1 h0
    have hb : ¬ (0 ≤ s.conf.train_length ∧ s.conf.train_length < K.TRAIN_LENGTH_MAX) := by
      rintro ⟨_, h⟩
      omega
    have hn := (discovery_body_checked_cases K s).2.2.1 hb
    refine ⟨hn, ?_⟩
    simp only [discovery_loop_checked, if_pos (⟨le_of_eq h1, h0⟩ : _ ∧ _), hn]
  · intro K conf f h hs hf m hm
    apply discovery_checked_climb K (K.TRAIN_LENGTH_MAX - K.TRAIN_LENGTH_MIN).toNat m f
      (discovery_init K conf) rfl _ hs hf hm
    show K.TRAIN_LENGTH_MIN + _ = _
    rw [Int.toNat_of_nonneg (by omega)]
    omega
  · exact discovery_fail_indices_climb exSampler 10 1 (discovery_init exSampler exSession) rfl
      (by decide)
  · have h := discovery_checked_climb exSampler 1 2 exOutcomesClimb
      (discovery_init exSampler exSession) rfl (by decide)
      (fun i hi => by
        have : i = 0 := by omega
        rw [this]
        simp [exOutcomesClimb])
      rfl (by decide)
    exact h

/-- C25 (the code at the failing input): on every infinite sequence of train outcomes
the discovery loop, within `11 * (TRAIN_LENGTH_MAX - TRAIN_LENGTH_MIN + 1)` attempts,
either accesses `train_fails` outside the `TRAIN_LENGTH_MAX` entries it is declared
with (line 771), or is left with `path_overload` set or with
`train_length > TRAIN_LENGTH_MAX` after at most `4` failed attempts per train length
plus one. The first case is that of every sequence whose attempts succeed up to the
length `TRAIN_LENGTH_MAX` and then fail once: the failed attempt increments and tests
`train_fails[TRAIN_LENGTH_MAX]`, a counter the array does not have, and what the loop
does from there on is undefined. With lengths `2..3`: a received train followed by
failures leaves the array at the second attempt; failures only (all at length `2`)
end the loop with `path_overload` set after five attempts. -/
theorem C25_discovery_ends_inside_array :
    (∀ (K : SamplerParams) (conf : config_s) (f : Nat → Outcome),
      (discovery_loop_checked K (first_outcomes f (discovery_bound K))
          (discovery_init K conf) = none ∧
        ∃ i, i ∈ discovery_fail_indices K (first_outcomes f (discovery_bound K))
            (discovery_init K conf) ∧ ¬ (0 ≤ i ∧ i < K.TRAIN_LENGTH_MAX)) ∨
      ∃ s, discovery_loop_checked K (first_outcomes f (discovery_bound K))
          (discovery_init K conf) = some (s, true) ∧
        (s.path_overload ≠ 0 ∨ s.conf.train_length > K.TRAIN_LENGTH_MAX) ∧
        discovery_attempts K (first_outcomes f (discovery_bound K)) (discovery_init K conf) ≤
          discovery_bound K ∧
        discovery_failed K (first_outcomes f (discovery_bound K)) (discovery_init K conf) ≤
          4 * length_count K + 1) ∧
    (∀ (K : SamplerParams) (conf : config_s) (f : Nat → Outcome),
      K.TRAIN_LENGTH_MIN ≤ K.TRAIN_LENGTH_MAX →
      (∀ i, i < (K.TRAIN_LENGTH_MAX - K.TRAIN_LENGTH_MIN).toNat → f i ≠ none) →
      f (K.TRAIN_LENGTH_MAX - K.TRAIN_LENGTH_MIN).toNat = none →
      discovery_loop_checked K (first_outcomes f (discovery_bound K))
        (discovery_init K conf) = none) ∧
    (discovery_bound exSampler = 22 ∧
      discovery_loop_checked exSampler (first_outcomes exOutcomesClimb 22)
        (discovery_init exSampler exSession) = none ∧
      (∃ s, discovery_loop_checked exSampler (first_outcomes exOutcomesFail 22)
          (discovery_init exSampler exSession) = some (s, true) ∧ s.path_overload = 1) ∧
      discovery_failed exSampler (first_outcomes exOutcomesFail 22)
        (discovery_init exSampler exSession) = 5) := by
  refine ⟨?_, ?_, rfl, ?_, ?_, ?_⟩
  · intro K conf f
    cases h : discovery_loop_checked K (first_outcomes f (discovery_bound K))
        (discovery_init K conf) with
    | none =>
      left
      exact ⟨rfl, ((discovery_loop_checked_iff K _ _).2).mp h⟩
    | some r =>
      right
      have e := discovery_loop_checked_some K _ _ r h
      obtain ⟨h1, h2, h3, h4⟩ := discovery_run_ends K conf f
      rw [← e] at h1 h2
      refine ⟨r.1, ?_, h2, h3, h4⟩
      rw [← h1]
  · intro K conf f h hs hf
    apply discovery_checked_climb K (K.TRAIN_LENGTH_MAX - K.TRAIN_LENGTH_MIN).toNat _ f
      (discovery_init K conf) rfl _ hs hf
    · unfold discovery_bound length_count
      omega
    · show K.TRAIN_LENGTH_MIN + _ = _
      rw [Int.toNat_of_nonneg (by omega)]
      omega
  · exact discovery_checked_climb exSampler 1 22 exOutcomesClimb
      (discovery_init exSampler exSession) rfl (by decide)
      (fun i hi => by
        have : i = 0 := by omega
        rw [this]
        simp [exOutcomesClimb])
      rfl (by decide)
  · have hin := ((discovery_loop_checked_iff exSampler (first_outcomes exOutcomesFail 22)
      (discovery_init exSampler exSession)).1).mpr (by
        intro i hi
        have e : discovery_fail_indices exSampler (first_outcomes exOutcomesFail 22)
            (discovery_init exSampler exSession) = [2, 2, 2, 2, 2] := exOutcomesFail_indices
        rw [e] at hi
        simp only [List.mem_cons, List.mem_singleton, List.not_mem_nil, or_false,
          or_self] at hi
        rw [hi]
        decide)
    obtain ⟨h1, h2, _, _⟩ := discovery_run_ends exSampler exSession exOutcomesFail
    refine ⟨(discovery_loop exSampler (first_outcomes exOutcomesFail 22)
      (discovery_init exSampler exSession)).1, ?_, ?_⟩
    · rw [hin]
      exact congrArg some (Prod.ext rfl h1.symm)
    · decide
  · decide

end Loco
